import Mathlib

/-!
The milter callbacks of amavisd-milter (`mlfi.c`)

A shallow embedding of `src/amavisd-milter/mlfi.c`.

* A C string is the list of its characters before the terminating NUL
  (`CStr`); a `NULL` pointer is `none`.  A fixed-size `char` buffer holding a
  string is the string itself, the empty list being `buf[0] == '\0'`.
* Everything outside `mlfi.c` (libmilter, libc, the `amavisd_*` socket helpers)
  is the environment `Env`: one oracle per external function, which receives
  the trace of external calls made so far and the arguments, and answers with
  the result.  Every external call is recorded, with its result, in the trace.
* Logging (`logmsg`, the `LOGQID*` macros) has no effect on the callbacks and
  is left out.
-/

namespace AmavisdMilter

/-- C string: the characters before the terminating NUL. -/
abbrev CStr := List Char

/-- The `sfsistat` values a callback returns. -/
inductive Sfsistat where
  | SMFIS_CONTINUE
  | SMFIS_REJECT
  | SMFIS_DISCARD
  | SMFIS_ACCEPT
  | SMFIS_TEMPFAIL
  deriving DecidableEq, Repr

open Sfsistat

/-- The calls of the libmilter mutation API used by `mlfi.c`.  `smfi_chgheader`
with a `NULL` value (`none`) deletes the header. -/
inductive MilterCall where
  | smfi_setreply (rcode xcode message : CStr)
  | smfi_addrcpt (rcpt : CStr)
  | smfi_delrcpt (rcpt : CStr)
  | smfi_addheader (headerf headerv : CStr)
  | smfi_chgheader (headerf : CStr) (hdridx : Int) (headerv : Option CStr)
  deriving DecidableEq, Repr

/-- One external call together with its result. -/
inductive Event where
  /-- a mutation-API call; `ok` is `MI_SUCCESS` -/
  | smfi (c : MilterCall) (ok : Bool)
  | smfi_setpriv (isNull : Bool) (ok : Bool)
  | smfi_getsymval (value : Option CStr)
  /-- a `malloc` or `strdup`; `ok` is a non-`NULL` result -/
  | alloc (ok : Bool)
  | fclose (ok : Bool)
  | unlink (path : CStr) (ok : Bool)
  | rmdir (path : CStr) (ok : Bool)
  | mkdir (path : CStr) (ok : Bool)
  | mkdtemp (template : CStr) (result : Option CStr)
  | chmod (path : CStr) (ok : Bool)
  | fopen (path : CStr) (ok : Bool)
  | fchmod (ok : Bool)
  /-- a `fprintf` or `fwrite` on the spool stream: the bytes handed over and how
  many of them the stream took -/
  | write (bytes : List Char) (accepted : Nat)
  | amavisd_init (ok : Bool)
  | amavisd_connect (ok : Bool)
  /-- the call `amavisd_request(sd, name, value)`; the call with `NULL, NULL` ends the
  request (the blank line) -/
  | amavisd_request (name value : Option CStr) (ok : Bool)
  /-- a call of `amavisd_response`: the line read, `none` when it returned `-1` -/
  | amavisd_response (line : Option CStr)
  | amavisd_close
  deriving DecidableEq, Repr

/-- The environment of the callbacks.  Each oracle gets the trace of the
external calls made before the call it answers. -/
structure Env where
  /-- result of a mutation-API call (`true` is `MI_SUCCESS`) -/
  smfi : List Event → MilterCall → Bool
  smfi_setpriv : List Event → Bool
  /-- result of `smfi_getsymval(ctx, "i")`: the queue id macro -/
  smfi_getsymval : List Event → Option CStr
  alloc : List Event → Bool
  fclose : List Event → Bool
  unlink : List Event → CStr → Bool
  rmdir : List Event → CStr → Bool
  mkdir : List Event → CStr → Bool
  mkdtemp : List Event → CStr → Option CStr
  chmod : List Event → CStr → Bool
  fopen : List Event → CStr → Bool
  fchmod : List Event → Bool
  /-- number of bytes the spool stream takes from a write; the write fails
  when it is less than the number handed over -/
  write : List Event → List Char → Nat
  amavisd_init : List Event → Bool
  amavisd_connect : List Event → Bool
  amavisd_request : List Event → Option CStr → Option CStr → Bool
  /-- the lines the engine sends on a connection; reading past the last one
  fails (`amavisd_response` returns `-1`) -/
  response : List CStr
  /-- the global `work_dir` -/
  work_dir : CStr
  /-- the value of `sizeof(mlfi->mlfi_wrkdir)` -/
  wrkdir_size : Nat
  /-- the value of `sizeof(mlfi->mlfi_fname)` -/
  fname_size : Nat

/-- A stdio stream opened for writing: the bytes it has taken and its error
indicator (`ferror`), which stays set once a write has failed. -/
structure FILE where
  data : List Char
  error : Bool
  deriving DecidableEq, Repr

/-- The private data `struct mlfiCtx` (connection and message context). -/
structure mlfiCtx where
  mlfi_addr : Option CStr
  mlfi_hostname : Option CStr
  mlfi_helo : Option CStr
  mlfi_qid : Option CStr
  mlfi_from : Option CStr
  /-- the linked list of `mlfiAddress`, head first -/
  mlfi_rcpt : List CStr
  mlfi_wrkdir : CStr
  mlfi_fname : CStr
  mlfi_fp : Option FILE
  deriving DecidableEq, Repr

/-- What a callback sees and changes: the private data pointer of the milter
context (`MLFICTX(ctx)`, `none` when `NULL`) and the trace of external calls. -/
structure State where
  priv : Option mlfiCtx
  trace : List Event
  deriving DecidableEq, Repr

/-- Macro `SMFI_SETREPLY`: call `smfi_setreply`; a failure is only logged. -/
def SMFI_SETREPLY (env : Env) (rcode xcode reason : CStr) (tr : List Event) : List Event :=
  tr ++ [Event.smfi (MilterCall.smfi_setreply rcode xcode reason)
          (env.smfi tr (MilterCall.smfi_setreply rcode xcode reason))]

/-- The reply of `SMFI_SETREPLY_TEMPFAIL`. -/
def tempfailReply : MilterCall :=
  MilterCall.smfi_setreply "451".toList "4.6.0".toList "Content scanner malfunction".toList

/-- Macro `SMFI_SETREPLY_TEMPFAIL`. -/
def SMFI_SETREPLY_TEMPFAIL (env : Env) (tr : List Event) : List Event :=
  SMFI_SETREPLY env "451".toList "4.6.0".toList "Content scanner malfunction".toList tr

/-- Macro `MLFI_STRDUP(dst, str)`: when `str` is neither `NULL` nor empty,
duplicate it into `dst`; `.error` is the early return with `SMFIS_TEMPFAIL`
(the reply set), otherwise the new value of `dst` and the trace. -/
def MLFI_STRDUP (env : Env) (dst : Option CStr) (str : Option CStr) (tr : List Event) :
    Except (List Event) (Option CStr × List Event) :=
  match str with
  | none => .ok (dst, tr)
  | some [] => .ok (dst, tr)
  | some (c :: cs) =>
    if env.alloc tr then .ok (some (c :: cs), tr ++ [Event.alloc true])
    else .error (SMFI_SETREPLY_TEMPFAIL env (tr ++ [Event.alloc false]))

/-- Function `mlfi_cleanup_message` on a non-`NULL` context: close the message
file if open, remove the message file and the work directory if their names
are set, release queue id, sender and recipients. -/
def mlfi_cleanup_message (env : Env) (mlfi : mlfiCtx) (tr : List Event) : mlfiCtx × List Event :=
  -- Close the message file
  let tr1 := match mlfi.mlfi_fp with
    | some _ => tr ++ [Event.fclose (env.fclose tr)]
    | none => tr
  -- Remove the message file
  let tr2 := if mlfi.mlfi_fname ≠ [] then
      tr1 ++ [Event.unlink mlfi.mlfi_fname (env.unlink tr1 mlfi.mlfi_fname)]
    else tr1
  -- Unlink work directory
  let tr3 := if mlfi.mlfi_wrkdir ≠ [] then
      tr2 ++ [Event.rmdir mlfi.mlfi_wrkdir (env.rmdir tr2 mlfi.mlfi_wrkdir)]
    else tr2
  ({ mlfi with mlfi_fp := none, mlfi_fname := [], mlfi_wrkdir := [],
               mlfi_qid := none, mlfi_from := none, mlfi_rcpt := [] }, tr3)

/-- Function `mlfi_cleanup` on a non-`NULL` context: clean up the message
context, then release the connection context.  The context is freed, only the
trace remains. -/
def mlfi_cleanup (env : Env) (mlfi : mlfiCtx) (tr : List Event) : List Event :=
  (mlfi_cleanup_message env mlfi tr).2

/-- Callback `mlfi_abort`. -/
def mlfi_abort (env : Env) (s : State) : Sfsistat × State :=
  match s.priv with
  | none => (SMFIS_CONTINUE, s)
  | some mlfi =>
    let r := mlfi_cleanup_message env mlfi s.trace
    (SMFIS_CONTINUE, { priv := some r.1, trace := r.2 })

/-- Callback `mlfi_close`.  `smfi_setpriv(ctx, NULL)` clears the private
data pointer; its result is not looked at. -/
def mlfi_close (env : Env) (s : State) : Sfsistat × State :=
  match s.priv with
  | none => (SMFIS_CONTINUE, s)
  | some mlfi =>
    let tr := mlfi_cleanup env mlfi s.trace
    (SMFIS_CONTINUE, { priv := none, trace := tr ++ [Event.smfi_setpriv true (env.smfi_setpriv tr)] })

/-- Callback `mlfi_connect`.  `hostaddr` is the text `inet_ntoa` gives for
the peer address, `none` when the pointer is `NULL`.  The context built is a
local until `smfi_setpriv` stores it. -/
def mlfi_connect (env : Env) (hostname hostaddr : Option CStr) (s : State) : Sfsistat × State :=
  -- Check amavisd socket
  let ok := env.amavisd_init s.trace
  let tr := s.trace ++ [Event.amavisd_init ok]
  if !ok then (SMFIS_TEMPFAIL, { s with trace := SMFI_SETREPLY_TEMPFAIL env tr })
  else
    -- Allocate memory for private data
    let ok := env.alloc tr
    let tr := tr ++ [Event.alloc ok]
    if !ok then (SMFIS_TEMPFAIL, { s with trace := SMFI_SETREPLY_TEMPFAIL env tr })
    else
      let mlfi : mlfiCtx :=
        { mlfi_addr := none, mlfi_hostname := none, mlfi_helo := none, mlfi_qid := none,
          mlfi_from := none, mlfi_rcpt := [], mlfi_wrkdir := [], mlfi_fname := [],
          mlfi_fp := none }
      -- Save connection informations
      match MLFI_STRDUP env mlfi.mlfi_hostname hostname tr with
      | .error tr => (SMFIS_TEMPFAIL, { s with trace := tr })
      | .ok (h, tr) =>
        let mlfi := { mlfi with mlfi_hostname := h }
        match MLFI_STRDUP env mlfi.mlfi_addr hostaddr tr with
        | .error tr => (SMFIS_TEMPFAIL, { s with trace := tr })
        | .ok (a, tr) =>
          let mlfi := { mlfi with mlfi_addr := a }
          -- Save the private data
          let ok := env.smfi_setpriv tr
          let tr := tr ++ [Event.smfi_setpriv false ok]
          if !ok then
            (SMFIS_TEMPFAIL, { s with trace := mlfi_cleanup env mlfi (SMFI_SETREPLY_TEMPFAIL env tr) })
          else (SMFIS_CONTINUE, { priv := some mlfi, trace := tr })

/-- Callback `mlfi_helo`. -/
def mlfi_helo (env : Env) (helohost : Option CStr) (s : State) : Sfsistat × State :=
  match s.priv with
  | none => (SMFIS_TEMPFAIL, { s with trace := SMFI_SETREPLY_TEMPFAIL env s.trace })
  | some mlfi =>
    match helohost with
    | none => (SMFIS_CONTINUE, s)
    | some [] => (SMFIS_CONTINUE, s)
    | some (c :: cs) =>
      -- Save helo hostname
      match MLFI_STRDUP env none (some (c :: cs)) s.trace with
      | .error tr => (SMFIS_TEMPFAIL, { priv := some { mlfi with mlfi_helo := none }, trace := tr })
      | .ok (h, tr) => (SMFIS_CONTINUE, { priv := some { mlfi with mlfi_helo := h }, trace := tr })

/-- Libc `snprintf(buf, n, ...)` of a text into a buffer: nothing is written
when `n` is zero, otherwise at most `n - 1` characters. -/
def snprintf (buf : CStr) (n : Nat) (text : CStr) : CStr :=
  if n = 0 then buf else text.take (n - 1)

/-- Libc `strlcpy(dst, src, size)`. -/
def strlcpy (dst src : CStr) (size : Nat) : CStr :=
  if size = 0 then dst else src.take (size - 1)

/-- The first attempt of `mlfi_envfrom` at a work directory (lines 392-398):
with a queue id, the directory named after it; the buffer is emptied again
when `mkdir` fails. -/
def envfrom_mkdir (env : Env) (mlfi : mlfiCtx) (tr : List Event) : mlfiCtx × List Event :=
  match mlfi.mlfi_qid with
  | some qid =>
    let w := snprintf mlfi.mlfi_wrkdir (env.wrkdir_size - 1)
      (env.work_dir ++ "/af".toList ++ qid)
    let ok := env.mkdir tr w
    ({ mlfi with mlfi_wrkdir := if ok then w else [] }, tr ++ [Event.mkdir w ok])
  | none => (mlfi, tr)

/-- The part of `mlfi_envfrom` that creates the work directory (lines
391-419): `.error` is the early return with `SMFIS_TEMPFAIL`. -/
def envfrom_wrkdir (env : Env) (mlfi : mlfiCtx) (tr : List Event) :
    Except (mlfiCtx × List Event) (mlfiCtx × List Event) :=
  let r := envfrom_mkdir env mlfi tr
  let mlfi := r.1
  let tr := r.2
  if mlfi.mlfi_wrkdir = [] then
    let w := snprintf mlfi.mlfi_wrkdir (env.wrkdir_size - 1)
      (env.work_dir ++ "/afXXXXXXXXXX".toList)
    match env.mkdtemp tr w with
    | some d =>
      let tr := tr ++ [Event.mkdtemp w (some d)]
      let mlfi := { mlfi with mlfi_wrkdir := strlcpy d d env.wrkdir_size }
      let ok := env.chmod tr mlfi.mlfi_wrkdir
      let tr := tr ++ [Event.chmod mlfi.mlfi_wrkdir ok]
      if !ok then .error (mlfi, SMFI_SETREPLY_TEMPFAIL env tr) else .ok (mlfi, tr)
    | none =>
      .error ({ mlfi with mlfi_wrkdir := [] },
        SMFI_SETREPLY_TEMPFAIL env (tr ++ [Event.mkdtemp w none]))
  else .ok (mlfi, tr)

/-- The part of `mlfi_envfrom` that opens the message file (lines 421-439). -/
def envfrom_open (env : Env) (mlfi : mlfiCtx) (tr : List Event) : Sfsistat × State :=
  let fname := snprintf mlfi.mlfi_fname (env.fname_size - 1)
    (mlfi.mlfi_wrkdir ++ "/email.txt".toList)
  let ok := env.fopen tr fname
  let tr := tr ++ [Event.fopen fname ok]
  if !ok then
    (SMFIS_TEMPFAIL, { priv := some { mlfi with mlfi_fname := fname, mlfi_fp := none },
                       trace := SMFI_SETREPLY_TEMPFAIL env tr })
  else
    let mlfi := { mlfi with mlfi_fname := fname, mlfi_fp := some { data := [], error := false } }
    let ok := env.fchmod tr
    let tr := tr ++ [Event.fchmod ok]
    if !ok then (SMFIS_TEMPFAIL, { priv := some mlfi, trace := SMFI_SETREPLY_TEMPFAIL env tr })
    else (SMFIS_CONTINUE, { priv := some mlfi, trace := tr })

/-- Callback `mlfi_envfrom`; `envfrom` is `*envfrom`, the sender address. -/
def mlfi_envfrom (env : Env) (envfrom : Option CStr) (s : State) : Sfsistat × State :=
  match s.priv with
  | none => (SMFIS_TEMPFAIL, { s with trace := SMFI_SETREPLY_TEMPFAIL env s.trace })
  | some mlfi =>
    -- Cleanup message data
    let r := mlfi_cleanup_message env mlfi s.trace
    let mlfi := r.1
    -- Get message id
    let qid := env.smfi_getsymval r.2
    let tr := r.2 ++ [Event.smfi_getsymval qid]
    match MLFI_STRDUP env mlfi.mlfi_qid qid tr with
    | .error tr => (SMFIS_TEMPFAIL, { priv := some mlfi, trace := tr })
    | .ok (q, tr) =>
      let mlfi := { mlfi with mlfi_qid := q }
      -- Save from mail address
      match MLFI_STRDUP env mlfi.mlfi_from envfrom tr with
      | .error tr => (SMFIS_TEMPFAIL, { priv := some mlfi, trace := tr })
      | .ok (f, tr) =>
        let mlfi := { mlfi with mlfi_from := f }
        match envfrom_wrkdir env mlfi tr with
        | .error (mlfi, tr) => (SMFIS_TEMPFAIL, { priv := some mlfi, trace := tr })
        | .ok (mlfi, tr) => envfrom_open env mlfi tr

/-- Callback `mlfi_envrcpt`; `envrcpt` is `*envrcpt`.  The new recipient is
linked after the last one. -/
def mlfi_envrcpt (env : Env) (envrcpt : CStr) (s : State) : Sfsistat × State :=
  match s.priv with
  | none => (SMFIS_TEMPFAIL, { s with trace := SMFI_SETREPLY_TEMPFAIL env s.trace })
  | some mlfi =>
    let ok := env.alloc s.trace
    let tr := s.trace ++ [Event.alloc ok]
    if !ok then (SMFIS_TEMPFAIL, { s with trace := SMFI_SETREPLY_TEMPFAIL env tr })
    else (SMFIS_CONTINUE,
      { priv := some { mlfi with mlfi_rcpt := mlfi.mlfi_rcpt ++ [envrcpt] }, trace := tr })

/-- Libc `fprintf` on a stream, the text being already formatted: the stream
takes all the bytes, or only the first `accepted` ones and its error indicator
is set. -/
def fprintf (fp : FILE) (bytes : List Char) (accepted : Nat) : FILE :=
  if bytes.length ≤ accepted then { fp with data := fp.data ++ bytes }
  else { data := fp.data ++ bytes.take accepted, error := true }

/-- Libc `fwrite(ptr, size, 1, stream)` with `size` the length of `bytes`: the
number of items written and the stream afterwards.  When `size` is zero it
returns zero and leaves the stream unchanged (ISO C11 7.21.8.2, POSIX);
otherwise it
returns 1 when the stream took all the bytes, and 0 with the error indicator
set when it did not. -/
def fwrite (bytes : List Char) (accepted : Nat) (fp : FILE) : Nat × FILE :=
  if bytes.length = 0 then (0, fp)
  else if bytes.length ≤ accepted then (1, { fp with data := fp.data ++ bytes })
  else (0, { data := fp.data ++ bytes.take accepted, error := true })

/-- Callback `mlfi_header`.  The result is `none` when `mlfi_fp` is `NULL`:
`fprintf` on a null stream is undefined. -/
def mlfi_header (env : Env) (headerf headerv : CStr) (s : State) : Option (Sfsistat × State) :=
  match s.priv with
  | none => some (SMFIS_TEMPFAIL, { s with trace := SMFI_SETREPLY_TEMPFAIL env s.trace })
  | some mlfi =>
    match mlfi.mlfi_fp with
    | none => none
    | some fp =>
      -- Write the header to the message file
      let bytes := headerf ++ ": ".toList ++ headerv ++ "\n".toList
      let k := env.write s.trace bytes
      let fp := fprintf fp bytes k
      let tr := s.trace ++ [Event.write bytes k]
      let mlfi := { mlfi with mlfi_fp := some fp }
      if fp.error then
        some (SMFIS_TEMPFAIL, { priv := some mlfi, trace := SMFI_SETREPLY_TEMPFAIL env tr })
      else some (SMFIS_CONTINUE, { priv := some mlfi, trace := tr })

/-- Callback `mlfi_eoh`; `none` as for `mlfi_header`. -/
def mlfi_eoh (env : Env) (s : State) : Option (Sfsistat × State) :=
  match s.priv with
  | none => some (SMFIS_TEMPFAIL, { s with trace := SMFI_SETREPLY_TEMPFAIL env s.trace })
  | some mlfi =>
    match mlfi.mlfi_fp with
    | none => none
    | some fp =>
      -- Write the blank line between the header and the body
      let bytes := "\n".toList
      let k := env.write s.trace bytes
      let fp := fprintf fp bytes k
      let tr := s.trace ++ [Event.write bytes k]
      let mlfi := { mlfi with mlfi_fp := some fp }
      if fp.error then
        some (SMFIS_TEMPFAIL, { priv := some mlfi, trace := SMFI_SETREPLY_TEMPFAIL env tr })
      else some (SMFIS_CONTINUE, { priv := some mlfi, trace := tr })

/-- Callback `mlfi_body`; `body` is the `bodylen` bytes at `bodyp`.  The
result is `none` when `mlfi_fp` is `NULL` (`fwrite` on a null stream). -/
def mlfi_body (env : Env) (body : List Char) (s : State) : Option (Sfsistat × State) :=
  match s.priv with
  | none => some (SMFIS_TEMPFAIL, { s with trace := SMFI_SETREPLY_TEMPFAIL env s.trace })
  | some mlfi =>
    match mlfi.mlfi_fp with
    | none => none
    | some fp =>
      -- Write the body chunk to the message file
      let k := env.write s.trace body
      let r := fwrite body k fp
      let tr := s.trace ++ [Event.write body k]
      let mlfi := { mlfi with mlfi_fp := some r.2 }
      if r.1 < 1 then
        some (SMFIS_TEMPFAIL, { priv := some mlfi, trace := SMFI_SETREPLY_TEMPFAIL env tr })
      else some (SMFIS_CONTINUE, { priv := some mlfi, trace := tr })

/-- Macro `AMAVISD_REQUEST`: send one request line; `.error` is the early
return with `SMFIS_TEMPFAIL`, the reply set and the socket closed. -/
def AMAVISD_REQUEST (env : Env) (name value : Option CStr) (tr : List Event) :
    Except (List Event) (List Event) :=
  if env.amavisd_request tr name value then
    .ok (tr ++ [Event.amavisd_request name value true])
  else
    .error (SMFI_SETREPLY_TEMPFAIL env (tr ++ [Event.amavisd_request name value false])
      ++ [Event.amavisd_close])

/-- The `while (rcpt != NULL)` loop of `mlfi_eom` (lines 628-632). -/
def eom_recipients (env : Env) : List CStr → List Event → Except (List Event) (List Event)
  | [], tr => .ok tr
  | rcpt :: rest, tr =>
    match AMAVISD_REQUEST env (some "recipient".toList) (some rcpt) tr with
    | .error tr => .error tr
    | .ok tr => eom_recipients env rest tr

/-- The part of `mlfi_eom` that sends the request (lines 622-644). -/
def eom_request (env : Env) (mlfi : mlfiCtx) (tr : List Event) :
    Except (List Event) (List Event) :=
  AMAVISD_REQUEST env (some "request".toList) (some "AM.PDP".toList) tr >>= fun tr =>
  (if mlfi.mlfi_qid ≠ none then
      AMAVISD_REQUEST env (some "queue_id".toList) mlfi.mlfi_qid tr
    else pure tr) >>= fun tr =>
  AMAVISD_REQUEST env (some "sender".toList) mlfi.mlfi_from tr >>= fun tr =>
  eom_recipients env mlfi.mlfi_rcpt tr >>= fun tr =>
  AMAVISD_REQUEST env (some "tempdir".toList) (some mlfi.mlfi_wrkdir) tr >>= fun tr =>
  AMAVISD_REQUEST env (some "tempdir_removed_by".toList) (some "server".toList) tr >>= fun tr =>
  AMAVISD_REQUEST env (some "mail_file".toList) (some mlfi.mlfi_fname) tr >>= fun tr =>
  AMAVISD_REQUEST env (some "delivery_care_of".toList) (some "client".toList) tr >>= fun tr =>
  AMAVISD_REQUEST env (some "client_address".toList) mlfi.mlfi_addr tr >>= fun tr =>
  (if mlfi.mlfi_hostname ≠ none then
      AMAVISD_REQUEST env (some "client_name".toList) mlfi.mlfi_hostname tr
    else pure tr) >>= fun tr =>
  (if mlfi.mlfi_helo ≠ none then
      AMAVISD_REQUEST env (some "helo_name".toList) mlfi.mlfi_helo tr
    else pure tr) >>= fun tr =>
  AMAVISD_REQUEST env none none tr

/-- Macro `AMAVISD_RESPONSE(item, value, sep)`: `strchr` for the first `sep`;
`none` when there is none (the malformed line), otherwise the item before it
and the rest after it. -/
def AMAVISD_RESPONSE (sep : Char) : CStr → Option (CStr × CStr)
  | [] => none
  | c :: cs =>
    if c = sep then some ([], cs)
    else match AMAVISD_RESPONSE sep cs with
      | none => none
      | some (item, value) => some (c :: item, value)

/-- Libc `isspace` in the C locale. -/
def isspace (c : Char) : Bool :=
  c = ' ' || c = '\t' || c = '\n' || c = Char.ofNat 11 || c = Char.ofNat 12 || c = '\r'

/-- Libc `isdigit`. -/
def isdigit (c : Char) : Bool := 48 ≤ c.toNat && c.toNat ≤ 57

/-- The digits `strtol` consumes in base 10: the number read so far and the
text left. -/
def strtol_digits : CStr → Nat → Nat × CStr
  | [], acc => (acc, [])
  | c :: cs, acc =>
    if isdigit c then strtol_digits cs (acc * 10 + (c.toNat - 48)) else (acc, c :: cs)

/-- The value of `LONG_MAX` where `long` has 64 bits. -/
def LONG_MAX : Int := 2 ^ 63 - 1

/-- The value of `LONG_MIN` where `long` has 64 bits. -/
def LONG_MIN : Int := -(2 ^ 63)

/-- Libc `strtol(nptr, &endptr, 10)`: the value and the text at `endptr`.
White space is skipped, then an optional sign, then digits; without a digit
nothing is converted, the value is 0 and `endptr` is `nptr`; a value out of
range is `LONG_MAX` or `LONG_MIN`. -/
def strtol (nptr : CStr) : Int × CStr :=
  let s := nptr.dropWhile isspace
  let neg : Bool := s.head? = some '-'
  let t := if s.head? = some '-' ∨ s.head? = some '+' then s.tail else s
  match t with
  | [] => (0, nptr)
  | c :: _ =>
    if isdigit c then
      let r := strtol_digits t 0
      let v : Int := if neg then -(r.1 : Int) else (r.1 : Int)
      (max LONG_MIN (min LONG_MAX v), r.2)
    else (0, nptr)

/-- The conversion `(int)` of a `long`, `int` having 32 bits: the value
modulo `2 ^ 32` that lies in the range of `int`. -/
def int_of_long (v : Int) : Int := (v + 2 ^ 31) % 2 ^ 32 - 2 ^ 31

/-- What one response line asks for. -/
inductive Action where
  /-- a call of the mutation API -/
  | call (c : MilterCall)
  /-- a `return_value` line: the new pending `rstat` -/
  | verdict (rstat : Sfsistat)
  /-- nothing: `exit_code`, an unknown name, a `setreply` that is not 4xx/5xx -/
  | skip
  deriving DecidableEq, Repr

/-- The parsing of one non-blank response line in the loop of `mlfi_eom`
(lines 658-780), up to the mutation-API call of its branch: `none` is a line
the code gives up on (a missing separator, a bad index, an unknown return
value). -/
def amavisd_line (line : CStr) : Option Action :=
  -- Get name and value
  match AMAVISD_RESPONSE '=' line with
  | none => none
  | some (name, value) =>
    if name = "addrcpt".toList then some (Action.call (MilterCall.smfi_addrcpt value))
    else if name = "delrcpt".toList then some (Action.call (MilterCall.smfi_delrcpt value))
    else if name = "addheader".toList then
      match AMAVISD_RESPONSE ' ' value with
      | none => none
      | some (header, value) => some (Action.call (MilterCall.smfi_addheader header value))
    else if name = "chgheader".toList then
      match AMAVISD_RESPONSE ' ' value with
      | none => none
      | some (idx, value) =>
        let r := strtol idx
        if r.2 ≠ [] then none
        else match AMAVISD_RESPONSE ' ' value with
          | none => none
          | some (header, value) =>
            some (Action.call (MilterCall.smfi_chgheader header (int_of_long r.1) (some value)))
    else if name = "delheader".toList then
      match AMAVISD_RESPONSE ' ' value with
      | none => none
      | some (idx, value) =>
        let r := strtol idx
        if r.2 ≠ [] then none
        else some (Action.call (MilterCall.smfi_chgheader value (int_of_long r.1) none))
    else if name = "return_value".toList then
      if value = "continue".toList then some (Action.verdict SMFIS_CONTINUE)
      else if value = "accept".toList then some (Action.verdict SMFIS_ACCEPT)
      else if value = "reject".toList then some (Action.verdict SMFIS_REJECT)
      else if value = "discard".toList then some (Action.verdict SMFIS_DISCARD)
      else if value = "tempfail".toList then some (Action.verdict SMFIS_TEMPFAIL)
      else none
    else if name = "setreply".toList then
      match AMAVISD_RESPONSE ' ' value with
      | none => none
      | some (rcode, value) =>
        match AMAVISD_RESPONSE ' ' value with
        | none => none
        | some (xcode, value) =>
          if rcode.head? ≠ some '4' ∧ rcode.head? ≠ some '5' then some Action.skip
          else some (Action.call (MilterCall.smfi_setreply rcode xcode value))
    else if name = "exit_code".toList then some Action.skip
    else some Action.skip

/-- The end every failure inside the response loop shares:
`SMFI_SETREPLY_TEMPFAIL(); (void) amavisd_close(sd); return SMFIS_TEMPFAIL;`. -/
def eom_fail (env : Env) (tr : List Event) : Sfsistat × List Event :=
  (SMFIS_TEMPFAIL, SMFI_SETREPLY_TEMPFAIL env tr ++ [Event.amavisd_close])

/-- The response loop of `mlfi_eom` (lines 648-789): the lines still to be
read, the pending `rstat` and the trace; the value returned and the trace. -/
def eom_response (env : Env) : List CStr → Sfsistat → List Event → Sfsistat × List Event
  | [], _, tr =>
    -- Amavisd response fail
    eom_fail env (tr ++ [Event.amavisd_response none])
  | line :: rest, rstat, tr =>
    let tr := tr ++ [Event.amavisd_response (some line)]
    -- End of response
    if line = [] then (rstat, tr ++ [Event.amavisd_close])
    else
      match amavisd_line line with
      | none => eom_fail env tr
      | some (Action.call c) =>
        let ok := env.smfi tr c
        let tr := tr ++ [Event.smfi c ok]
        if !ok then eom_fail env tr else eom_response env rest rstat tr
      | some (Action.verdict v) => eom_response env rest v tr
      | some Action.skip => eom_response env rest rstat tr

/-- The part of `mlfi_eom` before the response loop (lines 596-644), the
message file being open: close it, connect to amavisd, send the request.
`.error` is an early return with `SMFIS_TEMPFAIL`. -/
def eom_open (env : Env) (tr : List Event) (mlfi : mlfiCtx) :
    Except (List Event) (List Event) :=
  -- Close the message file
  let ok := env.fclose tr
  let tr := tr ++ [Event.fclose ok]
  if !ok then .error (SMFI_SETREPLY_TEMPFAIL env tr)
  else
    -- Connect to amavisd
    let ok := env.amavisd_connect tr
    let tr := tr ++ [Event.amavisd_connect ok]
    if !ok then .error (SMFI_SETREPLY_TEMPFAIL env tr)
    else eom_request env mlfi tr

/-- Callback `mlfi_eom`. -/
def mlfi_eom (env : Env) (s : State) : Sfsistat × State :=
  match s.priv with
  | none => (SMFIS_TEMPFAIL, { s with trace := SMFI_SETREPLY_TEMPFAIL env s.trace })
  | some mlfi =>
    match mlfi.mlfi_fp with
    | none => (SMFIS_TEMPFAIL, { s with trace := SMFI_SETREPLY_TEMPFAIL env s.trace })
    | some _ =>
      let mlfi := { mlfi with mlfi_fp := none }
      match eom_open env s.trace mlfi with
      | .error tr => (SMFIS_TEMPFAIL, { priv := some mlfi, trace := tr })
      | .ok tr =>
        -- Process response from amavisd
        let r := eom_response env env.response SMFIS_TEMPFAIL tr
        (r.1, { priv := some mlfi, trace := r.2 })

/-- An environment in which every external call succeeds: the transport gives
queue id `qid`, `mkdtemp` fills the template in with `0`, and the engine
answers with `resp`. -/
def Env.good (qid : Option CStr) (resp : List CStr) : Env where
  smfi := fun _ _ => true
  smfi_setpriv := fun _ => true
  smfi_getsymval := fun _ => qid
  alloc := fun _ => true
  fclose := fun _ => true
  unlink := fun _ _ => true
  rmdir := fun _ _ => true
  mkdir := fun _ _ => true
  mkdtemp := fun _ t => some (t.map (fun c => if c = 'X' then '0' else c))
  chmod := fun _ _ => true
  fopen := fun _ _ => true
  fchmod := fun _ => true
  write := fun _ b => b.length
  amavisd_init := fun _ => true
  amavisd_connect := fun _ => true
  amavisd_request := fun _ _ _ => true
  response := resp
  work_dir := "/var/amavis".toList
  wrkdir_size := 1024
  fname_size := 1024

/-- The mutation-API call the loop of `mlfi_eom` makes for a response line,
if it makes one. -/
def lineCall (line : CStr) : Option MilterCall :=
  match amavisd_line line with
  | some (Action.call c) => some c
  | _ => none

/-- The `rstat` a response line sets, if it sets one. -/
def lineVerdict (line : CStr) : Option Sfsistat :=
  match amavisd_line line with
  | some (Action.verdict v) => some v
  | _ => none

/-- The state of the response loop of `mlfi_eom` after the given lines, when
none of them ended it (no blank line, no line the code gives up on, no failed
mutation-API call): the pending `rstat` and the trace. -/
def eom_lines (env : Env) : List CStr → Sfsistat → List Event → Option (Sfsistat × List Event)
  | [], rstat, tr => some (rstat, tr)
  | line :: rest, rstat, tr =>
    let tr := tr ++ [Event.amavisd_response (some line)]
    if line = [] then none
    else
      match amavisd_line line with
      | none => none
      | some (Action.call c) =>
        if env.smfi tr c then eom_lines env rest rstat (tr ++ [Event.smfi c true]) else none
      | some (Action.verdict v) => eom_lines env rest v tr
      | some Action.skip => eom_lines env rest rstat tr

/-- The mutation-API calls recorded in a trace, in order. -/
def milterCalls (tr : List Event) : List MilterCall :=
  tr.filterMap (fun e => match e with
    | Event.smfi c _ => some c
    | _ => none)

/-- The request lines recorded in a trace, in order: the name and value of
each `amavisd_request` call. -/
def requestLines (tr : List Event) : List (Option CStr × Option CStr) :=
  tr.filterMap (fun e => match e with
    | Event.amavisd_request n v _ => some (n, v)
    | _ => none)

/-- The response lines read in a trace, in order (`none` for a failed read). -/
def responseReads (tr : List Event) : List (Option CStr) :=
  tr.filterMap (fun e => match e with
    | Event.amavisd_response l => some l
    | _ => none)

/-- The number of `amavisd_close` calls recorded in a trace. -/
def closeCount (tr : List Event) : Nat :=
  tr.count Event.amavisd_close

/-- The verdict a `return_value` value names, in the words of the response
table: one of `continue`, `accept`, `reject`, `discard`, `tempfail`. -/
def namedVerdict (value : CStr) : Option Sfsistat :=
  [("continue".toList, SMFIS_CONTINUE), ("accept".toList, SMFIS_ACCEPT),
   ("reject".toList, SMFIS_REJECT), ("discard".toList, SMFIS_DISCARD),
   ("tempfail".toList, SMFIS_TEMPFAIL)].lookup value

/-- The value of a `return_value` line: the text after `return_value=` when
the line starts with it. -/
def returnValueOf (line : CStr) : Option CStr :=
  if line.take 13 = "return_value=".toList then some (line.drop 13) else none

/-- The verdict of a response as the specification words it: the verdict the
last `return_value` line names, temporary failure when there is no such
line. -/
def specVerdict (lines : List CStr) : Sfsistat :=
  match (lines.filterMap returnValueOf).getLast? with
  | none => SMFIS_TEMPFAIL
  | some value => (namedVerdict value).getD SMFIS_TEMPFAIL

/-- The events of the part of `mlfi_eom` before the response loop when it
goes through: closing the message file, connecting, sending request lines. -/
def isSendEvent : Event → Bool
  | Event.fclose true => true
  | Event.amavisd_connect true => true
  | Event.amavisd_request _ _ true => true
  | _ => false

/-- Trace `t` is trace `tr` followed by events of the sending part only. -/
def SendOnly (tr t : List Event) : Prop :=
  ∃ evs, t = tr ++ evs ∧ ∀ e ∈ evs, isSendEvent e = true

/-- A message context as a successful `mlfi_envfrom` (queue id `Q1`, sender
`a@x`) and two `mlfi_envrcpt` (`b@y`, `c@z`) leave it on a connection from
`192.0.2.1`, with `data` written to the message file so far. -/
def ctxOpen (data : List Char) : mlfiCtx where
  mlfi_addr := some "192.0.2.1".toList
  mlfi_hostname := some "mx.example".toList
  mlfi_helo := none
  mlfi_qid := some "Q1".toList
  mlfi_from := some "a@x".toList
  mlfi_rcpt := ["b@y".toList, "c@z".toList]
  mlfi_wrkdir := "/var/amavis/afQ1".toList
  mlfi_fname := "/var/amavis/afQ1/email.txt".toList
  mlfi_fp := some { data := data, error := false }

/-- The environment `Env.good` with a transport that rejects the call
`refused` and accepts every other one. -/
def Env.refusing (refused : MilterCall) (resp : List CStr) : Env :=
  { Env.good none resp with smfi := fun _ c => decide (c ≠ refused) }

/-- A call that removes something from the file system. -/
inductive Removal where
  | unlink (path : CStr)
  | rmdir (path : CStr)
  deriving DecidableEq, Repr

/-- The `unlink` and `rmdir` calls recorded in a trace, in order. -/
def removals (tr : List Event) : List Removal :=
  tr.filterMap (fun e => match e with
    | Event.unlink path _ => some (Removal.unlink path)
    | Event.rmdir path _ => some (Removal.rmdir path)
    | _ => none)

/-- The trace an `Except` result carries, early return or not. -/
def outTrace : Except (List Event) (List Event) → List Event
  | Except.ok t => t
  | Except.error t => t

/-- The callbacks the transport delivers, with their arguments. -/
inductive Callback where
  | connect (hostname hostaddr : Option CStr)
  | helo (helohost : Option CStr)
  | envfrom (sender : Option CStr)
  | envrcpt (rcpt : CStr)
  | header (headerf headerv : CStr)
  | eoh
  | body (chunk : List Char)
  | eom
  | abort
  | close
  deriving DecidableEq, Repr

/-- One callback of `smfilter` applied to the state; `none` when the callback
has no defined result. -/
def callback (env : Env) (cb : Callback) (s : State) : Option (Sfsistat × State) :=
  match cb with
  | Callback.connect hostname hostaddr => some (mlfi_connect env hostname hostaddr s)
  | Callback.helo helohost => some (mlfi_helo env helohost s)
  | Callback.envfrom sender => some (mlfi_envfrom env sender s)
  | Callback.envrcpt rcpt => some (mlfi_envrcpt env rcpt s)
  | Callback.header headerf headerv => mlfi_header env headerf headerv s
  | Callback.eoh => mlfi_eoh env s
  | Callback.body chunk => mlfi_body env chunk s
  | Callback.eom => some (mlfi_eom env s)
  | Callback.abort => some (mlfi_abort env s)
  | Callback.close => some (mlfi_close env s)

/-- The callbacks of a list delivered in order: the values returned and the
final state. -/
def callbacks (env : Env) : List Callback → State → Option (List Sfsistat × State)
  | [], s => some ([], s)
  | cb :: rest, s =>
    match callback env cb s with
    | none => none
    | some (v, s1) =>
      match callbacks env rest s1 with
      | none => none
      | some (vs, s2) => some (v :: vs, s2)

/-- The bytes the spool stream has taken, when there is a context with an open
message file. -/
def spool (s : State) : Option (List Char) :=
  match s.priv with
  | some mlfi =>
    match mlfi.mlfi_fp with
    | some fp => some fp.data
    | none => none
  | none => none

/-- The line `mlfi_header` is to write for a header: field, colon, space,
value, newline. -/
def headerLine (h : CStr × CStr) : List Char :=
  h.1 ++ ": ".toList ++ h.2 ++ "\n".toList

/-- The lines of a list of headers, one after the other. -/
def headerLines : List (CStr × CStr) → List Char
  | [] => []
  | h :: hs => headerLine h ++ headerLines hs

/-- The callbacks for a list of headers followed by the end of headers. -/
def headerCallbacks (hs : List (CStr × CStr)) : List Callback :=
  hs.map (fun h => Callback.header h.1 h.2) ++ [Callback.eoh]

/-- The value of a string of decimal digits. -/
def decimalValue (digits : CStr) : Nat :=
  digits.foldl (fun acc c => acc * 10 + (c.toNat - 48)) 0

/-- The mutation-API calls recorded in a trace with their results, in order. -/
def smfiEvents (tr : List Event) : List (MilterCall × Bool) :=
  tr.filterMap (fun e => match e with
    | Event.smfi c ok => some (c, ok)
    | _ => none)

/-- The environment `env` with another response of the engine. -/
def Env.withResponse (env : Env) (resp : List CStr) : Env :=
  { env with response := resp }

/-- Trace `t1` is trace `tr` followed by events of the sending part that went
through, then a request line whose write failed, the temporary-failure reply
and the close of the socket. -/
def RequestFailed (env : Env) (tr t1 : List Event) : Prop :=
  ∃ t2 n v, SendOnly tr t2 ∧
    t1 = t2 ++ [Event.amavisd_request n v false,
      Event.smfi tempfailReply (env.smfi (t2 ++ [Event.amavisd_request n v false]) tempfailReply),
      Event.amavisd_close]

/-- The environment `Env.good` with a socket on which the write of the request
line named `name` fails. -/
def Env.failingRequest (name : CStr) (resp : List CStr) : Env :=
  { Env.good none resp with amavisd_request := fun _ n _ => decide (n ≠ some name) }

/-- The environment `Env.good` with an engine that cannot be connected to. -/
def Env.noEngine (resp : List CStr) : Env :=
  { Env.good none resp with amavisd_connect := fun _ => false }

/-- Trace `t` is trace `tr` followed by further events. -/
def Extends (tr t : List Event) : Prop :=
  ∃ evs, t = tr ++ evs

/-- Trace `t` is trace `tr` followed by events among which the last
mutation-API call is `smfi_setreply` with `451`, `4.6.0`,
`Content scanner malfunction`. -/
def RepliedTempfail (tr t : List Event) : Prop :=
  ∃ evs, t = tr ++ evs ∧ (milterCalls evs).getLast? = some tempfailReply

/-- The response loop of `mlfi_eom`, at trace `t` with the lines `rest` still
to come, fails at its next step: the read fails, or the line read is given up
on (no separator, bad index, unknown return value), or the mutation-API call
of the line reports failure. -/
def FailsNext (env : Env) (t : List Event) (rest : List CStr) : Prop :=
  rest = [] ∨ ∃ l ls, rest = l :: ls ∧ l ≠ [] ∧
    (amavisd_line l = none ∨
      ∃ call, amavisd_line l = some (Action.call call) ∧
        env.smfi (t ++ [Event.amavisd_response (some l)]) call = false)

/-- What `MLFI_STRDUP` stores for a string: the string when it is neither
`NULL` nor empty, `NULL` otherwise. -/
def nonEmpty : Option CStr → Option CStr
  | some (c :: cs) => some (c :: cs)
  | _ => none

/-- Context `m1` differs from context `m` in work-directory name, message-file
name and file handle at most. -/
def SameEnvelope (m m1 : mlfiCtx) : Prop :=
  m1.mlfi_addr = m.mlfi_addr ∧ m1.mlfi_hostname = m.mlfi_hostname ∧
  m1.mlfi_helo = m.mlfi_helo ∧ m1.mlfi_qid = m.mlfi_qid ∧ m1.mlfi_from = m.mlfi_from ∧
  m1.mlfi_rcpt = m.mlfi_rcpt

/-- The split of a text at the first `sep`, as the specification words it:
the text before the first `sep` and the text after it; `none` when the text
holds no `sep`. -/
def specSplit (sep : Char) (text : CStr) : Option (CStr × CStr) :=
  if sep ∈ text then
    some (text.takeWhile (fun c => decide (c ≠ sep)),
      (text.dropWhile (fun c => decide (c ≠ sep))).drop 1)
  else none

/-- An index as the specification words it: a non-negative integer, written
in decimal digits. -/
def specIndex (idx : CStr) : Bool :=
  decide (idx ≠ []) && idx.all (fun c => decide ('0' ≤ c ∧ c ≤ '9'))

/-- A well-formed response line as the response table of the specification
words it: the line holds a `=`, which splits it into name and value; the value
of `addheader` is `<field> <text>`, that of `chgheader`
`<index> <field> <text>`, that of `delheader` `<index> <field>`, that of
`return_value` one of the five verdict names, that of `setreply`
`<rcode> <xcode> <text>`; the value of every other name is free. -/
def specWellFormed (line : CStr) : Bool :=
  match specSplit '=' line with
  | none => false
  | some (name, value) =>
    if name = "addheader".toList then (specSplit ' ' value).isSome
    else if name = "chgheader".toList then
      match specSplit ' ' value with
      | none => false
      | some (idx, rest) => specIndex idx && (specSplit ' ' rest).isSome
    else if name = "delheader".toList then
      match specSplit ' ' value with
      | none => false
      | some (idx, _) => specIndex idx
    else if name = "return_value".toList then (namedVerdict value).isSome
    else if name = "setreply".toList then
      match specSplit ' ' value with
      | none => false
      | some (_, rest) => (specSplit ' ' rest).isSome
    else true

end AmavisdMilter

/-! ## Lemmas on the line parser -/

namespace AmavisdMilter

open Sfsistat

theorem AMAVISD_RESPONSE_some (sep : Char) (l a b : CStr)
    (h : AMAVISD_RESPONSE sep l = some (a, b)) : l = a ++ sep :: b ∧ sep ∉ a := by
  induction l generalizing a with
  | nil => simp [AMAVISD_RESPONSE] at h
  | cons c cs ih =>
    unfold AMAVISD_RESPONSE at h
    by_cases hc : c = sep
    · simp [hc] at h
      obtain ⟨rfl, rfl⟩ := h
      simp [hc]
    · simp only [hc, if_false] at h
      cases hr : AMAVISD_RESPONSE sep cs with
      | none => simp [hr] at h
      | some p =>
        obtain ⟨a0, b0⟩ := p
        simp [hr] at h
        obtain ⟨rfl, rfl⟩ := h
        obtain ⟨h1, h2⟩ := ih a0 hr
        refine ⟨by simp [h1], ?_⟩
        simp only [List.mem_cons, not_or]
        exact ⟨fun e => hc e.symm, h2⟩

theorem AMAVISD_RESPONSE_append (sep : Char) (a b : CStr) (h : sep ∉ a) :
    AMAVISD_RESPONSE sep (a ++ sep :: b) = some (a, b) := by
  induction a with
  | nil => simp [AMAVISD_RESPONSE]
  | cons c cs ih =>
    simp only [List.mem_cons, not_or] at h
    have hc : ¬ c = sep := fun e => h.1 e.symm
    simp [AMAVISD_RESPONSE, hc, ih h.2]

theorem AMAVISD_RESPONSE_none (sep : Char) (l : CStr) (h : sep ∉ l) :
    AMAVISD_RESPONSE sep l = none := by
  induction l with
  | nil => simp [AMAVISD_RESPONSE]
  | cons c cs ih =>
    simp only [List.mem_cons, not_or] at h
    have hc : ¬ c = sep := fun e => h.1 e.symm
    simp [AMAVISD_RESPONSE, hc, ih h.2]

theorem amavisd_line_no_sep (l : CStr) (h : '=' ∉ l) : amavisd_line l = none := by
  simp [amavisd_line, AMAVISD_RESPONSE_none '=' l h]

/-! ## Lemmas on the response loop -/

theorem milterCalls_append (a b : List Event) :
    milterCalls (a ++ b) = milterCalls a ++ milterCalls b := by
  simp [milterCalls, List.filterMap_append]

theorem responseReads_append (a b : List Event) :
    responseReads (a ++ b) = responseReads a ++ responseReads b := by
  simp [responseReads, List.filterMap_append]

theorem requestLines_append (a b : List Event) :
    requestLines (a ++ b) = requestLines a ++ requestLines b := by
  simp [requestLines, List.filterMap_append]

theorem closeCount_append (a b : List Event) :
    closeCount (a ++ b) = closeCount a + closeCount b := by
  simp [closeCount, List.count_append]

/-- Once the lines `pre` are behind it, the loop goes on with the rest. -/
theorem eom_response_of_lines (env : Env) (pre rest : List CStr) :
    ∀ (r : Sfsistat) (t : List Event) (r1 : Sfsistat) (t1 : List Event),
      eom_lines env pre r t = some (r1, t1) →
      eom_response env (pre ++ rest) r t = eom_response env rest r1 t1 := by
  induction pre with
  | nil =>
    intro r t r1 t1 h
    simp [eom_lines] at h
    obtain ⟨rfl, rfl⟩ := h
    rfl
  | cons l ls ih =>
    intro r t r1 t1 h
    simp only [eom_lines] at h
    simp only [List.cons_append, eom_response]
    by_cases hl : l = []
    · simp [hl] at h
    · simp only [hl, if_false] at h ⊢
      cases ha : amavisd_line l with
      | none => simp [ha] at h
      | some a =>
        cases a with
        | call c =>
          simp only [ha] at h ⊢
          by_cases hc : env.smfi (t ++ [Event.amavisd_response (some l)]) c = true
          · simp only [hc, if_true] at h
            simpa [hc] using ih _ _ _ _ h
          · simp [hc] at h
        | verdict v =>
          simp only [ha] at h ⊢
          exact ih _ _ _ _ h
        | skip =>
          simp only [ha] at h ⊢
          exact ih _ _ _ _ h

/-- What the loop has done after lines that did not end it: the pending
verdict is the one of the last line that set one, one mutation-API call was
made per line that asks for one, one line was read per line, and the socket
was not closed. -/
theorem eom_lines_some (env : Env) (pre : List CStr) :
    ∀ (r : Sfsistat) (t : List Event) (r1 : Sfsistat) (t1 : List Event),
      eom_lines env pre r t = some (r1, t1) →
      r1 = ((pre.filterMap lineVerdict).getLast?).getD r ∧
      (∀ l ∈ pre, l ≠ [] ∧ amavisd_line l ≠ none) ∧
      ∃ evs, t1 = t ++ evs ∧ milterCalls evs = pre.filterMap lineCall ∧
        responseReads evs = pre.map some ∧ closeCount evs = 0 ∧ requestLines evs = [] ∧
        ∀ e ∈ evs, ∀ c, e ≠ Event.smfi c false := by
  induction pre with
  | nil =>
    intro r t r1 t1 h
    simp [eom_lines] at h
    obtain ⟨rfl, rfl⟩ := h
    simp [milterCalls, responseReads, closeCount, requestLines]
  | cons l ls ih =>
    intro r t r1 t1 h
    simp only [eom_lines] at h
    by_cases hl : l = []
    · simp [hl] at h
    · simp only [hl, if_false] at h
      cases ha : amavisd_line l with
      | none => simp [ha] at h
      | some a =>
        cases a with
        | call c =>
          simp only [ha] at h
          by_cases hc : env.smfi (t ++ [Event.amavisd_response (some l)]) c = true
          · simp only [hc, if_true] at h
            obtain ⟨h1, h2, evs, h3, h4, h5, h6, h7, h8⟩ := ih _ _ _ _ h
            refine ⟨?_, ?_, Event.amavisd_response (some l) :: Event.smfi c true :: evs,
              ?_, ?_, ?_, ?_, ?_, ?_⟩
            · simpa [lineVerdict, ha] using h1
            · intro x hx
              rcases List.mem_cons.1 hx with rfl | hx
              · exact ⟨hl, by simp [ha]⟩
              · exact h2 x hx
            · simp [h3]
            · have : milterCalls (Event.amavisd_response (some l) :: Event.smfi c true :: evs)
                  = c :: milterCalls evs := by simp [milterCalls]
              simp [this, h4, lineCall, ha]
            · have : responseReads (Event.amavisd_response (some l) :: Event.smfi c true :: evs)
                  = some l :: responseReads evs := by simp [responseReads]
              simp [this, h5]
            · have : closeCount (Event.amavisd_response (some l) :: Event.smfi c true :: evs)
                  = closeCount evs := by simp [closeCount]
              simp [this, h6]
            · have : requestLines (Event.amavisd_response (some l) :: Event.smfi c true :: evs)
                  = requestLines evs := by simp [requestLines]
              simp [this, h7]
            · intro e he c0
              rcases List.mem_cons.1 he with rfl | he
              · simp
              · rcases List.mem_cons.1 he with rfl | he
                · simp
                · exact h8 e he c0
          · simp [hc] at h
        | verdict v =>
          simp only [ha] at h
          obtain ⟨h1, h2, evs, h3, h4, h5, h6, h7, h8⟩ := ih _ _ _ _ h
          refine ⟨?_, ?_, Event.amavisd_response (some l) :: evs, ?_, ?_, ?_, ?_, ?_, ?_⟩
          · rw [h1]
            simp only [List.filterMap_cons, lineVerdict, ha]
            cases hq : (List.filterMap lineVerdict ls) with
            | nil => simp
            | cons y ys =>
              have hne : (y :: ys).getLast? = some ((y :: ys).getLast (by simp)) :=
                List.getLast?_eq_getLast _ _
              simp [List.getLast?_cons_cons, hne]
          · intro x hx
            rcases List.mem_cons.1 hx with rfl | hx
            · exact ⟨hl, by simp [ha]⟩
            · exact h2 x hx
          · simp [h3]
          · have : milterCalls (Event.amavisd_response (some l) :: evs)
                = milterCalls evs := by simp [milterCalls]
            simp [this, h4, lineCall, ha]
          · have : responseReads (Event.amavisd_response (some l) :: evs)
                = some l :: responseReads evs := by simp [responseReads]
            simp [this, h5]
          · have : closeCount (Event.amavisd_response (some l) :: evs)
                = closeCount evs := by simp [closeCount]
            simp [this, h6]
          · have : requestLines (Event.amavisd_response (some l) :: evs)
                = requestLines evs := by simp [requestLines]
            simp [this, h7]
          · intro e he c0
            rcases List.mem_cons.1 he with rfl | he
            · simp
            · exact h8 e he c0
        | skip =>
          simp only [ha] at h
          obtain ⟨h1, h2, evs, h3, h4, h5, h6, h7, h8⟩ := ih _ _ _ _ h
          refine ⟨?_, ?_, Event.amavisd_response (some l) :: evs, ?_, ?_, ?_, ?_, ?_, ?_⟩
          · simpa [lineVerdict, ha] using h1
          · intro x hx
            rcases List.mem_cons.1 hx with rfl | hx
            · exact ⟨hl, by simp [ha]⟩
            · exact h2 x hx
          · simp [h3]
          · have : milterCalls (Event.amavisd_response (some l) :: evs)
                = milterCalls evs := by simp [milterCalls]
            simp [this, h4, lineCall, ha]
          · have : responseReads (Event.amavisd_response (some l) :: evs)
                = some l :: responseReads evs := by simp [responseReads]
            simp [this, h5]
          · have : closeCount (Event.amavisd_response (some l) :: evs)
                = closeCount evs := by simp [closeCount]
            simp [this, h6]
          · have : requestLines (Event.amavisd_response (some l) :: evs)
                = requestLines evs := by simp [requestLines]
            simp [this, h7]
          · intro e he c0
            rcases List.mem_cons.1 he with rfl | he
            · simp
            · exact h8 e he c0

/-- Lines the parser takes, with every mutation-API call succeeding, do not
end the loop. -/
theorem eom_lines_of_ok (env : Env) (hsmfi : ∀ tr c, env.smfi tr c = true) (pre : List CStr) :
    ∀ (r : Sfsistat) (t : List Event), (∀ l ∈ pre, l ≠ [] ∧ amavisd_line l ≠ none) →
      ∃ r1 t1, eom_lines env pre r t = some (r1, t1) := by
  induction pre with
  | nil => intro r t _; exact ⟨r, t, rfl⟩
  | cons l ls ih =>
    intro r t h
    have hl := h l (List.mem_cons_self _ _)
    have hls : ∀ x ∈ ls, x ≠ [] ∧ amavisd_line x ≠ none :=
      fun x hx => h x (List.mem_cons_of_mem _ hx)
    simp only [eom_lines, hl.1, if_false]
    cases ha : amavisd_line l with
    | none => exact absurd ha hl.2
    | some a =>
      cases a with
      | call c => simpa [hsmfi] using ih r _ hls
      | verdict v => exact ih v _ hls
      | skip => exact ih r _ hls

/-! ## The verdict of the loop and the verdict of the specification -/

theorem AMAVISD_RESPONSE_return_value (l : CStr) (h : l.take 13 = "return_value=".toList) :
    AMAVISD_RESPONSE '=' l = some ("return_value".toList, l.drop 13) := by
  have hl : l = "return_value".toList ++ '=' :: l.drop 13 := by
    conv_lhs => rw [← List.take_append_drop 13 l, h]
    rfl
  conv_lhs => rw [hl]
  exact AMAVISD_RESPONSE_append '=' _ _ (by decide)

/-- A line that starts with `return_value=` is taken exactly when the rest is
one of the five names, and then sets that verdict. -/
theorem amavisd_line_return_value (l : CStr) (h : l.take 13 = "return_value=".toList) :
    amavisd_line l = (namedVerdict (l.drop 13)).map Action.verdict := by
  have hr := AMAVISD_RESPONSE_return_value l h
  have e1 : ¬ "return_value".toList = "addrcpt".toList := by decide
  have e2 : ¬ "return_value".toList = "delrcpt".toList := by decide
  have e3 : ¬ "return_value".toList = "addheader".toList := by decide
  have e4 : ¬ "return_value".toList = "chgheader".toList := by decide
  have e5 : ¬ "return_value".toList = "delheader".toList := by decide
  simp only [amavisd_line, hr, e1, e2, e3, e4, e5, if_false, if_true]
  generalize l.drop 13 = v
  by_cases v1 : v = "continue".toList
  · subst v1; rfl
  by_cases v2 : v = "accept".toList
  · subst v2; rfl
  by_cases v3 : v = "reject".toList
  · subst v3; rfl
  by_cases v4 : v = "discard".toList
  · subst v4; rfl
  by_cases v5 : v = "tempfail".toList
  · subst v5; rfl
  have b1 : (v == "continue".toList) = false := by simpa using v1
  have b2 : (v == "accept".toList) = false := by simpa using v2
  have b3 : (v == "reject".toList) = false := by simpa using v3
  have b4 : (v == "discard".toList) = false := by simpa using v4
  have b5 : (v == "tempfail".toList) = false := by simpa using v5
  simp only [v1, v2, v3, v4, v5, if_false, namedVerdict, List.lookup, b1, b2, b3, b4, b5,
    Option.map_none']

/-- A line whose name is not `return_value` sets no verdict. -/
theorem amavisd_line_not_verdict (l n v : CStr) (hr : AMAVISD_RESPONSE '=' l = some (n, v))
    (hn : ¬ n = "return_value".toList) (x : Sfsistat) :
    amavisd_line l ≠ some (Action.verdict x) := by
  intro hx
  simp only [amavisd_line, hr, hn, if_false] at hx
  split_ifs at hx
  all_goals first
    | exact Action.noConfusion (Option.some.inj hx)
    | (split at hx
       all_goals first
        | exact Option.noConfusion hx
        | exact Action.noConfusion (Option.some.inj hx)
        | (split at hx
           all_goals first
            | exact Option.noConfusion hx
            | exact Action.noConfusion (Option.some.inj hx)
            | (split at hx
               all_goals first
                | exact Option.noConfusion hx
                | exact Action.noConfusion (Option.some.inj hx))))

/-- The code reads a verdict off a line exactly when the line is
`return_value=` followed by one of the five names. -/
theorem lineVerdict_spec (l : CStr) : lineVerdict l = (returnValueOf l).bind namedVerdict := by
  by_cases h : l.take 13 = "return_value=".toList
  · simp only [lineVerdict, amavisd_line_return_value l h, returnValueOf, h, if_true,
      Option.some_bind]
    cases namedVerdict (l.drop 13) with
    | none => rfl
    | some x => rfl
  · simp only [returnValueOf, h, if_false, Option.none_bind]
    cases hr : AMAVISD_RESPONSE '=' l with
    | none => simp [lineVerdict, amavisd_line, hr]
    | some p =>
      obtain ⟨n, v⟩ := p
      have hn : ¬ n = "return_value".toList := by
        intro hn
        obtain ⟨h1, _⟩ := AMAVISD_RESPONSE_some '=' l n v hr
        apply h
        rw [h1, hn]
        rfl
      have key := amavisd_line_not_verdict l n v hr hn
      unfold lineVerdict
      cases ha : amavisd_line l with
      | none => rfl
      | some a =>
        cases a with
        | call c => rfl
        | verdict x => exact absurd ha (key x)
        | skip => rfl

theorem getLast?_filterMap_of_isSome {α β : Type} (f : α → Option β) (xs : List α)
    (h : ∀ x ∈ xs, f x ≠ none) : (xs.filterMap f).getLast? = xs.getLast?.bind f := by
  induction xs using List.reverseRecOn with
  | nil => simp
  | append_singleton ys y _ =>
    have hy : f y ≠ none := h y (by simp)
    obtain ⟨z, hz⟩ := Option.ne_none_iff_exists'.1 hy
    simp [List.filterMap_append, hz]

/-- On lines the parser takes, the verdict the loop holds at the end is the
verdict of the specification. -/
theorem specVerdict_of_lines (pre : List CStr) (h : ∀ l ∈ pre, amavisd_line l ≠ none) :
    ((pre.filterMap lineVerdict).getLast?).getD SMFIS_TEMPFAIL = specVerdict pre := by
  have e : pre.filterMap lineVerdict = (pre.filterMap returnValueOf).filterMap namedVerdict := by
    rw [List.filterMap_filterMap]
    congr 1
    funext l
    exact lineVerdict_spec l
  have hs : ∀ v ∈ pre.filterMap returnValueOf, namedVerdict v ≠ none := by
    intro v hv
    obtain ⟨l, hl, hlv⟩ := List.mem_filterMap.1 hv
    have h2 := h l hl
    by_cases h3 : l.take 13 = "return_value=".toList
    · simp only [returnValueOf, h3, if_true, Option.some.injEq] at hlv
      rw [amavisd_line_return_value l h3, hlv] at h2
      intro hnone
      apply h2
      rw [hnone]
      rfl
    · simp only [returnValueOf, h3, if_false] at hlv
      exact Option.noConfusion hlv
  rw [e, getLast?_filterMap_of_isSome namedVerdict _ hs]
  unfold specVerdict
  cases (pre.filterMap returnValueOf).getLast? with
  | none => rfl
  | some v => rfl

/-! ## Lemmas on the sending part of `mlfi_eom` -/

theorem SendOnly.refl (tr : List Event) : SendOnly tr tr := ⟨[], by simp, by simp⟩

theorem SendOnly.trans {a b c : List Event} (h1 : SendOnly a b) (h2 : SendOnly b c) :
    SendOnly a c := by
  obtain ⟨e1, rfl, p1⟩ := h1
  obtain ⟨e2, rfl, p2⟩ := h2
  refine ⟨e1 ++ e2, by simp, ?_⟩
  intro e he
  rcases List.mem_append.1 he with he | he
  · exact p1 e he
  · exact p2 e he

theorem SendOnly.projections {tr t : List Event} (h : SendOnly tr t) :
    milterCalls t = milterCalls tr ∧ responseReads t = responseReads tr ∧
      closeCount t = closeCount tr := by
  obtain ⟨evs, rfl, p⟩ := h
  have key : milterCalls evs = [] ∧ responseReads evs = [] ∧ closeCount evs = 0 := by
    induction evs with
    | nil => simp [milterCalls, responseReads, closeCount]
    | cons e es ih =>
      have he := p e (List.mem_cons_self _ _)
      have hes := ih (fun x hx => p x (List.mem_cons_of_mem _ hx))
      simp only [milterCalls, responseReads, closeCount] at hes ⊢
      cases e <;> simp_all [isSendEvent]
  simp [milterCalls_append, responseReads_append, closeCount_append, key.1, key.2.1, key.2.2]

theorem Except.bind_ok {ε α β : Type} {f : Except ε α} {g : α → Except ε β} {b : β}
    (h : (f >>= g) = Except.ok b) : ∃ a, f = Except.ok a ∧ g a = Except.ok b := by
  cases f with
  | error e => exact Except.noConfusion h
  | ok a => exact ⟨a, rfl, h⟩

theorem AMAVISD_REQUEST_ok {env : Env} {name value : Option CStr} {tr t : List Event}
    (h : AMAVISD_REQUEST env name value tr = Except.ok t) :
    t = tr ++ [Event.amavisd_request name value true] := by
  unfold AMAVISD_REQUEST at h
  split at h
  · exact (Except.ok.inj h).symm
  · exact Except.noConfusion h

theorem AMAVISD_REQUEST_sendOnly {env : Env} {name value : Option CStr} {tr t : List Event}
    (h : AMAVISD_REQUEST env name value tr = Except.ok t) : SendOnly tr t :=
  ⟨[Event.amavisd_request name value true], AMAVISD_REQUEST_ok h, by simp [isSendEvent]⟩

theorem AMAVISD_REQUEST_if_sendOnly {env : Env} {p : Prop} [Decidable p] {name value : Option CStr}
    {tr t : List Event}
    (h : (if p then AMAVISD_REQUEST env name value tr else pure tr) = Except.ok t) :
    SendOnly tr t := by
  split at h
  · exact AMAVISD_REQUEST_sendOnly h
  · cases h
    exact SendOnly.refl _

theorem eom_recipients_sendOnly (env : Env) (rcpts : List CStr) :
    ∀ tr t, eom_recipients env rcpts tr = Except.ok t → SendOnly tr t := by
  induction rcpts with
  | nil =>
    intro tr t h
    cases h
    exact SendOnly.refl _
  | cons r rs ih =>
    intro tr t h
    simp only [eom_recipients] at h
    split at h
    · exact Except.noConfusion h
    · rename_i t1 h1
      exact (AMAVISD_REQUEST_sendOnly h1).trans (ih _ _ h)

theorem eom_request_sendOnly {env : Env} {mlfi : mlfiCtx} {tr t : List Event}
    (h : eom_request env mlfi tr = Except.ok t) : SendOnly tr t := by
  unfold eom_request at h
  obtain ⟨t1, h1, h⟩ := Except.bind_ok h
  obtain ⟨t2, h2, h⟩ := Except.bind_ok h
  obtain ⟨t3, h3, h⟩ := Except.bind_ok h
  obtain ⟨t4, h4, h⟩ := Except.bind_ok h
  obtain ⟨t5, h5, h⟩ := Except.bind_ok h
  obtain ⟨t6, h6, h⟩ := Except.bind_ok h
  obtain ⟨t7, h7, h⟩ := Except.bind_ok h
  obtain ⟨t8, h8, h⟩ := Except.bind_ok h
  obtain ⟨t9, h9, h⟩ := Except.bind_ok h
  obtain ⟨t10, h10, h⟩ := Except.bind_ok h
  obtain ⟨t11, h11, h⟩ := Except.bind_ok h
  exact (AMAVISD_REQUEST_sendOnly h1).trans <|
    (AMAVISD_REQUEST_if_sendOnly h2).trans <|
    (AMAVISD_REQUEST_sendOnly h3).trans <|
    (eom_recipients_sendOnly env _ _ _ h4).trans <|
    (AMAVISD_REQUEST_sendOnly h5).trans <|
    (AMAVISD_REQUEST_sendOnly h6).trans <|
    (AMAVISD_REQUEST_sendOnly h7).trans <|
    (AMAVISD_REQUEST_sendOnly h8).trans <|
    (AMAVISD_REQUEST_sendOnly h9).trans <|
    (AMAVISD_REQUEST_if_sendOnly h10).trans <|
    (AMAVISD_REQUEST_if_sendOnly h11).trans <|
    AMAVISD_REQUEST_sendOnly h

theorem eom_open_sendOnly {env : Env} {mlfi : mlfiCtx} {tr t : List Event}
    (h : eom_open env tr mlfi = Except.ok t) : SendOnly tr t := by
  unfold eom_open at h
  by_cases h1 : env.fclose tr = true
  · simp only [h1, Bool.not_true, Bool.false_eq_true, if_false] at h
    by_cases h2 : env.amavisd_connect (tr ++ [Event.fclose true]) = true
    · simp only [h2, Bool.not_true, Bool.false_eq_true, if_false] at h
      have h3 := eom_request_sendOnly h
      refine SendOnly.trans ⟨[Event.fclose true, Event.amavisd_connect true], ?_, ?_⟩ h3
      · simp
      · simp [isSendEvent]
    · simp [h2] at h
  · simp [h1] at h

/-- The value and state of `mlfi_eom` once the message file was closed, the
engine connected and the request sent. -/
theorem mlfi_eom_of_open (env : Env) (c : mlfiCtx) (fp : FILE) (tr t0 : List Event)
    (hfp : c.mlfi_fp = some fp)
    (hopen : eom_open env tr { c with mlfi_fp := none } = Except.ok t0) :
    mlfi_eom env { priv := some c, trace := tr } =
      ((eom_response env env.response SMFIS_TEMPFAIL t0).1,
        { priv := some { c with mlfi_fp := none },
          trace := (eom_response env env.response SMFIS_TEMPFAIL t0).2 }) := by
  simp [mlfi_eom, hfp, hopen]

/-- The blank line ends the loop with the pending verdict and closes the
socket. -/
theorem eom_response_blank (env : Env) (post : List CStr) (r : Sfsistat) (t : List Event) :
    eom_response env ([] :: post) r t =
      (r, t ++ [Event.amavisd_response (some []), Event.amavisd_close]) := by
  simp [eom_response]

/-! ## The call each shape of line leads to -/

theorem lineCall_addrcpt (a : CStr) :
    lineCall ("addrcpt=".toList ++ a) = some (MilterCall.smfi_addrcpt a) := by
  have h : AMAVISD_RESPONSE '=' ("addrcpt=".toList ++ a) = some ("addrcpt".toList, a) :=
    AMAVISD_RESPONSE_append '=' "addrcpt".toList a (by decide)
  simp only [lineCall, amavisd_line, h, if_true]

theorem lineCall_delrcpt (a : CStr) :
    lineCall ("delrcpt=".toList ++ a) = some (MilterCall.smfi_delrcpt a) := by
  have h : AMAVISD_RESPONSE '=' ("delrcpt=".toList ++ a) = some ("delrcpt".toList, a) :=
    AMAVISD_RESPONSE_append '=' "delrcpt".toList a (by decide)
  have e1 : ¬ "delrcpt".toList = "addrcpt".toList := by decide
  simp only [lineCall, amavisd_line, h, e1, if_false, if_true]

theorem lineCall_addheader (f v : CStr) (hf : ' ' ∉ f) :
    lineCall ("addheader=".toList ++ f ++ ' ' :: v) = some (MilterCall.smfi_addheader f v) := by
  have h : AMAVISD_RESPONSE '=' ("addheader=".toList ++ f ++ ' ' :: v)
      = some ("addheader".toList, f ++ ' ' :: v) := by
    rw [List.append_assoc]
    exact AMAVISD_RESPONSE_append '=' "addheader".toList _ (by decide)
  have e1 : ¬ "addheader".toList = "addrcpt".toList := by decide
  have e2 : ¬ "addheader".toList = "delrcpt".toList := by decide
  simp only [lineCall, amavisd_line, h, e1, e2, if_false, if_true,
    AMAVISD_RESPONSE_append ' ' f v hf]

theorem lineCall_chgheader (i f v : CStr) (hi : ' ' ∉ i) (hf : ' ' ∉ f)
    (hnum : (strtol i).2 = []) :
    lineCall ("chgheader=".toList ++ i ++ ' ' :: (f ++ ' ' :: v))
      = some (MilterCall.smfi_chgheader f (int_of_long (strtol i).1) (some v)) := by
  have h : AMAVISD_RESPONSE '=' ("chgheader=".toList ++ i ++ ' ' :: (f ++ ' ' :: v))
      = some ("chgheader".toList, i ++ ' ' :: (f ++ ' ' :: v)) := by
    rw [List.append_assoc]
    exact AMAVISD_RESPONSE_append '=' "chgheader".toList _ (by decide)
  have e1 : ¬ "chgheader".toList = "addrcpt".toList := by decide
  have e2 : ¬ "chgheader".toList = "delrcpt".toList := by decide
  have e3 : ¬ "chgheader".toList = "addheader".toList := by decide
  simp only [lineCall, amavisd_line, h, e1, e2, e3, if_false, if_true,
    AMAVISD_RESPONSE_append ' ' i _ hi, AMAVISD_RESPONSE_append ' ' f v hf, hnum,
    ne_eq, not_true_eq_false]

theorem lineCall_delheader (i f : CStr) (hi : ' ' ∉ i) (hnum : (strtol i).2 = []) :
    lineCall ("delheader=".toList ++ i ++ ' ' :: f)
      = some (MilterCall.smfi_chgheader f (int_of_long (strtol i).1) none) := by
  have h : AMAVISD_RESPONSE '=' ("delheader=".toList ++ i ++ ' ' :: f)
      = some ("delheader".toList, i ++ ' ' :: f) := by
    rw [List.append_assoc]
    exact AMAVISD_RESPONSE_append '=' "delheader".toList _ (by decide)
  have e1 : ¬ "delheader".toList = "addrcpt".toList := by decide
  have e2 : ¬ "delheader".toList = "delrcpt".toList := by decide
  have e3 : ¬ "delheader".toList = "addheader".toList := by decide
  have e4 : ¬ "delheader".toList = "chgheader".toList := by decide
  simp only [lineCall, amavisd_line, h, e1, e2, e3, e4, if_false, if_true,
    AMAVISD_RESPONSE_append ' ' i _ hi, hnum, ne_eq, not_true_eq_false]

theorem amavisd_line_setreply (rc xc v : CStr) (hrc : ' ' ∉ rc) (hxc : ' ' ∉ xc) :
    amavisd_line ("setreply=".toList ++ rc ++ ' ' :: (xc ++ ' ' :: v))
      = if rc.head? ≠ some '4' ∧ rc.head? ≠ some '5' then some Action.skip
        else some (Action.call (MilterCall.smfi_setreply rc xc v)) := by
  have h : AMAVISD_RESPONSE '=' ("setreply=".toList ++ rc ++ ' ' :: (xc ++ ' ' :: v))
      = some ("setreply".toList, rc ++ ' ' :: (xc ++ ' ' :: v)) := by
    rw [List.append_assoc]
    exact AMAVISD_RESPONSE_append '=' "setreply".toList _ (by decide)
  have e1 : ¬ "setreply".toList = "addrcpt".toList := by decide
  have e2 : ¬ "setreply".toList = "delrcpt".toList := by decide
  have e3 : ¬ "setreply".toList = "addheader".toList := by decide
  have e4 : ¬ "setreply".toList = "chgheader".toList := by decide
  have e5 : ¬ "setreply".toList = "delheader".toList := by decide
  have e6 : ¬ "setreply".toList = "return_value".toList := by decide
  simp only [amavisd_line, h, e1, e2, e3, e4, e5, e6, if_false, if_true,
    AMAVISD_RESPONSE_append ' ' rc _ hrc, AMAVISD_RESPONSE_append ' ' xc v hxc]

theorem lineCall_setreply_45 (rc xc v : CStr) (hrc : ' ' ∉ rc) (hxc : ' ' ∉ xc)
    (h45 : rc.head? = some '4' ∨ rc.head? = some '5') :
    lineCall ("setreply=".toList ++ rc ++ ' ' :: (xc ++ ' ' :: v))
      = some (MilterCall.smfi_setreply rc xc v) := by
  have hc : ¬ (rc.head? ≠ some '4' ∧ rc.head? ≠ some '5') := by
    rintro ⟨h4, h5⟩
    rcases h45 with h | h
    · exact h4 h
    · exact h5 h
  simp only [lineCall, amavisd_line_setreply rc xc v hrc hxc, hc, if_false]

theorem lineCall_setreply_other (rc xc v : CStr) (hrc : ' ' ∉ rc) (hxc : ' ' ∉ xc)
    (h4 : rc.head? ≠ some '4') (h5 : rc.head? ≠ some '5') :
    amavisd_line ("setreply=".toList ++ rc ++ ' ' :: (xc ++ ' ' :: v)) = some Action.skip ∧
    lineCall ("setreply=".toList ++ rc ++ ' ' :: (xc ++ ' ' :: v)) = none := by
  have hc : rc.head? ≠ some '4' ∧ rc.head? ≠ some '5' := ⟨h4, h5⟩
  rw [lineCall, amavisd_line_setreply rc xc v hrc hxc, if_pos hc]
  exact ⟨rfl, rfl⟩

theorem lineCall_return_value (v : CStr) : lineCall ("return_value=".toList ++ v) = none := by
  have h : ("return_value=".toList ++ v).take 13 = "return_value=".toList := by
    simp
  rw [lineCall, amavisd_line_return_value _ h]
  cases namedVerdict (List.drop 13 ("return_value=".toList ++ v)) with
  | none => rfl
  | some x => rfl

theorem lineCall_exit_code (v : CStr) :
    amavisd_line ("exit_code=".toList ++ v) = some Action.skip ∧
    lineCall ("exit_code=".toList ++ v) = none := by
  have h : AMAVISD_RESPONSE '=' ("exit_code=".toList ++ v) = some ("exit_code".toList, v) :=
    AMAVISD_RESPONSE_append '=' "exit_code".toList v (by decide)
  have e1 : ¬ "exit_code".toList = "addrcpt".toList := by decide
  have e2 : ¬ "exit_code".toList = "delrcpt".toList := by decide
  have e3 : ¬ "exit_code".toList = "addheader".toList := by decide
  have e4 : ¬ "exit_code".toList = "chgheader".toList := by decide
  have e5 : ¬ "exit_code".toList = "delheader".toList := by decide
  have e6 : ¬ "exit_code".toList = "return_value".toList := by decide
  have e7 : ¬ "exit_code".toList = "setreply".toList := by decide
  simp only [lineCall, amavisd_line, h, e1, e2, e3, e4, e5, e6, e7, if_false, if_true, and_self]

theorem lineCall_unknown (n v : CStr) (hn : '=' ∉ n)
    (e1 : n ≠ "addrcpt".toList) (e2 : n ≠ "delrcpt".toList) (e3 : n ≠ "addheader".toList)
    (e4 : n ≠ "chgheader".toList) (e5 : n ≠ "delheader".toList)
    (e6 : n ≠ "return_value".toList) (e7 : n ≠ "setreply".toList) :
    amavisd_line (n ++ '=' :: v) = some Action.skip ∧ lineCall (n ++ '=' :: v) = none := by
  have h := AMAVISD_RESPONSE_append '=' n v hn
  simp only [lineCall, amavisd_line, h, e1, e2, e3, e4, e5, e6, e7, if_false, ite_self, and_self]

/-! ## The request when every socket write succeeds -/

theorem AMAVISD_REQUEST_all_ok (env : Env) (hreq : ∀ t n v, env.amavisd_request t n v = true)
    (name value : Option CStr) (tr : List Event) :
    AMAVISD_REQUEST env name value tr
      = Except.ok (tr ++ [Event.amavisd_request name value true]) := by
  simp [AMAVISD_REQUEST, hreq]

theorem eom_recipients_all_ok (env : Env) (hreq : ∀ t n v, env.amavisd_request t n v = true)
    (rcpts : List CStr) :
    ∀ tr, eom_recipients env rcpts tr = Except.ok (tr ++ rcpts.map
      (fun r => Event.amavisd_request (some "recipient".toList) (some r) true)) := by
  induction rcpts with
  | nil => intro tr; simp [eom_recipients]
  | cons r rs ih =>
    intro tr
    simp only [eom_recipients, AMAVISD_REQUEST, hreq, if_true, ih]
    simp

/-- The response loop sends nothing. -/
theorem eom_response_requestLines (env : Env) (lines : List CStr) :
    ∀ r t, requestLines (eom_response env lines r t).2 = requestLines t := by
  induction lines with
  | nil =>
    intro r t
    simp [eom_response, eom_fail, SMFI_SETREPLY_TEMPFAIL, SMFI_SETREPLY, requestLines,
      List.filterMap_append]
  | cons l ls ih =>
    intro r t
    simp only [eom_response]
    by_cases hl : l = []
    · simp [hl, requestLines, List.filterMap_append]
    · simp only [hl, if_false]
      cases ha : amavisd_line l with
      | none =>
        simp [eom_fail, SMFI_SETREPLY_TEMPFAIL, SMFI_SETREPLY, requestLines,
          List.filterMap_append]
      | some a =>
        cases a with
        | call c =>
          by_cases hc : env.smfi (t ++ [Event.amavisd_response (some l)]) c = true
          · simp only [hc, Bool.not_true, Bool.false_eq_true, if_false, ih]
            simp [requestLines, List.filterMap_append]
          · simp [hc, eom_fail, SMFI_SETREPLY_TEMPFAIL, SMFI_SETREPLY, requestLines,
              List.filterMap_append]
        | verdict v =>
          simp only [ih]
          simp [requestLines, List.filterMap_append]
        | skip =>
          simp only [ih]
          simp [requestLines, List.filterMap_append]

/-! ## `mlfi_eom` removes nothing -/

theorem removals_append (a b : List Event) : removals (a ++ b) = removals a ++ removals b := by
  simp [removals, List.filterMap_append]

theorem removals_SMFI_SETREPLY_TEMPFAIL (env : Env) (tr : List Event) :
    removals (SMFI_SETREPLY_TEMPFAIL env tr) = removals tr := by
  simp [SMFI_SETREPLY_TEMPFAIL, SMFI_SETREPLY, removals, List.filterMap_append]

theorem removals_AMAVISD_REQUEST (env : Env) (name value : Option CStr) (tr : List Event) :
    removals (outTrace (AMAVISD_REQUEST env name value tr)) = removals tr := by
  unfold AMAVISD_REQUEST
  split
  · simp [outTrace, removals, List.filterMap_append]
  · simp [outTrace, removals_append, removals_SMFI_SETREPLY_TEMPFAIL]
    simp [removals]

theorem removals_bind {x : Except (List Event) (List Event)}
    {g : List Event → Except (List Event) (List Event)} {tr : List Event}
    (hx : removals (outTrace x) = removals tr)
    (hg : ∀ t, removals (outTrace (g t)) = removals t) :
    removals (outTrace (x >>= g)) = removals tr := by
  cases x with
  | error e => exact hx
  | ok t => exact (hg t).trans hx

theorem removals_request_if (env : Env) (p : Prop) [Decidable p] (name value : Option CStr)
    (tr : List Event) :
    removals (outTrace (if p then AMAVISD_REQUEST env name value tr else pure tr))
      = removals tr := by
  split
  · exact removals_AMAVISD_REQUEST env name value tr
  · rfl

theorem removals_eom_recipients (env : Env) (rcpts : List CStr) :
    ∀ tr, removals (outTrace (eom_recipients env rcpts tr)) = removals tr := by
  induction rcpts with
  | nil => intro tr; rfl
  | cons r rs ih =>
    intro tr
    simp only [eom_recipients]
    have h := removals_AMAVISD_REQUEST env (some "recipient".toList) (some r) tr
    split
    · rename_i e he
      rw [he] at h
      exact h
    · rename_i t he
      rw [he] at h
      exact (ih t).trans h

theorem removals_eom_request (env : Env) (mlfi : mlfiCtx) (tr : List Event) :
    removals (outTrace (eom_request env mlfi tr)) = removals tr := by
  unfold eom_request
  refine removals_bind (removals_AMAVISD_REQUEST _ _ _ _) (fun t => ?_)
  refine removals_bind (removals_request_if _ _ _ _ _) (fun t => ?_)
  refine removals_bind (removals_AMAVISD_REQUEST _ _ _ _) (fun t => ?_)
  refine removals_bind (removals_eom_recipients _ _ _) (fun t => ?_)
  refine removals_bind (removals_AMAVISD_REQUEST _ _ _ _) (fun t => ?_)
  refine removals_bind (removals_AMAVISD_REQUEST _ _ _ _) (fun t => ?_)
  refine removals_bind (removals_AMAVISD_REQUEST _ _ _ _) (fun t => ?_)
  refine removals_bind (removals_AMAVISD_REQUEST _ _ _ _) (fun t => ?_)
  refine removals_bind (removals_AMAVISD_REQUEST _ _ _ _) (fun t => ?_)
  refine removals_bind (removals_request_if _ _ _ _ _) (fun t => ?_)
  refine removals_bind (removals_request_if _ _ _ _ _) (fun t => ?_)
  exact removals_AMAVISD_REQUEST _ _ _ _

theorem removals_eom_open (env : Env) (mlfi : mlfiCtx) (tr : List Event) :
    removals (outTrace (eom_open env tr mlfi)) = removals tr := by
  unfold eom_open
  simp only
  split
  · simp [outTrace, removals_SMFI_SETREPLY_TEMPFAIL, removals_append]
    simp [removals]
  · split
    · simp [outTrace, removals_SMFI_SETREPLY_TEMPFAIL, removals_append]
      simp [removals]
    · rw [removals_eom_request]
      simp [removals_append]
      simp [removals]

theorem removals_eom_fail (env : Env) (tr : List Event) :
    removals (eom_fail env tr).2 = removals tr := by
  simp [eom_fail, removals_append, removals_SMFI_SETREPLY_TEMPFAIL]
  simp [removals]

theorem removals_eom_response (env : Env) (lines : List CStr) :
    ∀ r t, removals (eom_response env lines r t).2 = removals t := by
  induction lines with
  | nil =>
    intro r t
    simp only [eom_response, removals_eom_fail, removals_append]
    simp [removals]
  | cons l ls ih =>
    intro r t
    simp only [eom_response]
    have hr : removals (t ++ [Event.amavisd_response (some l)]) = removals t := by
      simp [removals_append]; simp [removals]
    by_cases hl : l = []
    · simp [hl, removals_append]; simp [removals]
    · simp only [hl, if_false]
      cases ha : amavisd_line l with
      | none => simp only [removals_eom_fail, hr]
      | some a =>
        cases a with
        | call c =>
          have hc : removals (t ++ [Event.amavisd_response (some l)] ++
              [Event.smfi c (env.smfi (t ++ [Event.amavisd_response (some l)]) c)])
              = removals t := by
            rw [removals_append, hr]; simp [removals]
          simp only
          split
          · simp only [removals_eom_fail, hc]
          · simp only [ih, hc]
        | verdict v => simp only [ih, hr]
        | skip => simp only [ih, hr]

/-- The value `mlfi_eom` leaves in the private data, and that it removes
nothing. -/
theorem mlfi_eom_state (env : Env) (c : mlfiCtx) (tr : List Event) :
    (mlfi_eom env { priv := some c, trace := tr }).2.priv = some { c with mlfi_fp := none } ∧
    removals (mlfi_eom env { priv := some c, trace := tr }).2.trace = removals tr := by
  cases hfp : c.mlfi_fp with
  | none =>
    have hc : c = { c with mlfi_fp := none } := by
      cases c
      simp_all
    simp only [mlfi_eom, hfp, removals_SMFI_SETREPLY_TEMPFAIL, and_true]
    exact congrArg some hc
  | some fp =>
    simp only [mlfi_eom, hfp]
    have h := removals_eom_open env { c with mlfi_fp := none } tr
    split
    · rename_i e he
      rw [he] at h
      exact ⟨rfl, h⟩
    · rename_i t he
      rw [he] at h
      exact ⟨rfl, by simp only [removals_eom_response]; exact h⟩

/-! ## Cleanup of the message context -/

/-- The trace `mlfi_cleanup_message` leaves: the close, the unlink and the
rmdir, each when its guard holds, in this order. -/
theorem mlfi_cleanup_message_trace (env : Env) (c : mlfiCtx) (tr : List Event) :
    ∃ ok1 ok2 ok3, (mlfi_cleanup_message env c tr).2 = tr ++
      (if c.mlfi_fp ≠ none then [Event.fclose ok1] else []) ++
      (if c.mlfi_fname ≠ [] then [Event.unlink c.mlfi_fname ok2] else []) ++
      (if c.mlfi_wrkdir ≠ [] then [Event.rmdir c.mlfi_wrkdir ok3] else []) := by
  unfold mlfi_cleanup_message
  cases hfp : c.mlfi_fp with
  | none =>
    by_cases hf : c.mlfi_fname = [] <;> by_cases hw : c.mlfi_wrkdir = []
    · exact ⟨true, true, true, by simp [hf, hw]⟩
    · exact ⟨true, true, env.rmdir tr c.mlfi_wrkdir, by simp [hf, hw]⟩
    · exact ⟨true, env.unlink tr c.mlfi_fname, true, by simp [hf, hw]⟩
    · exact ⟨true, env.unlink tr c.mlfi_fname,
        env.rmdir (tr ++ [Event.unlink c.mlfi_fname (env.unlink tr c.mlfi_fname)]) c.mlfi_wrkdir,
        by simp [hf, hw]⟩
  | some fp =>
    by_cases hf : c.mlfi_fname = [] <;> by_cases hw : c.mlfi_wrkdir = []
    · exact ⟨env.fclose tr, true, true, by simp [hf, hw]⟩
    · exact ⟨env.fclose tr, true, env.rmdir (tr ++ [Event.fclose (env.fclose tr)]) c.mlfi_wrkdir,
        by simp [hf, hw]⟩
    · exact ⟨env.fclose tr, env.unlink (tr ++ [Event.fclose (env.fclose tr)]) c.mlfi_fname, true,
        by simp [hf, hw]⟩
    · exact ⟨env.fclose tr, env.unlink (tr ++ [Event.fclose (env.fclose tr)]) c.mlfi_fname,
        env.rmdir (tr ++ [Event.fclose (env.fclose tr)] ++
          [Event.unlink c.mlfi_fname
            (env.unlink (tr ++ [Event.fclose (env.fclose tr)]) c.mlfi_fname)]) c.mlfi_wrkdir,
        by simp [hf, hw]⟩

theorem removals_mlfi_cleanup_message (env : Env) (c : mlfiCtx) (tr : List Event) :
    removals (mlfi_cleanup_message env c tr).2 = removals tr ++
      (if c.mlfi_fname ≠ [] then [Removal.unlink c.mlfi_fname] else []) ++
      (if c.mlfi_wrkdir ≠ [] then [Removal.rmdir c.mlfi_wrkdir] else []) := by
  obtain ⟨ok1, ok2, ok3, h⟩ := mlfi_cleanup_message_trace env c tr
  rw [h]
  simp only [removals_append]
  have h1 : removals (if c.mlfi_fp ≠ none then [Event.fclose ok1] else []) = [] := by
    split <;> rfl
  have h2 : removals (if c.mlfi_fname ≠ [] then [Event.unlink c.mlfi_fname ok2] else [])
      = if c.mlfi_fname ≠ [] then [Removal.unlink c.mlfi_fname] else [] := by
    split <;> rfl
  have h3 : removals (if c.mlfi_wrkdir ≠ [] then [Event.rmdir c.mlfi_wrkdir ok3] else [])
      = if c.mlfi_wrkdir ≠ [] then [Removal.rmdir c.mlfi_wrkdir] else [] := by
    split <;> rfl
  rw [h1, h2, h3]
  simp

/-- A cleaned message context has nothing left to clean: a further
`mlfi_cleanup_message` makes no external call and changes nothing. -/
theorem mlfi_cleanup_message_again (env env2 : Env) (c : mlfiCtx) (tr tr2 : List Event) :
    mlfi_cleanup_message env2 (mlfi_cleanup_message env c tr).1 tr2
      = ((mlfi_cleanup_message env c tr).1, tr2) := by
  simp [mlfi_cleanup_message]

theorem removals_snoc (tr : List Event) (e : Event) :
    removals (tr ++ [e]) = removals tr ++ removals [e] := removals_append tr [e]

theorem removals_MLFI_STRDUP (env : Env) (dst str : Option CStr) (tr : List Event) :
    (∀ v t, MLFI_STRDUP env dst str tr = Except.ok (v, t) → removals t = removals tr) ∧
    (∀ t, MLFI_STRDUP env dst str tr = Except.error t → removals t = removals tr) := by
  unfold MLFI_STRDUP
  refine ⟨?_, ?_⟩
  · intro v t h
    split at h
    · cases h; rfl
    · cases h; rfl
    · split at h
      · cases h
        rw [removals_snoc]
        simp [removals]
      · cases h
  · intro t h
    split at h
    · cases h
    · cases h
    · split at h
      · cases h
      · cases h
        rw [removals_SMFI_SETREPLY_TEMPFAIL, removals_snoc]
        simp [removals]

theorem removals_envfrom_mkdir (env : Env) (mlfi : mlfiCtx) (tr : List Event) :
    removals (envfrom_mkdir env mlfi tr).2 = removals tr := by
  unfold envfrom_mkdir
  split
  · simp only [removals_snoc]
    simp [removals]
  · rfl

theorem removals_envfrom_wrkdir (env : Env) (mlfi : mlfiCtx) (tr : List Event) :
    (∀ m t, envfrom_wrkdir env mlfi tr = Except.ok (m, t) → removals t = removals tr) ∧
    (∀ m t, envfrom_wrkdir env mlfi tr = Except.error (m, t) → removals t = removals tr) := by
  have h0 := removals_envfrom_mkdir env mlfi tr
  unfold envfrom_wrkdir
  simp only
  generalize envfrom_mkdir env mlfi tr = r at h0 ⊢
  refine ⟨?_, ?_⟩
  · intro m t h
    split at h
    · split at h
      · split at h
        · cases h
        · cases h
          simp only [removals_snoc, h0]
          simp [removals]
      · cases h
    · cases h
      exact h0
  · intro m t h
    split at h
    · split at h
      · split at h
        · cases h
          simp only [removals_SMFI_SETREPLY_TEMPFAIL, removals_snoc, h0]
          simp [removals]
        · cases h
      · cases h
        simp only [removals_SMFI_SETREPLY_TEMPFAIL, removals_snoc, h0]
        simp [removals]
    · cases h

theorem removals_envfrom_open (env : Env) (mlfi : mlfiCtx) (tr : List Event) :
    removals (envfrom_open env mlfi tr).2.trace = removals tr := by
  unfold envfrom_open
  simp only
  split
  · simp only [removals_SMFI_SETREPLY_TEMPFAIL, removals_snoc]
    simp [removals]
  · split
    · simp only [removals_SMFI_SETREPLY_TEMPFAIL, removals_snoc]
      simp [removals]
    · simp only [removals_snoc]
      simp [removals]

/-- The only removals of `mlfi_envfrom` are those of the cleanup it starts
with. -/
theorem removals_mlfi_envfrom (env : Env) (sender : Option CStr) (c : mlfiCtx) (tr : List Event) :
    removals (mlfi_envfrom env sender { priv := some c, trace := tr }).2.trace
      = removals (mlfi_cleanup_message env c tr).2 := by
  unfold mlfi_envfrom
  simp only
  have hg : removals ((mlfi_cleanup_message env c tr).2 ++
      [Event.smfi_getsymval (env.smfi_getsymval (mlfi_cleanup_message env c tr).2)])
      = removals (mlfi_cleanup_message env c tr).2 := by
    rw [removals_snoc]
    simp [removals]
  split
  · rename_i t1 h1
    exact ((removals_MLFI_STRDUP _ _ _ _).2 _ h1).trans hg
  · rename_i q t1 h1
    have e1 := ((removals_MLFI_STRDUP _ _ _ _).1 _ _ h1).trans hg
    split
    · rename_i t2 h2
      exact ((removals_MLFI_STRDUP _ _ _ _).2 _ h2).trans e1
    · rename_i f t2 h2
      have e2 := ((removals_MLFI_STRDUP _ _ _ _).1 _ _ h2).trans e1
      split
      · rename_i m t3 h3
        exact ((removals_envfrom_wrkdir _ _ _).2 _ _ h3).trans e2
      · rename_i m t3 h3
        have e3 := ((removals_envfrom_wrkdir _ _ _).1 _ _ h3).trans e2
        rw [removals_envfrom_open]
        exact e3

/-! ## Writing the spool -/

theorem fprintf_error (fp : FILE) (bytes : List Char) (k : Nat) :
    (fprintf fp bytes k).error = false ↔ fp.error = false ∧ bytes.length ≤ k := by
  unfold fprintf
  split
  · rename_i h
    simp [h]
  · rename_i h
    simp [h]

theorem fprintf_data (fp : FILE) (bytes : List Char) (k : Nat) (h : bytes.length ≤ k) :
    (fprintf fp bytes k).data = fp.data ++ bytes := by
  simp [fprintf, h]

/-- The result of `mlfi_header` on a context with an open message file: it is
`SMFIS_CONTINUE` exactly when the stream has no error pending and takes the
whole line, and then the line is appended. -/
theorem mlfi_header_open (env : Env) (c : mlfiCtx) (fp : FILE) (tr : List Event)
    (f v : CStr) (hfp : c.mlfi_fp = some fp) :
    (fp.error = false ∧ (headerLine (f, v)).length ≤ env.write tr (headerLine (f, v)) →
      mlfi_header env f v { priv := some c, trace := tr } = some (SMFIS_CONTINUE,
        { priv := some { c with mlfi_fp := some (FILE.mk (fp.data ++ headerLine (f, v)) false) },
          trace := tr ++ [Event.write (headerLine (f, v))
            (env.write tr (headerLine (f, v)))] })) ∧
    (∀ s1, mlfi_header env f v { priv := some c, trace := tr } = some (SMFIS_CONTINUE, s1) →
      fp.error = false ∧ (headerLine (f, v)).length ≤ env.write tr (headerLine (f, v)) ∧
      spool s1 = some (fp.data ++ headerLine (f, v))) := by
  have hb : f ++ ": ".toList ++ v ++ "\n".toList = headerLine (f, v) := rfl
  refine ⟨?_, ?_⟩
  · rintro ⟨he, hk⟩
    have h1 := (fprintf_error fp (headerLine (f, v)) (env.write tr (headerLine (f, v)))).2
      ⟨he, hk⟩
    simp only [mlfi_header, hfp, hb, h1, Bool.false_eq_true, if_false]
    simp [fprintf, hk, he]
  · intro s1 h
    simp only [mlfi_header, hfp, hb] at h
    split at h
    · simp at h
    · rename_i he
      have he2 : (fprintf fp (headerLine (f, v)) (env.write tr (headerLine (f, v)))).error
          = false := by simpa using he
      obtain ⟨h1, h2⟩ := (fprintf_error _ _ _).1 he2
      simp only [Option.some.injEq, Prod.mk.injEq, true_and] at h
      subst h
      exact ⟨h1, h2, by simp [spool, fprintf_data _ _ _ h2]⟩

/-- The result of `mlfi_eoh` on a context with an open message file. -/
theorem mlfi_eoh_open (env : Env) (c : mlfiCtx) (fp : FILE) (tr : List Event)
    (hfp : c.mlfi_fp = some fp) :
    (fp.error = false ∧ 1 ≤ env.write tr "\n".toList →
      mlfi_eoh env { priv := some c, trace := tr } = some (SMFIS_CONTINUE,
        { priv := some { c with mlfi_fp := some (FILE.mk (fp.data ++ "\n".toList) false) },
          trace := tr ++ [Event.write "\n".toList (env.write tr "\n".toList)] })) ∧
    (∀ s1, mlfi_eoh env { priv := some c, trace := tr } = some (SMFIS_CONTINUE, s1) →
      fp.error = false ∧ 1 ≤ env.write tr "\n".toList ∧
      spool s1 = some (fp.data ++ "\n".toList)) := by
  have hlen : ("\n".toList).length = 1 := rfl
  refine ⟨?_, ?_⟩
  · rintro ⟨he, hk⟩
    have h1 := (fprintf_error fp "\n".toList (env.write tr "\n".toList)).2 ⟨he, by rw [hlen]; exact hk⟩
    simp only [mlfi_eoh, hfp, h1, Bool.false_eq_true, if_false]
    have hk2 : ("\n".toList).length ≤ env.write tr "\n".toList := by rw [hlen]; exact hk
    simp only [fprintf, hk2, if_true, he]
  · intro s1 h
    simp only [mlfi_eoh, hfp] at h
    split at h
    · simp at h
    · rename_i he
      have he2 : (fprintf fp "\n".toList (env.write tr "\n".toList)).error = false := by
        simpa using he
      obtain ⟨h1, h2⟩ := (fprintf_error _ _ _).1 he2
      simp only [Option.some.injEq, Prod.mk.injEq, true_and] at h
      subst h
      refine ⟨h1, by rw [← hlen]; exact h2, ?_⟩
      have hd := fprintf_data fp "\n".toList (env.write tr "\n".toList) h2
      simp only [spool, hd]

/-- Headers then end of headers, no write failing: every callback returns
`SMFIS_CONTINUE` and the spool has grown by the header lines and a newline. -/
theorem headerCallbacks_run (env : Env) (hw : ∀ t b, b.length ≤ env.write t b)
    (hs : List (CStr × CStr)) :
    ∀ (c : mlfiCtx) (fp : FILE) (tr : List Event), c.mlfi_fp = some fp → fp.error = false →
      ∃ s1, callbacks env (headerCallbacks hs) { priv := some c, trace := tr }
          = some (List.replicate (hs.length + 1) SMFIS_CONTINUE, s1) ∧
        spool s1 = some (fp.data ++ headerLines hs ++ "\n".toList) := by
  induction hs with
  | nil =>
    intro c fp tr hfp he
    have h := (mlfi_eoh_open env c fp tr hfp).1 ⟨he, hw tr "\n".toList⟩
    refine ⟨{ priv := some { c with mlfi_fp := some (FILE.mk (fp.data ++ "\n".toList) false) },
              trace := tr ++ [Event.write "\n".toList (env.write tr "\n".toList)] }, ?_, ?_⟩
    · simp only [headerCallbacks, List.map_nil, List.nil_append, callbacks, callback, h]
      rfl
    · simp [spool, headerLines]
  | cons x xs ih =>
    intro c fp tr hfp he
    obtain ⟨f, v⟩ := x
    have h := (mlfi_header_open env c fp tr f v hfp).1 ⟨he, hw tr _⟩
    obtain ⟨s1, h1, h2⟩ := ih
      { c with mlfi_fp := some (FILE.mk (fp.data ++ headerLine (f, v)) false) }
      (FILE.mk (fp.data ++ headerLine (f, v)) false)
      (tr ++ [Event.write (headerLine (f, v)) (env.write tr (headerLine (f, v)))]) rfl rfl
    refine ⟨s1, ?_, ?_⟩
    · simp only [headerCallbacks, List.map_cons, List.cons_append, callbacks, callback, h,
        List.append_eq]
      simp only [headerCallbacks] at h1
      rw [h1]
      rfl
    · rw [h2]
      simp [headerLines]

/-- Headers then end of headers: when every callback returned
`SMFIS_CONTINUE`, the spool has grown by the header lines and a newline. -/
theorem headerCallbacks_spool (env : Env) (hs : List (CStr × CStr)) :
    ∀ (c : mlfiCtx) (fp : FILE) (tr : List Event) (vs : List Sfsistat) (s1 : State),
      c.mlfi_fp = some fp →
      callbacks env (headerCallbacks hs) { priv := some c, trace := tr } = some (vs, s1) →
      (∀ v ∈ vs, v = SMFIS_CONTINUE) →
      spool s1 = some (fp.data ++ headerLines hs ++ "\n".toList) := by
  induction hs with
  | nil =>
    intro c fp tr vs s1 hfp h hv
    simp only [headerCallbacks, List.map_nil, List.nil_append, callbacks, callback] at h
    cases h0 : mlfi_eoh env { priv := some c, trace := tr } with
    | none => simp [h0] at h
    | some r =>
      obtain ⟨v, s2⟩ := r
      simp only [h0, Option.some.injEq, Prod.mk.injEq] at h
      obtain ⟨rfl, rfl⟩ := h
      have hv0 : v = SMFIS_CONTINUE := hv v (by simp)
      subst hv0
      have := ((mlfi_eoh_open env c fp tr hfp).2 s2 h0).2.2
      simpa [headerLines] using this
  | cons x xs ih =>
    intro c fp tr vs s1 hfp h hv
    obtain ⟨f, v⟩ := x
    simp only [headerCallbacks, List.map_cons, List.cons_append, callbacks, callback,
      List.append_eq] at h
    cases h0 : mlfi_header env f v { priv := some c, trace := tr } with
    | none => simp [h0] at h
    | some r =>
      obtain ⟨v0, s2⟩ := r
      simp only [h0] at h
      cases h1 : callbacks env (List.map (fun h => Callback.header h.1 h.2) xs ++ [Callback.eoh]) s2 with
      | none => simp [h1] at h
      | some r1 =>
        obtain ⟨vs1, s3⟩ := r1
        simp only [h1, Option.some.injEq, Prod.mk.injEq] at h
        obtain ⟨rfl, rfl⟩ := h
        have hv0 : v0 = SMFIS_CONTINUE := hv v0 (by simp)
        subst hv0
        obtain ⟨e1, e2, _⟩ := (mlfi_header_open env c fp tr f v hfp).2 s2 h0
        have h2 := (mlfi_header_open env c fp tr f v hfp).1 ⟨e1, e2⟩
        rw [h0] at h2
        simp only [Option.some.injEq, Prod.mk.injEq, true_and] at h2
        subst h2
        have := ih _ (FILE.mk (fp.data ++ headerLine (f, v)) false) _ vs1 s3 rfl h1
          (fun w hw => hv w (List.mem_cons_of_mem _ hw))
        rw [this]
        simp [headerLines]

/-- The result of `mlfi_body` for a chunk that is not empty, the message file
being open: `SMFIS_CONTINUE` with the chunk appended when the stream takes all
of it, `SMFIS_TEMPFAIL` when it does not. -/
theorem mlfi_body_nonempty (env : Env) (c : mlfiCtx) (fp : FILE) (tr : List Event)
    (b : Char) (bs : List Char) (hfp : c.mlfi_fp = some fp) :
    ((b :: bs).length ≤ env.write tr (b :: bs) →
      mlfi_body env (b :: bs) { priv := some c, trace := tr } = some (SMFIS_CONTINUE,
        { priv := some { c with mlfi_fp := some { fp with data := fp.data ++ b :: bs } },
          trace := tr ++ [Event.write (b :: bs) (env.write tr (b :: bs))] })) ∧
    (¬ (b :: bs).length ≤ env.write tr (b :: bs) →
      (mlfi_body env (b :: bs) { priv := some c, trace := tr }).map (fun r => r.1)
        = some SMFIS_TEMPFAIL) := by
  have hne : ¬ (b :: bs).length = 0 := by simp
  refine ⟨?_, ?_⟩
  · intro h
    simp only [mlfi_body, hfp, fwrite, hne, h, if_false, if_true]
    simp
  · intro h
    simp only [mlfi_body, hfp, fwrite, hne, h, if_false]
    simp

/-! ## The claims -/

/-- C2: when the request was sent and the response is lines `pre`, none of
which ended the loop, followed by a blank line, the mutation-API calls
`mlfi_eom` makes are exactly the calls of the lines of `pre`, one per line
that asks for one, in the order of the lines, and it returns the pending
verdict.  The call of a line is: `smfi_addrcpt`/`smfi_delrcpt` of the value
for `addrcpt`/`delrcpt`; `smfi_addheader` of field and text for `addheader`;
`smfi_chgheader` of field, index and text for `chgheader`, and of field, index
and `NULL` for `delheader`; `smfi_setreply` of the three sub-fields for a
`setreply` whose code starts with `4` or `5`; none for `return_value`,
`exit_code`, any other name and any other `setreply`. -/
theorem C2_eom_calls_one_per_line (env : Env) (c : mlfiCtx) (fp : FILE)
    (tr t0 : List Event) (pre post : List CStr) (r : Sfsistat) (t : List Event)
    (hfp : c.mlfi_fp = some fp)
    (hopen : eom_open env tr { c with mlfi_fp := none } = Except.ok t0)
    (hresp : env.response = pre ++ [] :: post)
    (hlines : eom_lines env pre SMFIS_TEMPFAIL t0 = some (r, t)) :
    (mlfi_eom env { priv := some c, trace := tr }).1 = r ∧
    milterCalls (mlfi_eom env { priv := some c, trace := tr }).2.trace
      = milterCalls tr ++ pre.filterMap lineCall ∧
    (∀ a, lineCall ("addrcpt=".toList ++ a) = some (MilterCall.smfi_addrcpt a)) ∧
    (∀ a, lineCall ("delrcpt=".toList ++ a) = some (MilterCall.smfi_delrcpt a)) ∧
    (∀ f v, ' ' ∉ f →
      lineCall ("addheader=".toList ++ f ++ ' ' :: v) = some (MilterCall.smfi_addheader f v)) ∧
    (∀ i f v, ' ' ∉ i → ' ' ∉ f → (strtol i).2 = [] →
      lineCall ("chgheader=".toList ++ i ++ ' ' :: (f ++ ' ' :: v))
        = some (MilterCall.smfi_chgheader f (int_of_long (strtol i).1) (some v))) ∧
    (∀ i f, ' ' ∉ i → (strtol i).2 = [] →
      lineCall ("delheader=".toList ++ i ++ ' ' :: f)
        = some (MilterCall.smfi_chgheader f (int_of_long (strtol i).1) none)) ∧
    (∀ rc xc v, ' ' ∉ rc → ' ' ∉ xc → (rc.head? = some '4' ∨ rc.head? = some '5') →
      lineCall ("setreply=".toList ++ rc ++ ' ' :: (xc ++ ' ' :: v))
        = some (MilterCall.smfi_setreply rc xc v)) ∧
    (∀ rc xc v, ' ' ∉ rc → ' ' ∉ xc → rc.head? ≠ some '4' → rc.head? ≠ some '5' →
      lineCall ("setreply=".toList ++ rc ++ ' ' :: (xc ++ ' ' :: v)) = none) ∧
    (∀ v, lineCall ("return_value=".toList ++ v) = none) ∧
    (∀ v, lineCall ("exit_code=".toList ++ v) = none) ∧
    (∀ n v, '=' ∉ n → n ≠ "addrcpt".toList → n ≠ "delrcpt".toList → n ≠ "addheader".toList →
      n ≠ "chgheader".toList → n ≠ "delheader".toList → n ≠ "return_value".toList →
      n ≠ "setreply".toList → lineCall (n ++ '=' :: v) = none) := by
  have hrun : eom_response env env.response SMFIS_TEMPFAIL t0
      = (r, t ++ [Event.amavisd_response (some []), Event.amavisd_close]) := by
    rw [hresp, eom_response_of_lines env pre _ _ _ _ _ hlines, eom_response_blank]
  obtain ⟨_, _, evs, ht, hcalls, _, _, _, _⟩ := eom_lines_some env pre _ _ _ _ hlines
  have hsend := (eom_open_sendOnly hopen).projections.1
  refine ⟨?_, ?_, lineCall_addrcpt, lineCall_delrcpt, lineCall_addheader, lineCall_chgheader,
    lineCall_delheader, lineCall_setreply_45, ?_, lineCall_return_value, ?_, ?_⟩
  · rw [mlfi_eom_of_open env c fp tr t0 hfp hopen, hrun]
  · rw [mlfi_eom_of_open env c fp tr t0 hfp hopen, hrun]
    simp only [ht, milterCalls_append, hsend, hcalls]
    simp [milterCalls]
  · intro rc xc v h1 h2 h3 h4
    exact (lineCall_setreply_other rc xc v h1 h2 h3 h4).2
  · intro v
    exact (lineCall_exit_code v).2
  · intro n v h0 e1 e2 e3 e4 e5 e6 e7
    exact (lineCall_unknown n v h0 e1 e2 e3 e4 e5 e6 e7).2

/-- C2 at the response `addrcpt=d@w`, `return_value=accept`, blank line:
`smfi_addrcpt` of `d@w` is the only mutation-API call and the verdict is
`SMFIS_ACCEPT`. -/
theorem C2_eom_calls_one_per_line_witness :
    (mlfi_eom (Env.good none ["addrcpt=d@w".toList, "return_value=accept".toList, []])
        { priv := some (ctxOpen []), trace := [] }).1 = SMFIS_ACCEPT ∧
    milterCalls (mlfi_eom
        (Env.good none ["addrcpt=d@w".toList, "return_value=accept".toList, []])
        { priv := some (ctxOpen []), trace := [] }).2.trace
      = [MilterCall.smfi_addrcpt "d@w".toList] :=
  have h := C2_eom_calls_one_per_line
    (Env.good none ["addrcpt=d@w".toList, "return_value=accept".toList, []])
    (ctxOpen []) { data := [], error := false } []
    (match eom_open (Env.good none []) [] { ctxOpen [] with mlfi_fp := none } with
      | Except.ok t => t
      | Except.error t => t)
    ["addrcpt=d@w".toList, "return_value=accept".toList] [] SMFIS_ACCEPT
    (match eom_lines (Env.good none []) ["addrcpt=d@w".toList, "return_value=accept".toList]
        SMFIS_TEMPFAIL
        (match eom_open (Env.good none []) [] { ctxOpen [] with mlfi_fp := none } with
          | Except.ok t => t
          | Except.error t => t) with
      | some p => p.2
      | none => [])
    rfl (by rfl) rfl (by rfl)
  ⟨h.1, h.2.1⟩

/-- C3: when the request was sent and the response is lines `pre`, none of
which ended the loop, followed by a non-blank line `bad` without `=`, then
`mlfi_eom` returns `SMFIS_TEMPFAIL`, and after reading `bad` it only sets the
temporary-failure reply and closes the socket: whatever lines follow `bad`,
none is read and no call is made for them, and the pending verdict of `pre`
is dropped. -/
theorem C3_eom_line_without_separator (env : Env) (c : mlfiCtx) (fp : FILE)
    (tr t0 : List Event) (pre post : List CStr) (bad : CStr) (r : Sfsistat) (t : List Event)
    (hfp : c.mlfi_fp = some fp)
    (hopen : eom_open env tr { c with mlfi_fp := none } = Except.ok t0)
    (hresp : env.response = pre ++ bad :: post)
    (hlines : eom_lines env pre SMFIS_TEMPFAIL t0 = some (r, t))
    (hne : bad ≠ []) (hsep : '=' ∉ bad) :
    mlfi_eom env { priv := some c, trace := tr } =
      (SMFIS_TEMPFAIL,
        { priv := some { c with mlfi_fp := none },
          trace := t ++ [Event.amavisd_response (some bad),
            Event.smfi tempfailReply
              (env.smfi (t ++ [Event.amavisd_response (some bad)]) tempfailReply),
            Event.amavisd_close] }) := by
  rw [mlfi_eom_of_open env c fp tr t0 hfp hopen, hresp,
    eom_response_of_lines env pre _ _ _ _ _ hlines]
  simp [eom_response, hne, amavisd_line_no_sep bad hsep, eom_fail, SMFI_SETREPLY_TEMPFAIL,
    SMFI_SETREPLY, tempfailReply]

/-- C3 at the response `return_value=accept`, `addheadervalue`, `addrcpt=d@w`,
blank line: the verdict is `SMFIS_TEMPFAIL`, two lines are read and
`smfi_addrcpt` is not called. -/
theorem C3_eom_line_without_separator_witness :
    (mlfi_eom (Env.good none ["return_value=accept".toList, "addheadervalue".toList,
        "addrcpt=d@w".toList, []]) { priv := some (ctxOpen []), trace := [] }).1
      = SMFIS_TEMPFAIL ∧
    milterCalls (mlfi_eom (Env.good none ["return_value=accept".toList,
        "addheadervalue".toList, "addrcpt=d@w".toList, []])
        { priv := some (ctxOpen []), trace := [] }).2.trace = [tempfailReply] ∧
    responseReads (mlfi_eom (Env.good none ["return_value=accept".toList,
        "addheadervalue".toList, "addrcpt=d@w".toList, []])
        { priv := some (ctxOpen []), trace := [] }).2.trace
      = [some "return_value=accept".toList, some "addheadervalue".toList] :=
  have h := C3_eom_line_without_separator
    (Env.good none ["return_value=accept".toList, "addheadervalue".toList,
        "addrcpt=d@w".toList, []])
    (ctxOpen []) { data := [], error := false } []
    (match eom_open (Env.good none []) [] { ctxOpen [] with mlfi_fp := none } with
      | Except.ok t => t
      | Except.error t => t)
    ["return_value=accept".toList] ["addrcpt=d@w".toList, []] "addheadervalue".toList
    SMFIS_ACCEPT
    (match eom_lines (Env.good none []) ["return_value=accept".toList] SMFIS_TEMPFAIL
        (match eom_open (Env.good none []) [] { ctxOpen [] with mlfi_fp := none } with
          | Except.ok t => t
          | Except.error t => t) with
      | some p => p.2
      | none => [])
    rfl (by rfl) rfl (by rfl) (by decide) (by decide)
  ⟨by rw [h], by rw [h]; rfl, by rw [h]; rfl⟩

/-- C4: when the request was sent and the response is lines `pre`, none of
which ended the loop, followed by a line whose mutation-API call `call`
reports failure, then `mlfi_eom` returns `SMFIS_TEMPFAIL` whatever verdict
`pre` had set, and after the failed call it only sets the temporary-failure
reply and closes the socket: no later line is read and no call is made for
one. -/
theorem C4_eom_mutation_failure (env : Env) (c : mlfiCtx) (fp : FILE)
    (tr t0 : List Event) (pre post : List CStr) (line : CStr) (call : MilterCall)
    (r : Sfsistat) (t : List Event)
    (hfp : c.mlfi_fp = some fp)
    (hopen : eom_open env tr { c with mlfi_fp := none } = Except.ok t0)
    (hresp : env.response = pre ++ line :: post)
    (hlines : eom_lines env pre SMFIS_TEMPFAIL t0 = some (r, t))
    (hne : line ≠ []) (hcall : lineCall line = some call)
    (hfail : env.smfi (t ++ [Event.amavisd_response (some line)]) call = false) :
    mlfi_eom env { priv := some c, trace := tr } =
      (SMFIS_TEMPFAIL,
        { priv := some { c with mlfi_fp := none },
          trace := t ++ [Event.amavisd_response (some line), Event.smfi call false,
            Event.smfi tempfailReply
              (env.smfi (t ++ [Event.amavisd_response (some line), Event.smfi call false])
                tempfailReply),
            Event.amavisd_close] }) := by
  have ha : amavisd_line line = some (Action.call call) := by
    unfold lineCall at hcall
    cases h : amavisd_line line with
    | none => simp [h] at hcall
    | some a =>
      cases a with
      | call c0 => simp [h] at hcall; rw [hcall]
      | verdict v => simp [h] at hcall
      | skip => simp [h] at hcall
  rw [mlfi_eom_of_open env c fp tr t0 hfp hopen, hresp,
    eom_response_of_lines env pre _ _ _ _ _ hlines]
  simp [eom_response, hne, ha, hfail, eom_fail, SMFI_SETREPLY_TEMPFAIL, SMFI_SETREPLY,
    tempfailReply]

/-- C4 at the response `return_value=accept`, `addrcpt=d@w`,
`addheader=X-A b`, blank line, with a transport that rejects the recipient
`d@w`: the verdict is `SMFIS_TEMPFAIL` and `smfi_addheader` is not called. -/
theorem C4_eom_mutation_failure_witness :
    (mlfi_eom (Env.refusing (MilterCall.smfi_addrcpt "d@w".toList)
        ["return_value=accept".toList, "addrcpt=d@w".toList, "addheader=X-A b".toList, []])
        { priv := some (ctxOpen []), trace := [] }).1 = SMFIS_TEMPFAIL ∧
    milterCalls (mlfi_eom (Env.refusing (MilterCall.smfi_addrcpt "d@w".toList)
        ["return_value=accept".toList, "addrcpt=d@w".toList, "addheader=X-A b".toList, []])
        { priv := some (ctxOpen []), trace := [] }).2.trace
      = [MilterCall.smfi_addrcpt "d@w".toList, tempfailReply] :=
  have h := C4_eom_mutation_failure
    (Env.refusing (MilterCall.smfi_addrcpt "d@w".toList)
        ["return_value=accept".toList, "addrcpt=d@w".toList, "addheader=X-A b".toList, []])
    (ctxOpen []) { data := [], error := false } []
    (match eom_open (Env.good none []) [] { ctxOpen [] with mlfi_fp := none } with
      | Except.ok t => t
      | Except.error t => t)
    ["return_value=accept".toList] ["addheader=X-A b".toList, []] "addrcpt=d@w".toList
    (MilterCall.smfi_addrcpt "d@w".toList) SMFIS_ACCEPT
    (match eom_lines (Env.good none []) ["return_value=accept".toList] SMFIS_TEMPFAIL
        (match eom_open (Env.good none []) [] { ctxOpen [] with mlfi_fp := none } with
          | Except.ok t => t
          | Except.error t => t) with
      | some p => p.2
      | none => [])
    rfl (by rfl) rfl (by rfl) (by decide) (by rfl) (by rfl)
  ⟨by rw [h], by rw [h]; rfl⟩

/-- C5: when the message file is open and closing it, connecting and every
socket write succeed, the request lines `mlfi_eom` sends are exactly, in this
order: `request=AM.PDP`; `queue_id` when the queue id is set; `sender`; one
`recipient` per recipient in list order; `tempdir`; `tempdir_removed_by=server`;
`mail_file`; `delivery_care_of=client`; `client_address`; `client_name` when
the hostname is set; `helo_name` when the greeting name is set; the ending
call with no name and no value (the blank line). -/
theorem C5_eom_request_lines (env : Env) (c : mlfiCtx) (fp : FILE) (tr : List Event)
    (hfp : c.mlfi_fp = some fp)
    (hclose : env.fclose tr = true)
    (hconn : env.amavisd_connect (tr ++ [Event.fclose true]) = true)
    (hreq : ∀ t n v, env.amavisd_request t n v = true) :
    requestLines (mlfi_eom env { priv := some c, trace := tr }).2.trace =
      requestLines tr ++
      ([(some "request".toList, some "AM.PDP".toList)] ++
       (match c.mlfi_qid with
        | some qid => [(some "queue_id".toList, some qid)]
        | none => []) ++
       [(some "sender".toList, c.mlfi_from)] ++
       c.mlfi_rcpt.map (fun r => (some "recipient".toList, some r)) ++
       [(some "tempdir".toList, some c.mlfi_wrkdir),
        (some "tempdir_removed_by".toList, some "server".toList),
        (some "mail_file".toList, some c.mlfi_fname),
        (some "delivery_care_of".toList, some "client".toList),
        (some "client_address".toList, c.mlfi_addr)] ++
       (match c.mlfi_hostname with
        | some hostname => [(some "client_name".toList, some hostname)]
        | none => []) ++
       (match c.mlfi_helo with
        | some helo => [(some "helo_name".toList, some helo)]
        | none => []) ++
       [(none, none)]) := by
  have hopen : ∃ t0, eom_open env tr { c with mlfi_fp := none } = Except.ok t0 ∧
      requestLines t0 = requestLines tr ++
      ([(some "request".toList, some "AM.PDP".toList)] ++
       (match c.mlfi_qid with
        | some qid => [(some "queue_id".toList, some qid)]
        | none => []) ++
       [(some "sender".toList, c.mlfi_from)] ++
       c.mlfi_rcpt.map (fun r => (some "recipient".toList, some r)) ++
       [(some "tempdir".toList, some c.mlfi_wrkdir),
        (some "tempdir_removed_by".toList, some "server".toList),
        (some "mail_file".toList, some c.mlfi_fname),
        (some "delivery_care_of".toList, some "client".toList),
        (some "client_address".toList, c.mlfi_addr)] ++
       (match c.mlfi_hostname with
        | some hostname => [(some "client_name".toList, some hostname)]
        | none => []) ++
       (match c.mlfi_helo with
        | some helo => [(some "helo_name".toList, some helo)]
        | none => []) ++
       [(none, none)]) := by
    simp only [eom_open, hclose, hconn, Bool.not_true, Bool.false_eq_true, if_false,
      eom_request, AMAVISD_REQUEST_all_ok env hreq, eom_recipients_all_ok env hreq,
      bind, Except.bind, pure, Except.pure]
    have hf : ∀ (n : CStr) (rs : List CStr), List.filterMap
        ((fun e => match e with
          | Event.amavisd_request n v _ => some (n, v)
          | _ => none) ∘ fun r => Event.amavisd_request (some n) (some r) true) rs
        = rs.map (fun r => (some n, some r)) := by
      intro n rs
      induction rs with
      | nil => rfl
      | cons r rs ih => simp [ih]
    cases hq : c.mlfi_qid <;> cases hh : c.mlfi_hostname <;> cases he : c.mlfi_helo <;>
      simp [requestLines_append] <;> simp [requestLines] <;> exact hf _ _
  obtain ⟨t0, h0, h1⟩ := hopen
  rw [mlfi_eom_of_open env c fp tr t0 hfp h0]
  simp only [eom_response_requestLines, h1]

/-- C5 at sender `a@x`, recipients `b@y`, `c@z`, queue id `Q1` and spool path
`/var/amavis/afQ1/email.txt`, on a connection with address and hostname but
no greeting name. -/
theorem C5_eom_request_lines_witness :
    requestLines (mlfi_eom (Env.good none ["return_value=continue".toList, []])
        { priv := some (ctxOpen []), trace := [] }).2.trace =
      [(some "request".toList, some "AM.PDP".toList),
       (some "queue_id".toList, some "Q1".toList),
       (some "sender".toList, some "a@x".toList),
       (some "recipient".toList, some "b@y".toList),
       (some "recipient".toList, some "c@z".toList),
       (some "tempdir".toList, some "/var/amavis/afQ1".toList),
       (some "tempdir_removed_by".toList, some "server".toList),
       (some "mail_file".toList, some "/var/amavis/afQ1/email.txt".toList),
       (some "delivery_care_of".toList, some "client".toList),
       (some "client_address".toList, some "192.0.2.1".toList),
       (some "client_name".toList, some "mx.example".toList),
       (none, none)] :=
  C5_eom_request_lines (Env.good none ["return_value=continue".toList, []]) (ctxOpen [])
    { data := [], error := false } [] rfl rfl rfl (fun _ _ _ => rfl)

/-- C6, as stated, fails: after connect, sender (queue id `Q1`), recipient,
header, end of headers, body and end of message, every external call
succeeding and the engine answering `return_value=accept`, `mlfi_eom` returns
`SMFIS_ACCEPT`, yet the context still names the work directory and the message
file, and no `unlink` or `rmdir` was made. -/
theorem C6_eom_leaves_spool_in_place :
    (callbacks (Env.good (some "Q1".toList) ["return_value=accept".toList, []])
      [Callback.connect (some "mx.example".toList) (some "192.0.2.1".toList),
       Callback.envfrom (some "a@x".toList), Callback.envrcpt "b@y".toList,
       Callback.header "Subject".toList "hi".toList, Callback.eoh,
       Callback.body "text\n".toList, Callback.eom]
      { priv := none, trace := [] }).map
      (fun r => (r.1.getLast?, r.2.priv.map (fun c => (c.mlfi_wrkdir, c.mlfi_fname)),
        removals r.2.trace))
    = some (some SMFIS_ACCEPT,
        some ("/var/amavis/afQ1".toList, "/var/amavis/afQ1/email.txt".toList), []) := by
  rfl

/-- C6, amended: `mlfi_eom` returns one value of the five; it leaves the
message file closed (`mlfi_fp` is `NULL`) and the rest of the context,
work-directory and message-file names included, as it was, and makes no
`unlink` or `rmdir`.  The removal is done by the callback that comes next:
`mlfi_abort`, `mlfi_close` and `mlfi_envfrom` each unlink the message file and
then remove the work directory (when their names are set), and after
`mlfi_abort` both names are empty, after `mlfi_close` the context is gone. -/
theorem C6_eom_verdict_and_later_disposal (env env2 : Env) (c : mlfiCtx) (tr : List Event)
    (sender : Option CStr) :
    ((mlfi_eom env { priv := some c, trace := tr }).1 = SMFIS_CONTINUE ∨
      (mlfi_eom env { priv := some c, trace := tr }).1 = SMFIS_ACCEPT ∨
      (mlfi_eom env { priv := some c, trace := tr }).1 = SMFIS_REJECT ∨
      (mlfi_eom env { priv := some c, trace := tr }).1 = SMFIS_DISCARD ∨
      (mlfi_eom env { priv := some c, trace := tr }).1 = SMFIS_TEMPFAIL) ∧
    (mlfi_eom env { priv := some c, trace := tr }).2.priv = some { c with mlfi_fp := none } ∧
    removals (mlfi_eom env { priv := some c, trace := tr }).2.trace = removals tr ∧
    (mlfi_abort env2 (mlfi_eom env { priv := some c, trace := tr }).2).2.priv
      = some { c with mlfi_fp := none, mlfi_fname := [], mlfi_wrkdir := [],
                      mlfi_qid := none, mlfi_from := none, mlfi_rcpt := [] } ∧
    removals (mlfi_abort env2 (mlfi_eom env { priv := some c, trace := tr }).2).2.trace
      = removals tr ++
        (if c.mlfi_fname ≠ [] then [Removal.unlink c.mlfi_fname] else []) ++
        (if c.mlfi_wrkdir ≠ [] then [Removal.rmdir c.mlfi_wrkdir] else []) ∧
    (mlfi_close env2 (mlfi_eom env { priv := some c, trace := tr }).2).2.priv = none ∧
    removals (mlfi_close env2 (mlfi_eom env { priv := some c, trace := tr }).2).2.trace
      = removals tr ++
        (if c.mlfi_fname ≠ [] then [Removal.unlink c.mlfi_fname] else []) ++
        (if c.mlfi_wrkdir ≠ [] then [Removal.rmdir c.mlfi_wrkdir] else []) ∧
    removals (mlfi_envfrom env2 sender (mlfi_eom env { priv := some c, trace := tr }).2).2.trace
      = removals tr ++
        (if c.mlfi_fname ≠ [] then [Removal.unlink c.mlfi_fname] else []) ++
        (if c.mlfi_wrkdir ≠ [] then [Removal.rmdir c.mlfi_wrkdir] else []) := by
  obtain ⟨hp, hr⟩ := mlfi_eom_state env c tr
  have hs : (mlfi_eom env { priv := some c, trace := tr }).2
      = { priv := some { c with mlfi_fp := none },
          trace := (mlfi_eom env { priv := some c, trace := tr }).2.trace } := by
    rw [← hp]
  refine ⟨?_, hp, hr, ?_, ?_, ?_, ?_, ?_⟩
  · cases (mlfi_eom env { priv := some c, trace := tr }).1 <;> simp
  · rw [hs]
    rfl
  · rw [hs]
    simp only [mlfi_abort]
    rw [removals_mlfi_cleanup_message, hr]
  · rw [hs]
    rfl
  · rw [hs]
    simp only [mlfi_close, mlfi_cleanup]
    rw [removals_snoc, removals_mlfi_cleanup_message, hr]
    simp [removals]
  · rw [hs, removals_mlfi_envfrom, removals_mlfi_cleanup_message, hr]

/-- C7: on a context, `mlfi_abort` returns `SMFIS_CONTINUE` whatever the
results of the close, the unlink and the rmdir; afterwards queue id, sender,
recipients, work-directory name, message-file name and file handle are empty
while address, hostname and greeting name are as before; the external calls
it made are the close (when the file was open), then the unlink of the message
file (when named), then the rmdir of the work directory (when named).  Without
a context it returns `SMFIS_CONTINUE` and does nothing. -/
theorem C7_abort_cleans_message_context (env : Env) (c : mlfiCtx) (tr : List Event) :
    (mlfi_abort env { priv := some c, trace := tr }).1 = SMFIS_CONTINUE ∧
    (mlfi_abort env { priv := some c, trace := tr }).2.priv
      = some { mlfi_addr := c.mlfi_addr, mlfi_hostname := c.mlfi_hostname,
               mlfi_helo := c.mlfi_helo, mlfi_qid := none, mlfi_from := none,
               mlfi_rcpt := [], mlfi_wrkdir := [], mlfi_fname := [], mlfi_fp := none } ∧
    (∃ ok1 ok2 ok3, (mlfi_abort env { priv := some c, trace := tr }).2.trace = tr ++
      (if c.mlfi_fp ≠ none then [Event.fclose ok1] else []) ++
      (if c.mlfi_fname ≠ [] then [Event.unlink c.mlfi_fname ok2] else []) ++
      (if c.mlfi_wrkdir ≠ [] then [Event.rmdir c.mlfi_wrkdir ok3] else [])) ∧
    mlfi_abort env { priv := none, trace := tr } = (SMFIS_CONTINUE, { priv := none, trace := tr }) := by
  refine ⟨rfl, rfl, ?_, rfl⟩
  exact mlfi_cleanup_message_trace env c tr

/-- C8: after `mlfi_cleanup_message`, a second `mlfi_cleanup_message` (in any
environment) returns the same context and makes no external call, so no close,
unlink or rmdir; on a context whose message part is empty (no queue id, no
sender, no recipient, no names, no file) the first call already does so. -/
theorem C8_cleanup_message_idempotent (env env2 : Env) (c : mlfiCtx) (tr tr2 : List Event)
    (addr hostname helo : Option CStr) :
    mlfi_cleanup_message env (mlfi_cleanup_message env c tr).1 (mlfi_cleanup_message env c tr).2
      = mlfi_cleanup_message env c tr ∧
    mlfi_cleanup_message env2 (mlfi_cleanup_message env c tr).1 tr2
      = ((mlfi_cleanup_message env c tr).1, tr2) ∧
    mlfi_cleanup_message env
        { mlfi_addr := addr, mlfi_hostname := hostname, mlfi_helo := helo, mlfi_qid := none,
          mlfi_from := none, mlfi_rcpt := [], mlfi_wrkdir := [], mlfi_fname := [],
          mlfi_fp := none } tr
      = ({ mlfi_addr := addr, mlfi_hostname := hostname, mlfi_helo := helo, mlfi_qid := none,
           mlfi_from := none, mlfi_rcpt := [], mlfi_wrkdir := [], mlfi_fname := [],
           mlfi_fp := none }, tr) := by
  refine ⟨?_, mlfi_cleanup_message_again env env2 c tr tr2, ?_⟩
  · exact mlfi_cleanup_message_again env env c tr _
  · simp [mlfi_cleanup_message]

/-- C9: on a context with an open message file, a `mlfi_header` that returns
`SMFIS_CONTINUE` has appended exactly field, colon, space, value and one
newline to the spool, and it does return `SMFIS_CONTINUE` when the stream has
no error pending and takes the line; the same holds for `mlfi_eoh` and the
single newline; hence headers followed by the end of headers, all returning
`SMFIS_CONTINUE`, leave the spool extended by the header lines in order and
one more newline, and they all do return `SMFIS_CONTINUE` when no write
fails. -/
theorem C9_spool_header_lines (env : Env) (c : mlfiCtx) (fp : FILE) (tr : List Event)
    (f v : CStr) (hs : List (CStr × CStr)) (hfp : c.mlfi_fp = some fp) :
    (∀ s1, mlfi_header env f v { priv := some c, trace := tr } = some (SMFIS_CONTINUE, s1) →
      spool s1 = some (fp.data ++ (f ++ ": ".toList ++ v ++ "\n".toList))) ∧
    (fp.error = false →
      (f ++ ": ".toList ++ v ++ "\n".toList).length
        ≤ env.write tr (f ++ ": ".toList ++ v ++ "\n".toList) →
      ∃ s1, mlfi_header env f v { priv := some c, trace := tr } = some (SMFIS_CONTINUE, s1)) ∧
    (∀ s1, mlfi_eoh env { priv := some c, trace := tr } = some (SMFIS_CONTINUE, s1) →
      spool s1 = some (fp.data ++ "\n".toList)) ∧
    (fp.error = false → 1 ≤ env.write tr "\n".toList →
      ∃ s1, mlfi_eoh env { priv := some c, trace := tr } = some (SMFIS_CONTINUE, s1)) ∧
    (∀ vs s1, callbacks env (headerCallbacks hs) { priv := some c, trace := tr } = some (vs, s1) →
      (∀ x ∈ vs, x = SMFIS_CONTINUE) →
      spool s1 = some (fp.data ++ headerLines hs ++ "\n".toList)) ∧
    (fp.error = false → (∀ t b, b.length ≤ env.write t b) →
      ∃ s1, callbacks env (headerCallbacks hs) { priv := some c, trace := tr }
        = some (List.replicate (hs.length + 1) SMFIS_CONTINUE, s1)) := by
  refine ⟨?_, ?_, ?_, ?_, ?_, ?_⟩
  · intro s1 h
    exact ((mlfi_header_open env c fp tr f v hfp).2 s1 h).2.2
  · intro he hk
    exact ⟨_, (mlfi_header_open env c fp tr f v hfp).1 ⟨he, hk⟩⟩
  · intro s1 h
    exact ((mlfi_eoh_open env c fp tr hfp).2 s1 h).2.2
  · intro he hk
    exact ⟨_, (mlfi_eoh_open env c fp tr hfp).1 ⟨he, hk⟩⟩
  · intro vs s1 h hv
    exact headerCallbacks_spool env hs c fp tr vs s1 hfp h hv
  · intro he hw
    obtain ⟨s1, h1, _⟩ := headerCallbacks_run env hw hs c fp tr hfp he
    exact ⟨s1, h1⟩

/-- C9 at the header `X-Test: value` followed by the end of headers, on an
empty spool: both callbacks return `SMFIS_CONTINUE` and the spool holds
`X-Test: value`, a newline, and the newline of the blank line. -/
theorem C9_spool_header_lines_witness :
    ∃ s1, callbacks (Env.good none []) (headerCallbacks [("X-Test".toList, "value".toList)])
        { priv := some (ctxOpen []), trace := [] }
        = some ([SMFIS_CONTINUE, SMFIS_CONTINUE], s1) ∧
      spool s1 = some "X-Test: value\n\n".toList := by
  have h := C9_spool_header_lines (Env.good none []) (ctxOpen []) { data := [], error := false }
    [] "X-Test".toList "value".toList [("X-Test".toList, "value".toList)] rfl
  obtain ⟨s1, h1⟩ := h.2.2.2.2.2 rfl (fun _ _ => Nat.le_refl _)
  refine ⟨s1, h1, ?_⟩
  have h2 := h.2.2.2.2.1 _ s1 h1 (by decide)
  rw [h2]
  rfl

/-- C10 fails on the code for the chunk of length zero: with the message
file open, whatever the environment, `mlfi_body` sets the temporary-failure
reply and returns `SMFIS_TEMPFAIL`, the spool unchanged, although no write
failed (`fwrite` of zero bytes returns 0, which the code reads as a failed
write). -/
theorem C10_body_empty_chunk_tempfail (env : Env) (c : mlfiCtx) (fp : FILE) (tr : List Event) :
    mlfi_body env [] { priv := some { c with mlfi_fp := some fp }, trace := tr }
      = some (SMFIS_TEMPFAIL,
          { priv := some { c with mlfi_fp := some fp },
            trace := tr ++ [Event.write [] (env.write tr []),
              Event.smfi tempfailReply
                (env.smfi (tr ++ [Event.write [] (env.write tr [])]) tempfailReply)] }) := by
  simp [mlfi_body, fwrite, SMFI_SETREPLY_TEMPFAIL, SMFI_SETREPLY, tempfailReply]

/-- A non-blank line the parser gives up on ends `mlfi_eom` with
`SMFIS_TEMPFAIL`: after reading it, only the temporary-failure reply and the
close follow. -/
theorem mlfi_eom_rejected_line (env : Env) (c : mlfiCtx) (fp : FILE)
    (tr t0 : List Event) (pre post : List CStr) (line : CStr) (r : Sfsistat) (t : List Event)
    (hfp : c.mlfi_fp = some fp)
    (hopen : eom_open env tr { c with mlfi_fp := none } = Except.ok t0)
    (hresp : env.response = pre ++ line :: post)
    (hlines : eom_lines env pre SMFIS_TEMPFAIL t0 = some (r, t))
    (hne : line ≠ []) (hbad : amavisd_line line = none) :
    mlfi_eom env { priv := some c, trace := tr } =
      (SMFIS_TEMPFAIL,
        { priv := some { c with mlfi_fp := none },
          trace := t ++ [Event.amavisd_response (some line),
            Event.smfi tempfailReply
              (env.smfi (t ++ [Event.amavisd_response (some line)]) tempfailReply),
            Event.amavisd_close] }) := by
  rw [mlfi_eom_of_open env c fp tr t0 hfp hopen, hresp,
    eom_response_of_lines env pre _ _ _ _ _ hlines]
  simp [eom_response, hne, hbad, eom_fail, SMFI_SETREPLY_TEMPFAIL, SMFI_SETREPLY, tempfailReply]

theorem namedVerdict_none (v : CStr) (h1 : v ≠ "continue".toList) (h2 : v ≠ "accept".toList)
    (h3 : v ≠ "reject".toList) (h4 : v ≠ "discard".toList) (h5 : v ≠ "tempfail".toList) :
    namedVerdict v = none := by
  have b1 : (v == "continue".toList) = false := by simpa using h1
  have b2 : (v == "accept".toList) = false := by simpa using h2
  have b3 : (v == "reject".toList) = false := by simpa using h3
  have b4 : (v == "discard".toList) = false := by simpa using h4
  have b5 : (v == "tempfail".toList) = false := by simpa using h5
  simp only [namedVerdict, List.lookup, b1, b2, b3, b4, b5]

/-- C14: when the request was sent and the response is lines `pre`, none of
which ended the loop, followed by a line `return_value=` with a value that is
none of `continue`, `accept`, `reject`, `discard`, `tempfail`, then `mlfi_eom`
returns `SMFIS_TEMPFAIL` whatever verdict `pre` had set, and after reading the
line it only sets the temporary-failure reply and closes the socket: no later
line is read. -/
theorem C14_eom_unknown_return_value (env : Env) (c : mlfiCtx) (fp : FILE)
    (tr t0 : List Event) (pre post : List CStr) (v : CStr) (r : Sfsistat) (t : List Event)
    (hfp : c.mlfi_fp = some fp)
    (hopen : eom_open env tr { c with mlfi_fp := none } = Except.ok t0)
    (hresp : env.response = pre ++ ("return_value=".toList ++ v) :: post)
    (hlines : eom_lines env pre SMFIS_TEMPFAIL t0 = some (r, t))
    (h1 : v ≠ "continue".toList) (h2 : v ≠ "accept".toList) (h3 : v ≠ "reject".toList)
    (h4 : v ≠ "discard".toList) (h5 : v ≠ "tempfail".toList) :
    mlfi_eom env { priv := some c, trace := tr } =
      (SMFIS_TEMPFAIL,
        { priv := some { c with mlfi_fp := none },
          trace := t ++ [Event.amavisd_response (some ("return_value=".toList ++ v)),
            Event.smfi tempfailReply
              (env.smfi (t ++ [Event.amavisd_response (some ("return_value=".toList ++ v))])
                tempfailReply),
            Event.amavisd_close] }) := by
  have hbad : amavisd_line ("return_value=".toList ++ v) = none := by
    have h : ("return_value=".toList ++ v).take 13 = "return_value=".toList := by simp
    have hd : ("return_value=".toList ++ v).drop 13 = v := by simp
    rw [amavisd_line_return_value _ h, hd, namedVerdict_none v h1 h2 h3 h4 h5]
    rfl
  exact mlfi_eom_rejected_line env c fp tr t0 pre post _ r t hfp hopen hresp hlines
    (by simp) hbad

/-- C14 at the response `return_value=accept`, `return_value=maybe`,
`addrcpt=d@w`, blank line: the verdict is `SMFIS_TEMPFAIL`, two lines are
read and the only mutation-API call is the temporary-failure reply. -/
theorem C14_eom_unknown_return_value_witness :
    (mlfi_eom (Env.good none ["return_value=accept".toList, "return_value=maybe".toList,
        "addrcpt=d@w".toList, []]) { priv := some (ctxOpen []), trace := [] }).1
      = SMFIS_TEMPFAIL ∧
    milterCalls (mlfi_eom (Env.good none ["return_value=accept".toList,
        "return_value=maybe".toList, "addrcpt=d@w".toList, []])
        { priv := some (ctxOpen []), trace := [] }).2.trace = [tempfailReply] ∧
    responseReads (mlfi_eom (Env.good none ["return_value=accept".toList,
        "return_value=maybe".toList, "addrcpt=d@w".toList, []])
        { priv := some (ctxOpen []), trace := [] }).2.trace
      = [some "return_value=accept".toList, some "return_value=maybe".toList] :=
  have h := C14_eom_unknown_return_value
    (Env.good none ["return_value=accept".toList, "return_value=maybe".toList,
        "addrcpt=d@w".toList, []])
    (ctxOpen []) { data := [], error := false } []
    (match eom_open (Env.good none []) [] { ctxOpen [] with mlfi_fp := none } with
      | Except.ok t => t
      | Except.error t => t)
    ["return_value=accept".toList] ["addrcpt=d@w".toList, []] "maybe".toList
    SMFIS_ACCEPT
    (match eom_lines (Env.good none []) ["return_value=accept".toList] SMFIS_TEMPFAIL
        (match eom_open (Env.good none []) [] { ctxOpen [] with mlfi_fp := none } with
          | Except.ok t => t
          | Except.error t => t) with
      | some p => p.2
      | none => [])
    rfl (by rfl) rfl (by rfl) (by decide) (by decide) (by decide) (by decide) (by decide)
  ⟨by rw [h], by rw [h]; rfl, by rw [h]; rfl⟩

/-- C15: when the request was sent and the response is lines `pre`, none of
which ended the loop, after which `amavisd_response` fails (a read error, or
the stream ends before a blank line), then `mlfi_eom` returns
`SMFIS_TEMPFAIL` whatever verdict `pre` had set, sets the temporary-failure
reply and closes the socket. -/
theorem C15_eom_read_failure (env : Env) (c : mlfiCtx) (fp : FILE)
    (tr t0 : List Event) (pre : List CStr) (r : Sfsistat) (t : List Event)
    (hfp : c.mlfi_fp = some fp)
    (hopen : eom_open env tr { c with mlfi_fp := none } = Except.ok t0)
    (hresp : env.response = pre)
    (hlines : eom_lines env pre SMFIS_TEMPFAIL t0 = some (r, t)) :
    mlfi_eom env { priv := some c, trace := tr } =
      (SMFIS_TEMPFAIL,
        { priv := some { c with mlfi_fp := none },
          trace := t ++ [Event.amavisd_response none,
            Event.smfi tempfailReply
              (env.smfi (t ++ [Event.amavisd_response none]) tempfailReply),
            Event.amavisd_close] }) := by
  have h := eom_response_of_lines env pre [] _ _ _ _ hlines
  rw [List.append_nil] at h
  rw [mlfi_eom_of_open env c fp tr t0 hfp hopen, hresp, h]
  simp [eom_response, eom_fail, SMFI_SETREPLY_TEMPFAIL, SMFI_SETREPLY, tempfailReply]

/-- C15 at the response `return_value=accept` after which the read fails: the
verdict is `SMFIS_TEMPFAIL`, not `SMFIS_ACCEPT`, and the socket is closed
once. -/
theorem C15_eom_read_failure_witness :
    (mlfi_eom (Env.good none ["return_value=accept".toList])
        { priv := some (ctxOpen []), trace := [] }).1 = SMFIS_TEMPFAIL ∧
    responseReads (mlfi_eom (Env.good none ["return_value=accept".toList])
        { priv := some (ctxOpen []), trace := [] }).2.trace
      = [some "return_value=accept".toList, none] ∧
    closeCount (mlfi_eom (Env.good none ["return_value=accept".toList])
        { priv := some (ctxOpen []), trace := [] }).2.trace = 1 :=
  have h := C15_eom_read_failure (Env.good none ["return_value=accept".toList])
    (ctxOpen []) { data := [], error := false } []
    (match eom_open (Env.good none []) [] { ctxOpen [] with mlfi_fp := none } with
      | Except.ok t => t
      | Except.error t => t)
    ["return_value=accept".toList] SMFIS_ACCEPT
    (match eom_lines (Env.good none []) ["return_value=accept".toList] SMFIS_TEMPFAIL
        (match eom_open (Env.good none []) [] { ctxOpen [] with mlfi_fp := none } with
          | Except.ok t => t
          | Except.error t => t) with
      | some p => p.2
      | none => [])
    rfl (by rfl) rfl (by rfl)
  ⟨by rw [h], by rw [h]; rfl, by rw [h]; rfl⟩

/-- C19: without a context (`MLFICTX(ctx)` is `NULL`) `mlfi_helo`,
`mlfi_envfrom`, `mlfi_envrcpt`, `mlfi_header`, `mlfi_eoh`, `mlfi_body` and
`mlfi_eom` each return `SMFIS_TEMPFAIL` and their only external call is
`smfi_setreply` with `451`, `4.6.0`, `Content scanner malfunction`;
`mlfi_abort` and `mlfi_close` return `SMFIS_CONTINUE` and make no external
call. -/
theorem C19_callbacks_without_context (env : Env) (tr : List Event)
    (helohost sender : Option CStr) (rcpt headerf headerv : CStr) (chunk : List Char) :
    mlfi_helo env helohost { priv := none, trace := tr }
      = (SMFIS_TEMPFAIL,
          { priv := none, trace := tr ++ [Event.smfi tempfailReply (env.smfi tr tempfailReply)] }) ∧
    mlfi_envfrom env sender { priv := none, trace := tr }
      = (SMFIS_TEMPFAIL,
          { priv := none, trace := tr ++ [Event.smfi tempfailReply (env.smfi tr tempfailReply)] }) ∧
    mlfi_envrcpt env rcpt { priv := none, trace := tr }
      = (SMFIS_TEMPFAIL,
          { priv := none, trace := tr ++ [Event.smfi tempfailReply (env.smfi tr tempfailReply)] }) ∧
    mlfi_header env headerf headerv { priv := none, trace := tr }
      = some (SMFIS_TEMPFAIL,
          { priv := none, trace := tr ++ [Event.smfi tempfailReply (env.smfi tr tempfailReply)] }) ∧
    mlfi_eoh env { priv := none, trace := tr }
      = some (SMFIS_TEMPFAIL,
          { priv := none, trace := tr ++ [Event.smfi tempfailReply (env.smfi tr tempfailReply)] }) ∧
    mlfi_body env chunk { priv := none, trace := tr }
      = some (SMFIS_TEMPFAIL,
          { priv := none, trace := tr ++ [Event.smfi tempfailReply (env.smfi tr tempfailReply)] }) ∧
    mlfi_eom env { priv := none, trace := tr }
      = (SMFIS_TEMPFAIL,
          { priv := none, trace := tr ++ [Event.smfi tempfailReply (env.smfi tr tempfailReply)] }) ∧
    mlfi_abort env { priv := none, trace := tr } = (SMFIS_CONTINUE, { priv := none, trace := tr }) ∧
    mlfi_close env { priv := none, trace := tr } = (SMFIS_CONTINUE, { priv := none, trace := tr }) :=
  ⟨rfl, rfl, rfl, rfl, rfl, rfl, rfl, rfl, rfl⟩

/-! ## The index of `chgheader` and `delheader` -/

/-- A `chgheader` line whose index `strtol` does not read to its end is given
up on. -/
theorem amavisd_line_chgheader_bad_index (i rest : CStr) (hi : ' ' ∉ i)
    (hbad : (strtol i).2 ≠ []) :
    amavisd_line ("chgheader=".toList ++ i ++ ' ' :: rest) = none := by
  have h : AMAVISD_RESPONSE '=' ("chgheader=".toList ++ i ++ ' ' :: rest)
      = some ("chgheader".toList, i ++ ' ' :: rest) := by
    rw [List.append_assoc]
    exact AMAVISD_RESPONSE_append '=' "chgheader".toList _ (by decide)
  have e1 : ¬ "chgheader".toList = "addrcpt".toList := by decide
  have e2 : ¬ "chgheader".toList = "delrcpt".toList := by decide
  have e3 : ¬ "chgheader".toList = "addheader".toList := by decide
  simp only [amavisd_line, h, e1, e2, e3, if_false, if_true,
    AMAVISD_RESPONSE_append ' ' i _ hi, hbad, ne_eq, not_false_eq_true]

/-- A `delheader` line whose index `strtol` does not read to its end is given
up on. -/
theorem amavisd_line_delheader_bad_index (i rest : CStr) (hi : ' ' ∉ i)
    (hbad : (strtol i).2 ≠ []) :
    amavisd_line ("delheader=".toList ++ i ++ ' ' :: rest) = none := by
  have h : AMAVISD_RESPONSE '=' ("delheader=".toList ++ i ++ ' ' :: rest)
      = some ("delheader".toList, i ++ ' ' :: rest) := by
    rw [List.append_assoc]
    exact AMAVISD_RESPONSE_append '=' "delheader".toList _ (by decide)
  have e1 : ¬ "delheader".toList = "addrcpt".toList := by decide
  have e2 : ¬ "delheader".toList = "delrcpt".toList := by decide
  have e3 : ¬ "delheader".toList = "addheader".toList := by decide
  have e4 : ¬ "delheader".toList = "chgheader".toList := by decide
  simp only [amavisd_line, h, e1, e2, e3, e4, if_false, if_true,
    AMAVISD_RESPONSE_append ' ' i _ hi, hbad, ne_eq, not_false_eq_true]

theorem strtol_digits_all (ds : CStr) (h : ∀ c ∈ ds, isdigit c = true) :
    ∀ acc, strtol_digits ds acc
      = (ds.foldl (fun a c => a * 10 + (c.toNat - 48)) acc, []) := by
  induction ds with
  | nil => intro acc; rfl
  | cons d ds ih =>
    intro acc
    have hd := h d (List.mem_cons_self _ _)
    simp only [strtol_digits, hd, if_true, List.foldl_cons]
    exact ih (fun c hc => h c (List.mem_cons_of_mem _ hc)) _

theorem isdigit_not_space_sign (c : Char) (h : isdigit c = true) :
    isspace c = false ∧ c ≠ '-' ∧ c ≠ '+' := by
  simp only [isdigit, Bool.and_eq_true, decide_eq_true_eq] at h
  have h48 : 48 ≤ c.toNat := h.1
  refine ⟨?_, ?_, ?_⟩
  · simp only [isspace, Bool.or_eq_false_iff, decide_eq_false_iff_not]
    refine ⟨⟨⟨⟨⟨?_, ?_⟩, ?_⟩, ?_⟩, ?_⟩, ?_⟩ <;>
    · intro hc
      rw [hc] at h48
      revert h48
      decide
  · intro hc
    rw [hc] at h48
    revert h48
    decide
  · intro hc
    rw [hc] at h48
    revert h48
    decide

/-- On a non-empty string of decimal digits `strtol` reads all of it and
returns its decimal value, `LONG_MAX` at most. -/
theorem strtol_decimal (d : Char) (ds : CStr) (h : ∀ c ∈ d :: ds, isdigit c = true) :
    strtol (d :: ds) = (min LONG_MAX (decimalValue (d :: ds) : Int), []) := by
  have hd := h d (List.mem_cons_self _ _)
  obtain ⟨hs, hm, hp⟩ := isdigit_not_space_sign d hd
  have h1 : List.dropWhile isspace (d :: ds) = d :: ds := by
    simp [List.dropWhile, hs]
  have hm2 : ¬ (some d = some '-') := by simpa using hm
  have hp2 : ¬ (some d = some '+') := by simpa using hp
  have hdig := strtol_digits_all (d :: ds) h 0
  have hmin : (LONG_MIN : Int) ≤ min LONG_MAX (decimalValue (d :: ds) : Int) := by
    have h0 : (0 : Int) ≤ (decimalValue (d :: ds) : Int) := Int.ofNat_nonneg _
    have hL : (0 : Int) ≤ LONG_MAX := by decide
    have hN : LONG_MIN ≤ (0 : Int) := by decide
    exact le_trans hN (le_min hL h0)
  simp only [strtol, h1, List.head?_cons, hm2, hp2, or_self, if_false, hd, if_true, hdig,
    decide_False, Bool.false_eq_true]
  simp only [decimalValue, max_eq_right hmin] at hmin ⊢
  rw [max_eq_right hmin]

theorem int_of_long_small (n : Nat) (h : n < 2 ^ 31) : int_of_long (n : Int) = n := by
  unfold int_of_long
  have h1 : (0 : Int) ≤ (n : Int) + 2 ^ 31 := by positivity
  have h2 : (n : Int) + 2 ^ 31 < 2 ^ 32 := by
    have : (n : Int) < 2 ^ 31 := by exact_mod_cast h
    linarith
  rw [Int.emod_eq_of_lt h1 h2]
  ring

/-- A `chgheader` line whose index is a non-empty string of decimal digits
with a value below `2 ^ 31` asks for `smfi_chgheader` with that value as the
index and the two sub-fields after it as field and text. -/
theorem lineCall_chgheader_decimal (d : Char) (ds f v : CStr)
    (hdig : ∀ c ∈ d :: ds, isdigit c = true) (hf : ' ' ∉ f)
    (hsmall : decimalValue (d :: ds) < 2 ^ 31) :
    lineCall ("chgheader=".toList ++ (d :: ds) ++ ' ' :: (f ++ ' ' :: v))
      = some (MilterCall.smfi_chgheader f (decimalValue (d :: ds)) (some v)) := by
  have hi : ' ' ∉ d :: ds := by
    intro hmem
    have := hdig ' ' hmem
    revert this
    decide
  have hst := strtol_decimal d ds hdig
  have hlt : (decimalValue (d :: ds) : Int) ≤ LONG_MAX := by
    have h1 : (decimalValue (d :: ds) : Int) < 2 ^ 31 := by exact_mod_cast hsmall
    have h2 : (2 : Int) ^ 31 ≤ LONG_MAX := by decide
    linarith
  have hnum : (strtol (d :: ds)).2 = [] := by rw [hst]
  rw [lineCall_chgheader (d :: ds) f v hi hf hnum, hst]
  simp only [min_eq_right hlt, int_of_long_small _ hsmall]

/-- A `delheader` line whose index is a non-empty string of decimal digits
with a value below `2 ^ 31` asks for `smfi_chgheader` with that value as the
index, the rest of the line as field and `NULL` as text. -/
theorem lineCall_delheader_decimal (d : Char) (ds f : CStr)
    (hdig : ∀ c ∈ d :: ds, isdigit c = true)
    (hsmall : decimalValue (d :: ds) < 2 ^ 31) :
    lineCall ("delheader=".toList ++ (d :: ds) ++ ' ' :: f)
      = some (MilterCall.smfi_chgheader f (decimalValue (d :: ds)) none) := by
  have hi : ' ' ∉ d :: ds := by
    intro hmem
    have := hdig ' ' hmem
    revert this
    decide
  have hst := strtol_decimal d ds hdig
  have hlt : (decimalValue (d :: ds) : Int) ≤ LONG_MAX := by
    have h1 : (decimalValue (d :: ds) : Int) < 2 ^ 31 := by exact_mod_cast hsmall
    have h2 : (2 : Int) ^ 31 ≤ LONG_MAX := by decide
    linarith
  have hnum : (strtol (d :: ds)).2 = [] := by rw [hst]
  rw [lineCall_delheader (d :: ds) f hi hnum, hst]
  simp only [min_eq_right hlt, int_of_long_small _ hsmall]

/-- C12 fails on the code for an empty index: the response
`chgheader= Subject hi`, `return_value=accept`, blank line makes `mlfi_eom`
call `smfi_chgheader` for `Subject` with index 0 and text `hi` and return
`SMFIS_ACCEPT`, and `delheader= Subject` likewise deletes with index 0
(`strtol` converts nothing and leaves its end pointer at the terminating NUL,
which the code takes for a number read in full).  On the two indices the claim
names, `x` and `1a`, the code does give up. -/
theorem C12_eom_empty_index_accepted :
    (mlfi_eom (Env.good none ["chgheader= Subject hi".toList, "return_value=accept".toList, []])
        { priv := some (ctxOpen []), trace := [] }).1 = SMFIS_ACCEPT ∧
    milterCalls (mlfi_eom
        (Env.good none ["chgheader= Subject hi".toList, "return_value=accept".toList, []])
        { priv := some (ctxOpen []), trace := [] }).2.trace
      = [MilterCall.smfi_chgheader "Subject".toList 0 (some "hi".toList)] ∧
    (mlfi_eom (Env.good none ["delheader= Subject".toList, "return_value=accept".toList, []])
        { priv := some (ctxOpen []), trace := [] }).1 = SMFIS_ACCEPT ∧
    milterCalls (mlfi_eom
        (Env.good none ["delheader= Subject".toList, "return_value=accept".toList, []])
        { priv := some (ctxOpen []), trace := [] }).2.trace
      = [MilterCall.smfi_chgheader "Subject".toList 0 none] ∧
    amavisd_line "chgheader=x Subject hi".toList = none ∧
    amavisd_line "delheader=1a Subject".toList = none := by
  refine ⟨?_, ?_, ?_, ?_, ?_, ?_⟩ <;> rfl

/-- C13 fails on the code: for the response lines `chgheader=-1 Subject hi`,
`delheader= Subject` and `chgheader=4294967297 Subject hi` (each followed by
the blank line) `mlfi_eom` does call `smfi_chgheader`, with the indices -1, 0
and 1: a negative index is passed on, an empty index counts as 0, and a value
that does not fit `int` is cut down by the conversion. -/
theorem C13_eom_index_not_decimal_value :
    milterCalls (mlfi_eom (Env.good none ["chgheader=-1 Subject hi".toList, []])
        { priv := some (ctxOpen []), trace := [] }).2.trace
      = [MilterCall.smfi_chgheader "Subject".toList (-1) (some "hi".toList)] ∧
    milterCalls (mlfi_eom (Env.good none ["delheader= Subject".toList, []])
        { priv := some (ctxOpen []), trace := [] }).2.trace
      = [MilterCall.smfi_chgheader "Subject".toList 0 none] ∧
    milterCalls (mlfi_eom (Env.good none ["chgheader=4294967297 Subject hi".toList, []])
        { priv := some (ctxOpen []), trace := [] }).2.trace
      = [MilterCall.smfi_chgheader "Subject".toList 1 (some "hi".toList)] := by
  refine ⟨?_, ?_, ?_⟩ <;> rfl

/-! ## The response loop under a transport that only sees its own calls -/

theorem smfiEvents_append (a b : List Event) :
    smfiEvents (a ++ b) = smfiEvents a ++ smfiEvents b := by
  simp [smfiEvents, List.filterMap_append]

theorem milterCalls_eq_smfiEvents (tr : List Event) :
    milterCalls tr = (smfiEvents tr).map Prod.fst := by
  induction tr with
  | nil => rfl
  | cons e es ih =>
    cases e <;> simp_all [milterCalls, smfiEvents]

theorem eom_response_extends (env : Env) (lines : List CStr) :
    ∀ r t, ∃ evs, (eom_response env lines r t).2 = t ++ evs := by
  induction lines with
  | nil =>
    intro r t
    exact ⟨_, by simp [eom_response, eom_fail, SMFI_SETREPLY_TEMPFAIL, SMFI_SETREPLY]; rfl⟩
  | cons l ls ih =>
    intro r t
    simp only [eom_response]
    by_cases hl : l = []
    · exact ⟨[Event.amavisd_response (some l), Event.amavisd_close], by simp [hl]⟩
    · simp only [hl, if_false]
      cases ha : amavisd_line l with
      | none =>
        exact ⟨_, by simp [eom_fail, SMFI_SETREPLY_TEMPFAIL, SMFI_SETREPLY]; rfl⟩
      | some a =>
        cases a with
        | call c =>
          simp only
          split
          · exact ⟨_, by simp [eom_fail, SMFI_SETREPLY_TEMPFAIL, SMFI_SETREPLY]; rfl⟩
          · obtain ⟨evs, h⟩ := ih r (t ++ [Event.amavisd_response (some l)] ++
              [Event.smfi c (env.smfi (t ++ [Event.amavisd_response (some l)]) c)])
            exact ⟨_, by rw [h, List.append_assoc, List.append_assoc]⟩
        | verdict v =>
          obtain ⟨evs, h⟩ := ih v (t ++ [Event.amavisd_response (some l)])
          exact ⟨[Event.amavisd_response (some l)] ++ evs, by rw [h, List.append_assoc]⟩
        | skip =>
          obtain ⟨evs, h⟩ := ih r (t ++ [Event.amavisd_response (some l)])
          exact ⟨[Event.amavisd_response (some l)] ++ evs, by rw [h, List.append_assoc]⟩

/-- Two runs of the response loop on the same lines, from traces with the same
mutation-API history, under a transport whose answers depend on that history
only: the same value is returned and the same calls are made. -/
theorem eom_response_same_history (env : Env)
    (H : ∀ t1 t2 call, smfiEvents t1 = smfiEvents t2 → env.smfi t1 call = env.smfi t2 call)
    (lines : List CStr) :
    ∀ r t1 t2, smfiEvents t1 = smfiEvents t2 →
      (eom_response env lines r t1).1 = (eom_response env lines r t2).1 ∧
      smfiEvents (eom_response env lines r t1).2 = smfiEvents (eom_response env lines r t2).2 := by
  induction lines with
  | nil =>
    intro r t1 t2 h
    have h1 : smfiEvents (t1 ++ [Event.amavisd_response none])
        = smfiEvents (t2 ++ [Event.amavisd_response none]) := by
      simp only [smfiEvents_append, h]
    simp only [eom_response, eom_fail, SMFI_SETREPLY_TEMPFAIL, SMFI_SETREPLY, smfiEvents_append,
      h, H _ _ _ h1, true_and]
  | cons l ls ih =>
    intro r t1 t2 h
    have h1 : smfiEvents (t1 ++ [Event.amavisd_response (some l)])
        = smfiEvents (t2 ++ [Event.amavisd_response (some l)]) := by
      simp only [smfiEvents_append, h]
    simp only [eom_response]
    by_cases hl : l = []
    · simp only [hl, if_true, smfiEvents_append, h, true_and]
    · simp only [hl, if_false]
      cases ha : amavisd_line l with
      | none =>
        simp only [eom_fail, SMFI_SETREPLY_TEMPFAIL, SMFI_SETREPLY, smfiEvents_append, h,
          H _ _ _ h1, true_and]
      | some a =>
        cases a with
        | call c =>
          have hc := H _ _ c h1
          have h2 : smfiEvents (t1 ++ [Event.amavisd_response (some l)] ++
                [Event.smfi c (env.smfi (t1 ++ [Event.amavisd_response (some l)]) c)])
              = smfiEvents (t2 ++ [Event.amavisd_response (some l)] ++
                [Event.smfi c (env.smfi (t2 ++ [Event.amavisd_response (some l)]) c)]) := by
            rw [smfiEvents_append, smfiEvents_append _ [Event.smfi c _], h1, hc]
          simp only
          rw [hc] at h2 ⊢
          split
          · have h3 := H _ _ (MilterCall.smfi_setreply "451".toList "4.6.0".toList
              "Content scanner malfunction".toList) h2
            simp only [eom_fail, SMFI_SETREPLY_TEMPFAIL, SMFI_SETREPLY, h3, true_and]
            simp only [smfiEvents_append, h]
          · exact ih r _ _ h2
        | verdict v => exact ih v _ _ h1
        | skip => exact ih r _ _ h1

/-- A line that asks for nothing can be left out of the response: under a
transport whose answers depend on the mutation-API history only, the loop
returns the same value and makes the same calls. -/
theorem eom_response_without_skipped (env : Env)
    (H : ∀ t1 t2 call, smfiEvents t1 = smfiEvents t2 → env.smfi t1 call = env.smfi t2 call)
    (line : CStr) (post : List CStr) (hne : line ≠ []) (hskip : amavisd_line line = some Action.skip)
    (pre : List CStr) :
    ∀ r t1 t2, smfiEvents t1 = smfiEvents t2 →
      (eom_response env (pre ++ line :: post) r t1).1 = (eom_response env (pre ++ post) r t2).1 ∧
      smfiEvents (eom_response env (pre ++ line :: post) r t1).2
        = smfiEvents (eom_response env (pre ++ post) r t2).2 := by
  induction pre with
  | nil =>
    intro r t1 t2 h
    have h1 : smfiEvents (t1 ++ [Event.amavisd_response (some line)]) = smfiEvents t2 := by
      rw [smfiEvents_append, h]
      simp [smfiEvents]
    have e : eom_response env (line :: post) r t1
        = eom_response env post r (t1 ++ [Event.amavisd_response (some line)]) := by
      simp only [eom_response, hne, if_false, hskip]
    simp only [List.nil_append, e]
    exact eom_response_same_history env H post r _ _ h1
  | cons l ls ih =>
    intro r t1 t2 h
    have h1 : smfiEvents (t1 ++ [Event.amavisd_response (some l)])
        = smfiEvents (t2 ++ [Event.amavisd_response (some l)]) := by
      simp only [smfiEvents_append, h]
    simp only [List.cons_append, eom_response]
    by_cases hl : l = []
    · simp only [hl, if_true, smfiEvents_append, h, true_and]
    · simp only [hl, if_false]
      cases ha : amavisd_line l with
      | none =>
        simp only [eom_fail, SMFI_SETREPLY_TEMPFAIL, SMFI_SETREPLY, smfiEvents_append, h,
          H _ _ _ h1, true_and]
      | some a =>
        cases a with
        | call c =>
          have hc := H _ _ c h1
          have h2 : smfiEvents (t1 ++ [Event.amavisd_response (some l)] ++
                [Event.smfi c (env.smfi (t1 ++ [Event.amavisd_response (some l)]) c)])
              = smfiEvents (t2 ++ [Event.amavisd_response (some l)] ++
                [Event.smfi c (env.smfi (t2 ++ [Event.amavisd_response (some l)]) c)]) := by
            rw [smfiEvents_append, smfiEvents_append _ [Event.smfi c _], h1, hc]
          simp only
          rw [hc] at h2 ⊢
          split
          · have h3 := H _ _ (MilterCall.smfi_setreply "451".toList "4.6.0".toList
              "Content scanner malfunction".toList) h2
            simp only [eom_fail, SMFI_SETREPLY_TEMPFAIL, SMFI_SETREPLY, h3, true_and]
            simp only [smfiEvents_append, h]
          · exact ih r _ _ h2
        | verdict v => exact ih v _ _ h1
        | skip => exact ih r _ _ h1

/-! ## Another response, the same environment otherwise -/

theorem SMFI_SETREPLY_TEMPFAIL_withResponse (env : Env) (resp : List CStr) (tr : List Event) :
    SMFI_SETREPLY_TEMPFAIL (env.withResponse resp) tr = SMFI_SETREPLY_TEMPFAIL env tr := rfl

theorem AMAVISD_REQUEST_withResponse (env : Env) (resp : List CStr) (n v : Option CStr)
    (tr : List Event) :
    AMAVISD_REQUEST (env.withResponse resp) n v tr = AMAVISD_REQUEST env n v tr := rfl

theorem eom_recipients_withResponse (env : Env) (resp : List CStr) (rcpts : List CStr) :
    ∀ tr, eom_recipients (env.withResponse resp) rcpts tr = eom_recipients env rcpts tr := by
  induction rcpts with
  | nil => intro tr; rfl
  | cons r rs ih =>
    intro tr
    simp only [eom_recipients, AMAVISD_REQUEST_withResponse, ih]

theorem eom_open_withResponse (env : Env) (resp : List CStr) (tr : List Event) (mlfi : mlfiCtx) :
    eom_open (env.withResponse resp) tr mlfi = eom_open env tr mlfi := by
  simp only [eom_open, eom_request, AMAVISD_REQUEST_withResponse, eom_recipients_withResponse,
    SMFI_SETREPLY_TEMPFAIL_withResponse]
  rfl

theorem eom_response_withResponse (env : Env) (resp : List CStr) (lines : List CStr) :
    ∀ r t, eom_response (env.withResponse resp) lines r t = eom_response env lines r t := by
  induction lines with
  | nil => intro r t; rfl
  | cons l ls ih =>
    intro r t
    simp only [eom_response, ih]
    rfl

/-- The value and the calls of `mlfi_eom` for two responses on which the
response loop agrees. -/
theorem mlfi_eom_two_responses (env : Env) (resp : List CStr) (s : State)
    (hkey : ∀ r t, (eom_response env env.response r t).1 = (eom_response env resp r t).1 ∧
      smfiEvents (eom_response env env.response r t).2 = smfiEvents (eom_response env resp r t).2) :
    (mlfi_eom env s).1 = (mlfi_eom (env.withResponse resp) s).1 ∧
    milterCalls (mlfi_eom env s).2.trace = milterCalls (mlfi_eom (env.withResponse resp) s).2.trace := by
  simp only [milterCalls_eq_smfiEvents]
  obtain ⟨priv, tr⟩ := s
  cases priv with
  | none => exact ⟨rfl, rfl⟩
  | some c =>
    cases hfp : c.mlfi_fp with
    | none =>
      simp only [mlfi_eom, hfp, SMFI_SETREPLY_TEMPFAIL_withResponse, and_self]
    | some fp =>
      simp only [mlfi_eom, hfp, eom_open_withResponse, eom_response_withResponse]
      cases eom_open env tr { c with mlfi_fp := none } with
      | error e => exact ⟨rfl, rfl⟩
      | ok t0 =>
        have h := hkey SMFIS_TEMPFAIL t0
        exact ⟨h.1, by rw [h.2]; rfl⟩

/-- C11: when the request was sent and the response is lines `pre`, none of
which ended the loop, followed by a line `setreply=rcode xcode text` (no space
in `rcode` and `xcode`): if `rcode` starts with `4` or `5`, `mlfi_eom` calls
`smfi_setreply` with exactly `rcode`, `xcode` and `text` right after reading
the line; otherwise it makes no call for the line and goes on with the next
line, the pending verdict unchanged, and (the transport answering by its own
call history only) returns the same value and makes the same mutation-API
calls as for the response without that line. -/
theorem C11_eom_setreply_line (env : Env) (c : mlfiCtx) (fp : FILE)
    (tr t0 : List Event) (pre post : List CStr) (rc xc v : CStr) (r : Sfsistat) (t : List Event)
    (hfp : c.mlfi_fp = some fp)
    (hopen : eom_open env tr { c with mlfi_fp := none } = Except.ok t0)
    (hresp : env.response
      = pre ++ ("setreply=".toList ++ rc ++ ' ' :: (xc ++ ' ' :: v)) :: post)
    (hlines : eom_lines env pre SMFIS_TEMPFAIL t0 = some (r, t))
    (hrc : ' ' ∉ rc) (hxc : ' ' ∉ xc) :
    ((rc.head? = some '4' ∨ rc.head? = some '5') →
      ∃ rest, (mlfi_eom env { priv := some c, trace := tr }).2.trace
        = t ++ [Event.amavisd_response (some ("setreply=".toList ++ rc ++ ' ' :: (xc ++ ' ' :: v))),
            Event.smfi (MilterCall.smfi_setreply rc xc v)
              (env.smfi (t ++ [Event.amavisd_response
                  (some ("setreply=".toList ++ rc ++ ' ' :: (xc ++ ' ' :: v)))])
                (MilterCall.smfi_setreply rc xc v))] ++ rest) ∧
    (rc.head? ≠ some '4' → rc.head? ≠ some '5' →
      mlfi_eom env { priv := some c, trace := tr }
        = ((eom_response env post r (t ++ [Event.amavisd_response
              (some ("setreply=".toList ++ rc ++ ' ' :: (xc ++ ' ' :: v)))])).1,
            { priv := some { c with mlfi_fp := none },
              trace := (eom_response env post r (t ++ [Event.amavisd_response
                (some ("setreply=".toList ++ rc ++ ' ' :: (xc ++ ' ' :: v)))])).2 }) ∧
      ((∀ t1 t2 call, smfiEvents t1 = smfiEvents t2 → env.smfi t1 call = env.smfi t2 call) →
        (mlfi_eom env { priv := some c, trace := tr }).1
          = (mlfi_eom (env.withResponse (pre ++ post)) { priv := some c, trace := tr }).1 ∧
        milterCalls (mlfi_eom env { priv := some c, trace := tr }).2.trace
          = milterCalls (mlfi_eom (env.withResponse (pre ++ post))
              { priv := some c, trace := tr }).2.trace)) := by
  have hne : "setreply=".toList ++ rc ++ ' ' :: (xc ++ ' ' :: v) ≠ [] := by simp
  have hrun : mlfi_eom env { priv := some c, trace := tr }
      = ((eom_response env (("setreply=".toList ++ rc ++ ' ' :: (xc ++ ' ' :: v)) :: post) r t).1,
          { priv := some { c with mlfi_fp := none },
            trace := (eom_response env
              (("setreply=".toList ++ rc ++ ' ' :: (xc ++ ' ' :: v)) :: post) r t).2 }) := by
    rw [mlfi_eom_of_open env c fp tr t0 hfp hopen, hresp,
      eom_response_of_lines env pre _ _ _ _ _ hlines]
  refine ⟨?_, ?_⟩
  · intro h45
    have hcall := lineCall_setreply_45 rc xc v hrc hxc h45
    have ha : amavisd_line ("setreply=".toList ++ rc ++ ' ' :: (xc ++ ' ' :: v))
        = some (Action.call (MilterCall.smfi_setreply rc xc v)) := by
      have hc : ¬ (rc.head? ≠ some '4' ∧ rc.head? ≠ some '5') := by
        rintro ⟨h4, h5⟩
        rcases h45 with h | h
        · exact h4 h
        · exact h5 h
      rw [amavisd_line_setreply rc xc v hrc hxc, if_neg hc]
    rw [hrun]
    simp only [eom_response, hne, if_false, ha]
    split
    · exact ⟨_, by
        simp only [eom_fail, SMFI_SETREPLY_TEMPFAIL, SMFI_SETREPLY, List.append_assoc]
        rfl⟩
    · obtain ⟨evs, he⟩ := eom_response_extends env post r
        (t ++ [Event.amavisd_response (some ("setreply=".toList ++ rc ++ ' ' :: (xc ++ ' ' :: v)))]
          ++ [Event.smfi (MilterCall.smfi_setreply rc xc v)
              (env.smfi (t ++ [Event.amavisd_response
                  (some ("setreply=".toList ++ rc ++ ' ' :: (xc ++ ' ' :: v)))])
                (MilterCall.smfi_setreply rc xc v))])
      exact ⟨evs, by rw [he]; simp only [List.append_assoc, List.cons_append, List.nil_append]⟩
  · intro h4 h5
    have hskip := (lineCall_setreply_other rc xc v hrc hxc h4 h5).1
    refine ⟨?_, ?_⟩
    · rw [hrun]
      simp only [eom_response, hne, if_false, hskip]
    · intro H
      apply mlfi_eom_two_responses
      intro r1 t1
      rw [hresp]
      exact eom_response_without_skipped env H _ post hne hskip pre r1 t1 t1 rfl

/-- C11 at the response `addrcpt=d@w`, `setreply=250 2.0.0 ok`,
`return_value=accept`, blank line: value and calls are those of the response
without the `setreply` line, `SMFIS_ACCEPT` and the one `smfi_addrcpt`. -/
theorem C11_eom_setreply_line_witness :
    ((mlfi_eom (Env.good none ["addrcpt=d@w".toList, "setreply=250 2.0.0 ok".toList,
          "return_value=accept".toList, []]) { priv := some (ctxOpen []), trace := [] }).1
        = (mlfi_eom ((Env.good none ["addrcpt=d@w".toList, "setreply=250 2.0.0 ok".toList,
          "return_value=accept".toList, []]).withResponse
            (["addrcpt=d@w".toList] ++ ["return_value=accept".toList, []]))
          { priv := some (ctxOpen []), trace := [] }).1 ∧
      milterCalls (mlfi_eom (Env.good none ["addrcpt=d@w".toList,
          "setreply=250 2.0.0 ok".toList, "return_value=accept".toList, []])
          { priv := some (ctxOpen []), trace := [] }).2.trace
        = milterCalls (mlfi_eom ((Env.good none ["addrcpt=d@w".toList,
          "setreply=250 2.0.0 ok".toList, "return_value=accept".toList, []]).withResponse
            (["addrcpt=d@w".toList] ++ ["return_value=accept".toList, []]))
          { priv := some (ctxOpen []), trace := [] }).2.trace) ∧
    (mlfi_eom (Env.good none ["addrcpt=d@w".toList, "setreply=250 2.0.0 ok".toList,
        "return_value=accept".toList, []]) { priv := some (ctxOpen []), trace := [] }).1
      = SMFIS_ACCEPT ∧
    milterCalls (mlfi_eom (Env.good none ["addrcpt=d@w".toList, "setreply=250 2.0.0 ok".toList,
        "return_value=accept".toList, []]) { priv := some (ctxOpen []), trace := [] }).2.trace
      = [MilterCall.smfi_addrcpt "d@w".toList] :=
  have h := C11_eom_setreply_line
    (Env.good none ["addrcpt=d@w".toList, "setreply=250 2.0.0 ok".toList,
        "return_value=accept".toList, []])
    (ctxOpen []) { data := [], error := false } []
    (match eom_open (Env.good none []) [] { ctxOpen [] with mlfi_fp := none } with
      | Except.ok t => t
      | Except.error t => t)
    ["addrcpt=d@w".toList] ["return_value=accept".toList, []]
    "250".toList "2.0.0".toList "ok".toList SMFIS_TEMPFAIL
    (match eom_lines (Env.good none []) ["addrcpt=d@w".toList] SMFIS_TEMPFAIL
        (match eom_open (Env.good none []) [] { ctxOpen [] with mlfi_fp := none } with
          | Except.ok t => t
          | Except.error t => t) with
      | some p => p.2
      | none => [])
    rfl (by rfl) rfl (by rfl) (by decide) (by decide)
  ⟨((h.2 (by decide) (by decide)).2 (fun _ _ _ _ => rfl)), rfl, rfl⟩

/-! ## The socket is closed once -/

theorem eom_response_closes (env : Env) (lines : List CStr) :
    ∀ r t, closeCount (eom_response env lines r t).2 = closeCount t + 1 ∧
      (eom_response env lines r t).2.getLast? = some Event.amavisd_close := by
  induction lines with
  | nil =>
    intro r t
    simp [eom_response, eom_fail, SMFI_SETREPLY_TEMPFAIL, SMFI_SETREPLY, closeCount,
      List.count_append]
  | cons l ls ih =>
    intro r t
    simp only [eom_response]
    by_cases hl : l = []
    · simp [hl, closeCount, List.count_append]
    · simp only [hl, if_false]
      cases ha : amavisd_line l with
      | none =>
        simp [eom_fail, SMFI_SETREPLY_TEMPFAIL, SMFI_SETREPLY, closeCount, List.count_append]
      | some a =>
        cases a with
        | call c =>
          simp only
          split
          · simp [eom_fail, SMFI_SETREPLY_TEMPFAIL, SMFI_SETREPLY, closeCount, List.count_append]
          · obtain ⟨h1, h2⟩ := ih r (t ++ [Event.amavisd_response (some l)] ++
              [Event.smfi c (env.smfi (t ++ [Event.amavisd_response (some l)]) c)])
            refine ⟨?_, h2⟩
            rw [h1]
            simp [closeCount, List.count_append]
        | verdict v =>
          obtain ⟨h1, h2⟩ := ih v (t ++ [Event.amavisd_response (some l)])
          refine ⟨?_, h2⟩
          rw [h1]
          simp [closeCount, List.count_append]
        | skip =>
          obtain ⟨h1, h2⟩ := ih r (t ++ [Event.amavisd_response (some l)])
          refine ⟨?_, h2⟩
          rw [h1]
          simp [closeCount, List.count_append]

theorem RequestFailed.of_sendOnly {env : Env} {a b e : List Event} (h1 : SendOnly a b)
    (h2 : RequestFailed env b e) : RequestFailed env a e := by
  obtain ⟨t2, n, v, hs, he⟩ := h2
  exact ⟨t2, n, v, h1.trans hs, he⟩

theorem AMAVISD_REQUEST_error {env : Env} {name value : Option CStr} {tr e : List Event}
    (h : AMAVISD_REQUEST env name value tr = Except.error e) : RequestFailed env tr e := by
  unfold AMAVISD_REQUEST at h
  split at h
  · exact Except.noConfusion h
  · refine ⟨tr, name, value, SendOnly.refl tr, ?_⟩
    rw [← Except.error.inj h]
    simp [SMFI_SETREPLY_TEMPFAIL, SMFI_SETREPLY, tempfailReply]

theorem RequestFailed.bind {env : Env} {tr e : List Event}
    {x : Except (List Event) (List Event)} {g : List Event → Except (List Event) (List Event)}
    (hok : ∀ a, x = Except.ok a → SendOnly tr a)
    (hx : ∀ e1, x = Except.error e1 → RequestFailed env tr e1)
    (hg : ∀ a e1, g a = Except.error e1 → RequestFailed env a e1)
    (h : (x >>= g) = Except.error e) : RequestFailed env tr e := by
  cases x with
  | error e1 =>
    have : e1 = e := Except.error.inj h
    subst this
    exact hx _ rfl
  | ok a => exact RequestFailed.of_sendOnly (hok a rfl) (hg a e h)

theorem AMAVISD_REQUEST_if_error {env : Env} {p : Prop} [Decidable p]
    {name value : Option CStr} {tr e : List Event}
    (h : (if p then AMAVISD_REQUEST env name value tr else pure tr) = Except.error e) :
    RequestFailed env tr e := by
  split at h
  · exact AMAVISD_REQUEST_error h
  · cases h

theorem eom_recipients_error (env : Env) (rcpts : List CStr) :
    ∀ tr e, eom_recipients env rcpts tr = Except.error e → RequestFailed env tr e := by
  induction rcpts with
  | nil => intro tr e h; cases h
  | cons r rs ih =>
    intro tr e h
    simp only [eom_recipients] at h
    split at h
    · rename_i e1 h1
      have : e1 = e := Except.error.inj h
      subst this
      exact AMAVISD_REQUEST_error h1
    · rename_i t1 h1
      exact RequestFailed.of_sendOnly (AMAVISD_REQUEST_sendOnly h1) (ih _ _ h)

theorem eom_request_error {env : Env} {mlfi : mlfiCtx} {tr e : List Event}
    (h : eom_request env mlfi tr = Except.error e) : RequestFailed env tr e := by
  unfold eom_request at h
  refine RequestFailed.bind (fun _ => AMAVISD_REQUEST_sendOnly) (fun _ => AMAVISD_REQUEST_error)
    (fun a1 e1 h => ?_) h
  refine RequestFailed.bind (fun _ => AMAVISD_REQUEST_if_sendOnly)
    (fun _ => AMAVISD_REQUEST_if_error) (fun a1 e1 h => ?_) h
  refine RequestFailed.bind (fun _ => AMAVISD_REQUEST_sendOnly) (fun _ => AMAVISD_REQUEST_error)
    (fun a1 e1 h => ?_) h
  refine RequestFailed.bind (fun _ => eom_recipients_sendOnly env _ _ _)
    (fun _ => eom_recipients_error env _ _ _) (fun a1 e1 h => ?_) h
  refine RequestFailed.bind (fun _ => AMAVISD_REQUEST_sendOnly) (fun _ => AMAVISD_REQUEST_error)
    (fun a1 e1 h => ?_) h
  refine RequestFailed.bind (fun _ => AMAVISD_REQUEST_sendOnly) (fun _ => AMAVISD_REQUEST_error)
    (fun a1 e1 h => ?_) h
  refine RequestFailed.bind (fun _ => AMAVISD_REQUEST_sendOnly) (fun _ => AMAVISD_REQUEST_error)
    (fun a1 e1 h => ?_) h
  refine RequestFailed.bind (fun _ => AMAVISD_REQUEST_sendOnly) (fun _ => AMAVISD_REQUEST_error)
    (fun a1 e1 h => ?_) h
  refine RequestFailed.bind (fun _ => AMAVISD_REQUEST_sendOnly) (fun _ => AMAVISD_REQUEST_error)
    (fun a1 e1 h => ?_) h
  refine RequestFailed.bind (fun _ => AMAVISD_REQUEST_if_sendOnly)
    (fun _ => AMAVISD_REQUEST_if_error) (fun a1 e1 h => ?_) h
  refine RequestFailed.bind (fun _ => AMAVISD_REQUEST_if_sendOnly)
    (fun _ => AMAVISD_REQUEST_if_error) (fun a1 e1 h => ?_) h
  exact AMAVISD_REQUEST_error h

/-- The part of `mlfi_eom` before the response loop, the message file closed
and the engine connected: an early return is a failed request write. -/
theorem eom_open_error {env : Env} {mlfi : mlfiCtx} {tr e : List Event}
    (hclose : env.fclose tr = true)
    (hconn : env.amavisd_connect (tr ++ [Event.fclose true]) = true)
    (h : eom_open env tr mlfi = Except.error e) : RequestFailed env tr e := by
  unfold eom_open at h
  simp only [hclose, hconn, Bool.not_true, Bool.false_eq_true, if_false] at h
  refine RequestFailed.of_sendOnly ⟨[Event.fclose true, Event.amavisd_connect true], ?_, ?_⟩
    (eom_request_error h)
  · simp
  · simp [isSendEvent]

theorem RequestFailed.counts {env : Env} {tr e : List Event} (h : RequestFailed env tr e) :
    closeCount e = closeCount tr + 1 ∧ e.getLast? = some Event.amavisd_close ∧
      responseReads e = responseReads tr := by
  obtain ⟨t2, n, v, hs, rfl⟩ := h
  obtain ⟨_, h2, h3⟩ := hs.projections
  refine ⟨?_, ?_, ?_⟩
  · rw [closeCount_append, h3]
    simp [closeCount]
  · simp
  · rw [responseReads_append, h2]
    simp [responseReads]

/-- C16: the message file being open and closed without error, when the engine
is connected the trace of `mlfi_eom` holds exactly one more `amavisd_close`
than before, as its last event, on every path; when moreover the part before
the response loop returns early (a request write failed), `mlfi_eom` returns
`SMFIS_TEMPFAIL`, the failed request line is followed only by the
temporary-failure reply and the close, and no response line is read; when the
connect fails, `mlfi_eom` returns `SMFIS_TEMPFAIL` after setting the
temporary-failure reply, with no request line, no read and no close. -/
theorem C16_eom_closes_socket_once (env : Env) (c : mlfiCtx) (fp : FILE) (tr : List Event)
    (hfp : c.mlfi_fp = some fp) (hclose : env.fclose tr = true) :
    (env.amavisd_connect (tr ++ [Event.fclose true]) = true →
      closeCount (mlfi_eom env { priv := some c, trace := tr }).2.trace = closeCount tr + 1 ∧
      (mlfi_eom env { priv := some c, trace := tr }).2.trace.getLast?
        = some Event.amavisd_close) ∧
    (env.amavisd_connect (tr ++ [Event.fclose true]) = true →
      ∀ t1, eom_open env tr { c with mlfi_fp := none } = Except.error t1 →
        mlfi_eom env { priv := some c, trace := tr }
          = (SMFIS_TEMPFAIL, { priv := some { c with mlfi_fp := none }, trace := t1 }) ∧
        responseReads t1 = responseReads tr ∧
        RequestFailed env tr t1) ∧
    (env.amavisd_connect (tr ++ [Event.fclose true]) = false →
      mlfi_eom env { priv := some c, trace := tr }
        = (SMFIS_TEMPFAIL,
            { priv := some { c with mlfi_fp := none },
              trace := tr ++ [Event.fclose true, Event.amavisd_connect false,
                Event.smfi tempfailReply
                  (env.smfi (tr ++ [Event.fclose true, Event.amavisd_connect false])
                    tempfailReply)] })) := by
  refine ⟨?_, ?_, ?_⟩
  · intro hconn
    cases ho : eom_open env tr { c with mlfi_fp := none } with
    | error e =>
      have h := (eom_open_error hclose hconn ho).counts
      simp only [mlfi_eom, hfp, ho]
      exact ⟨h.1, h.2.1⟩
    | ok t0 =>
      rw [mlfi_eom_of_open env c fp tr t0 hfp ho]
      obtain ⟨h1, h2⟩ := eom_response_closes env env.response SMFIS_TEMPFAIL t0
      refine ⟨?_, h2⟩
      simp only [h1, (eom_open_sendOnly ho).projections.2.2]
  · intro hconn t1 ho
    have h := eom_open_error hclose hconn ho
    refine ⟨?_, h.counts.2.2, h⟩
    simp only [mlfi_eom, hfp, ho]
  · intro hconn
    simp [mlfi_eom, hfp, eom_open, hclose, hconn, SMFI_SETREPLY_TEMPFAIL, SMFI_SETREPLY,
      tempfailReply]

/-- C16 on a socket where the write of the `sender` line fails: the value is
`SMFIS_TEMPFAIL`, the request lines are `request`, `queue_id` and `sender`,
nothing is read and the socket is closed once. -/
theorem C16_eom_closes_socket_once_witness :
    mlfi_eom (Env.failingRequest "sender".toList ["return_value=accept".toList, []])
        { priv := some (ctxOpen []), trace := [] }
      = (SMFIS_TEMPFAIL,
          { priv := some { ctxOpen [] with mlfi_fp := none },
            trace := [Event.fclose true, Event.amavisd_connect true,
              Event.amavisd_request (some "request".toList) (some "AM.PDP".toList) true,
              Event.amavisd_request (some "queue_id".toList) (some "Q1".toList) true,
              Event.amavisd_request (some "sender".toList) (some "a@x".toList) false,
              Event.smfi tempfailReply true, Event.amavisd_close] }) ∧
    closeCount (mlfi_eom (Env.failingRequest "sender".toList ["return_value=accept".toList, []])
        { priv := some (ctxOpen []), trace := [] }).2.trace = 0 + 1 :=
  have h := C16_eom_closes_socket_once
    (Env.failingRequest "sender".toList ["return_value=accept".toList, []])
    (ctxOpen []) { data := [], error := false } [] rfl rfl
  ⟨(h.2.1 rfl _ (by rfl)).1, (h.1 rfl).1⟩

/-! ## The temporary-failure reply -/

theorem Extends.same (tr : List Event) : Extends tr tr := ⟨[], by simp⟩

theorem Extends.snoc (tr : List Event) (e : Event) : Extends tr (tr ++ [e]) := ⟨[e], rfl⟩

theorem Extends.chain {a b c : List Event} (h1 : Extends a b) (h2 : Extends b c) :
    Extends a c := by
  obtain ⟨e1, rfl⟩ := h1
  obtain ⟨e2, rfl⟩ := h2
  exact ⟨e1 ++ e2, by simp⟩

theorem SendOnly.extends {a b : List Event} (h : SendOnly a b) : Extends a b := by
  obtain ⟨evs, rfl, _⟩ := h
  exact ⟨evs, rfl⟩

theorem RepliedTempfail.here (env : Env) (tr : List Event) :
    RepliedTempfail tr (SMFI_SETREPLY_TEMPFAIL env tr) :=
  ⟨[Event.smfi tempfailReply (env.smfi tr tempfailReply)], rfl, rfl⟩

theorem RepliedTempfail.of_extends {a b c : List Event} (h1 : Extends a b)
    (h2 : RepliedTempfail b c) : RepliedTempfail a c := by
  obtain ⟨e1, rfl⟩ := h1
  obtain ⟨e2, rfl, h⟩ := h2
  refine ⟨e1 ++ e2, by simp, ?_⟩
  rw [milterCalls_append]
  have hne : milterCalls e2 ≠ [] := by
    intro h0
    rw [h0] at h
    cases h
  rw [List.getLast?_append_of_ne_nil _ hne]
  exact h

theorem RepliedTempfail.after (env : Env) (tr : List Event) (e : Event) :
    RepliedTempfail tr (SMFI_SETREPLY_TEMPFAIL env (tr ++ [e])) :=
  RepliedTempfail.of_extends (Extends.snoc tr e) (RepliedTempfail.here env _)

theorem RepliedTempfail.close {a b : List Event} (h : RepliedTempfail a b) :
    RepliedTempfail a (b ++ [Event.amavisd_close]) := by
  obtain ⟨e, rfl, h⟩ := h
  refine ⟨e ++ [Event.amavisd_close], by simp, ?_⟩
  rw [milterCalls_append]
  have : milterCalls [Event.amavisd_close] = [] := rfl
  rw [this, List.append_nil]
  exact h

theorem RepliedTempfail.of_requestFailed {env : Env} {tr e : List Event}
    (h : RequestFailed env tr e) : RepliedTempfail tr e := by
  obtain ⟨t2, n, v, hs, rfl⟩ := h
  refine RepliedTempfail.of_extends hs.extends ⟨_, rfl, ?_⟩
  rfl

theorem MLFI_STRDUP_ok {env : Env} {dst str v : Option CStr} {tr t : List Event}
    (h : MLFI_STRDUP env dst str tr = Except.ok (v, t)) : Extends tr t := by
  unfold MLFI_STRDUP at h
  split at h
  · cases h; exact Extends.same _
  · cases h; exact Extends.same _
  · split at h
    · cases h; exact Extends.snoc _ _
    · cases h

theorem MLFI_STRDUP_error {env : Env} {dst str : Option CStr} {tr t : List Event}
    (h : MLFI_STRDUP env dst str tr = Except.error t) : RepliedTempfail tr t := by
  unfold MLFI_STRDUP at h
  split at h
  · cases h
  · cases h
  · split at h
    · cases h
    · cases h; exact RepliedTempfail.after env _ _

theorem mlfi_cleanup_message_extends (env : Env) (c : mlfiCtx) (tr : List Event) :
    Extends tr (mlfi_cleanup_message env c tr).2 := by
  obtain ⟨ok1, ok2, ok3, h⟩ := mlfi_cleanup_message_trace env c tr
  exact ⟨_, by rw [h, List.append_assoc, List.append_assoc]⟩

theorem mlfi_connect_tempfail (env : Env) (hostname hostaddr : Option CStr) (s : State) :
    (mlfi_connect env hostname hostaddr s).1 = SMFIS_TEMPFAIL →
    RepliedTempfail s.trace (mlfi_connect env hostname hostaddr s).2.trace := by
  unfold mlfi_connect
  simp only
  split
  · intro _
    exact RepliedTempfail.after env _ _
  · split
    · intro _
      exact RepliedTempfail.of_extends (Extends.snoc _ _) (RepliedTempfail.after env _ _)
    · have e0 : Extends s.trace (s.trace ++ [Event.amavisd_init (env.amavisd_init s.trace)]
          ++ [Event.alloc (env.alloc (s.trace ++
            [Event.amavisd_init (env.amavisd_init s.trace)]))]) :=
        (Extends.snoc _ _).chain (Extends.snoc _ _)
      split
      · rename_i t1 h1
        intro _
        exact RepliedTempfail.of_extends e0 (MLFI_STRDUP_error h1)
      · rename_i hv t1 h1
        have e1 := e0.chain (MLFI_STRDUP_ok h1)
        split
        · rename_i t2 h2
          intro _
          exact RepliedTempfail.of_extends e1 (MLFI_STRDUP_error h2)
        · rename_i av t2 h2
          have e2 := e1.chain (MLFI_STRDUP_ok h2)
          split
          · intro _
            exact RepliedTempfail.of_extends e2 (RepliedTempfail.after env _ _)
          · intro h
            cases h

theorem mlfi_helo_tempfail (env : Env) (helohost : Option CStr) (s : State) :
    (mlfi_helo env helohost s).1 = SMFIS_TEMPFAIL →
    RepliedTempfail s.trace (mlfi_helo env helohost s).2.trace := by
  unfold mlfi_helo
  split
  · intro _
    exact RepliedTempfail.here env _
  · split
    · intro h; cases h
    · intro h; cases h
    · split
      · rename_i t1 h1
        intro _
        exact MLFI_STRDUP_error h1
      · intro h; cases h

theorem mlfi_envrcpt_tempfail (env : Env) (rcpt : CStr) (s : State) :
    (mlfi_envrcpt env rcpt s).1 = SMFIS_TEMPFAIL →
    RepliedTempfail s.trace (mlfi_envrcpt env rcpt s).2.trace := by
  unfold mlfi_envrcpt
  split
  · intro _
    exact RepliedTempfail.here env _
  · simp only
    split
    · intro _
      exact RepliedTempfail.after env _ _
    · intro h; cases h

theorem mlfi_header_tempfail (env : Env) (f v : CStr) (s : State) (r : Sfsistat × State) :
    mlfi_header env f v s = some r → r.1 = SMFIS_TEMPFAIL →
    RepliedTempfail s.trace r.2.trace := by
  unfold mlfi_header
  split
  · intro h _
    cases h
    exact RepliedTempfail.here env _
  · split
    · intro h; cases h
    · simp only
      split
      · intro h _
        cases h
        exact RepliedTempfail.after env _ _
      · intro h h2
        cases h
        cases h2

theorem mlfi_eoh_tempfail (env : Env) (s : State) (r : Sfsistat × State) :
    mlfi_eoh env s = some r → r.1 = SMFIS_TEMPFAIL →
    RepliedTempfail s.trace r.2.trace := by
  unfold mlfi_eoh
  split
  · intro h _
    cases h
    exact RepliedTempfail.here env _
  · split
    · intro h; cases h
    · simp only
      split
      · intro h _
        cases h
        exact RepliedTempfail.after env _ _
      · intro h h2
        cases h
        cases h2

theorem mlfi_body_tempfail (env : Env) (chunk : List Char) (s : State) (r : Sfsistat × State) :
    mlfi_body env chunk s = some r → r.1 = SMFIS_TEMPFAIL →
    RepliedTempfail s.trace r.2.trace := by
  unfold mlfi_body
  split
  · intro h _
    cases h
    exact RepliedTempfail.here env _
  · split
    · intro h; cases h
    · simp only
      split
      · intro h _
        cases h
        exact RepliedTempfail.after env _ _
      · intro h h2
        cases h
        cases h2

theorem envfrom_mkdir_extends (env : Env) (mlfi : mlfiCtx) (tr : List Event) :
    Extends tr (envfrom_mkdir env mlfi tr).2 := by
  unfold envfrom_mkdir
  split
  · exact Extends.snoc _ _
  · exact Extends.same _

theorem envfrom_wrkdir_ok {env : Env} {mlfi m : mlfiCtx} {tr t : List Event}
    (h : envfrom_wrkdir env mlfi tr = Except.ok (m, t)) : Extends tr t := by
  have h0 := envfrom_mkdir_extends env mlfi tr
  unfold envfrom_wrkdir at h
  simp only at h
  generalize envfrom_mkdir env mlfi tr = r at h0 h
  split at h
  · split at h
    · split at h
      · cases h
      · cases h
        exact h0.chain ((Extends.snoc _ _).chain (Extends.snoc _ _))
    · cases h
  · cases h
    exact h0

theorem envfrom_wrkdir_error {env : Env} {mlfi m : mlfiCtx} {tr t : List Event}
    (h : envfrom_wrkdir env mlfi tr = Except.error (m, t)) : RepliedTempfail tr t := by
  have h0 := envfrom_mkdir_extends env mlfi tr
  unfold envfrom_wrkdir at h
  simp only at h
  generalize envfrom_mkdir env mlfi tr = r at h0 h
  split at h
  · split at h
    · split at h
      · cases h
        exact RepliedTempfail.of_extends (h0.chain (Extends.snoc _ _))
          (RepliedTempfail.after env _ _)
      · cases h
    · cases h
      exact RepliedTempfail.of_extends h0 (RepliedTempfail.after env _ _)
  · cases h

theorem envfrom_open_tempfail (env : Env) (mlfi : mlfiCtx) (tr : List Event) :
    (envfrom_open env mlfi tr).1 = SMFIS_TEMPFAIL →
    RepliedTempfail tr (envfrom_open env mlfi tr).2.trace := by
  unfold envfrom_open
  simp only
  split
  · intro _
    exact RepliedTempfail.after env _ _
  · split
    · intro _
      exact RepliedTempfail.of_extends (Extends.snoc _ _) (RepliedTempfail.after env _ _)
    · intro h; cases h

theorem mlfi_envfrom_tempfail (env : Env) (sender : Option CStr) (s : State) :
    (mlfi_envfrom env sender s).1 = SMFIS_TEMPFAIL →
    RepliedTempfail s.trace (mlfi_envfrom env sender s).2.trace := by
  unfold mlfi_envfrom
  split
  · intro _
    exact RepliedTempfail.here env _
  · rename_i c hc
    simp only
    have e0 : Extends s.trace ((mlfi_cleanup_message env c s.trace).2 ++
        [Event.smfi_getsymval (env.smfi_getsymval (mlfi_cleanup_message env c s.trace).2)]) :=
      (mlfi_cleanup_message_extends env c s.trace).chain (Extends.snoc _ _)
    split
    · rename_i t1 h1
      intro _
      exact RepliedTempfail.of_extends e0 (MLFI_STRDUP_error h1)
    · rename_i q t1 h1
      have e1 := e0.chain (MLFI_STRDUP_ok h1)
      split
      · rename_i t2 h2
        intro _
        exact RepliedTempfail.of_extends e1 (MLFI_STRDUP_error h2)
      · rename_i f t2 h2
        have e2 := e1.chain (MLFI_STRDUP_ok h2)
        split
        · rename_i m t3 h3
          intro _
          exact RepliedTempfail.of_extends e2 (envfrom_wrkdir_error h3)
        · rename_i m t3 h3
          have e3 := e2.chain (envfrom_wrkdir_ok h3)
          intro h
          exact RepliedTempfail.of_extends e3 (envfrom_open_tempfail env m t3 h)

theorem eom_fail_replied (env : Env) (tr t : List Event) (h : Extends tr t) :
    RepliedTempfail tr (eom_fail env t).2 :=
  RepliedTempfail.of_extends h (RepliedTempfail.here env t).close

/-- The response loop ends either at a blank line, or with `SMFIS_TEMPFAIL`
and the temporary-failure reply as its last mutation-API call. -/
theorem eom_response_outcome (env : Env) (lines : List CStr) :
    ∀ r t, (∃ t1, (eom_response env lines r t).2
        = t1 ++ [Event.amavisd_response (some []), Event.amavisd_close]) ∨
      ((eom_response env lines r t).1 = SMFIS_TEMPFAIL ∧
        RepliedTempfail t (eom_response env lines r t).2) := by
  induction lines with
  | nil =>
    intro r t
    exact Or.inr ⟨rfl, eom_fail_replied env t _ (Extends.snoc _ _)⟩
  | cons l ls ih =>
    intro r t
    simp only [eom_response]
    by_cases hl : l = []
    · exact Or.inl ⟨t, by simp [hl]⟩
    · simp only [hl, if_false]
      cases ha : amavisd_line l with
      | none => exact Or.inr ⟨rfl, eom_fail_replied env t _ (Extends.snoc _ _)⟩
      | some a =>
        cases a with
        | call c =>
          simp only
          split
          · exact Or.inr ⟨rfl, eom_fail_replied env t _
              ((Extends.snoc _ _).chain (Extends.snoc _ _))⟩
          · rcases ih r (t ++ [Event.amavisd_response (some l)] ++
              [Event.smfi c (env.smfi (t ++ [Event.amavisd_response (some l)]) c)]) with h | h
            · exact Or.inl h
            · exact Or.inr ⟨h.1, RepliedTempfail.of_extends
                ((Extends.snoc _ _).chain (Extends.snoc _ _)) h.2⟩
        | verdict v =>
          rcases ih v (t ++ [Event.amavisd_response (some l)]) with h | h
          · exact Or.inl h
          · exact Or.inr ⟨h.1, RepliedTempfail.of_extends (Extends.snoc _ _) h.2⟩
        | skip =>
          rcases ih r (t ++ [Event.amavisd_response (some l)]) with h | h
          · exact Or.inl h
          · exact Or.inr ⟨h.1, RepliedTempfail.of_extends (Extends.snoc _ _) h.2⟩

theorem eom_open_error_replied {env : Env} {mlfi : mlfiCtx} {tr e : List Event}
    (h : eom_open env tr mlfi = Except.error e) : RepliedTempfail tr e := by
  unfold eom_open at h
  simp only at h
  split at h
  · cases h
    exact RepliedTempfail.after env _ _
  · split at h
    · cases h
      exact RepliedTempfail.of_extends (Extends.snoc _ _) (RepliedTempfail.after env _ _)
    · exact RepliedTempfail.of_extends ((Extends.snoc _ _).chain (Extends.snoc _ _))
        (RepliedTempfail.of_requestFailed (eom_request_error h))

/-- The ways `mlfi_eom` ends: at a blank line of the response, or with
`SMFIS_TEMPFAIL` and the temporary-failure reply as its last mutation-API
call. -/
theorem mlfi_eom_outcome (env : Env) (s : State) :
    (∃ t1, (mlfi_eom env s).2.trace
        = t1 ++ [Event.amavisd_response (some []), Event.amavisd_close]) ∨
      ((mlfi_eom env s).1 = SMFIS_TEMPFAIL ∧
        RepliedTempfail s.trace (mlfi_eom env s).2.trace) := by
  unfold mlfi_eom
  split
  · exact Or.inr ⟨rfl, RepliedTempfail.here env _⟩
  · split
    · exact Or.inr ⟨rfl, RepliedTempfail.here env _⟩
    · simp only
      split
      · rename_i e he
        exact Or.inr ⟨rfl, eom_open_error_replied he⟩
      · rename_i t0 h0
        rcases eom_response_outcome env env.response SMFIS_TEMPFAIL t0 with h | h
        · exact Or.inl h
        · exact Or.inr ⟨h.1, RepliedTempfail.of_extends (eom_open_sendOnly h0).extends h.2⟩

/-- C17, as stated, fails: for the response `return_value=tempfail`, blank
line, and for the response that is only the blank line, `mlfi_eom` returns
`SMFIS_TEMPFAIL` without any mutation-API call, so without `smfi_setreply`. -/
theorem C17_eom_clean_tempfail_sets_no_reply :
    (mlfi_eom (Env.good none ["return_value=tempfail".toList, []])
        { priv := some (ctxOpen []), trace := [] }).1 = SMFIS_TEMPFAIL ∧
    milterCalls (mlfi_eom (Env.good none ["return_value=tempfail".toList, []])
        { priv := some (ctxOpen []), trace := [] }).2.trace = [] ∧
    (mlfi_eom (Env.good none [[]]) { priv := some (ctxOpen []), trace := [] }).1
      = SMFIS_TEMPFAIL ∧
    milterCalls (mlfi_eom (Env.good none [[]])
        { priv := some (ctxOpen []), trace := [] }).2.trace = [] := by
  refine ⟨?_, ?_, ?_, ?_⟩ <;> rfl

/-- C17, amended: whenever `mlfi_connect`, `mlfi_helo`, `mlfi_envfrom`,
`mlfi_envrcpt`, `mlfi_header`, `mlfi_eoh` or `mlfi_body` returns
`SMFIS_TEMPFAIL`, the last mutation-API call it made is `smfi_setreply` with
`451`, `4.6.0`, `Content scanner malfunction`; the same holds for `mlfi_eom`
except when the response was read to its blank line; then, with the request
sent and the lines `pre` before the blank line, the value is the pending
verdict and the only mutation-API calls are those of the lines of `pre`. -/
theorem C17_tempfail_reply (env : Env) (s : State) (hostname hostaddr helohost sender : Option CStr)
    (rcpt headerf headerv : CStr) (chunk : List Char) :
    ((mlfi_connect env hostname hostaddr s).1 = SMFIS_TEMPFAIL →
      RepliedTempfail s.trace (mlfi_connect env hostname hostaddr s).2.trace) ∧
    ((mlfi_helo env helohost s).1 = SMFIS_TEMPFAIL →
      RepliedTempfail s.trace (mlfi_helo env helohost s).2.trace) ∧
    ((mlfi_envfrom env sender s).1 = SMFIS_TEMPFAIL →
      RepliedTempfail s.trace (mlfi_envfrom env sender s).2.trace) ∧
    ((mlfi_envrcpt env rcpt s).1 = SMFIS_TEMPFAIL →
      RepliedTempfail s.trace (mlfi_envrcpt env rcpt s).2.trace) ∧
    (∀ r, mlfi_header env headerf headerv s = some r → r.1 = SMFIS_TEMPFAIL →
      RepliedTempfail s.trace r.2.trace) ∧
    (∀ r, mlfi_eoh env s = some r → r.1 = SMFIS_TEMPFAIL →
      RepliedTempfail s.trace r.2.trace) ∧
    (∀ r, mlfi_body env chunk s = some r → r.1 = SMFIS_TEMPFAIL →
      RepliedTempfail s.trace r.2.trace) ∧
    ((mlfi_eom env s).1 = SMFIS_TEMPFAIL →
      RepliedTempfail s.trace (mlfi_eom env s).2.trace ∨
      ∃ t1, (mlfi_eom env s).2.trace
        = t1 ++ [Event.amavisd_response (some []), Event.amavisd_close]) ∧
    (∀ c fp t0 pre post r t, s.priv = some c → c.mlfi_fp = some fp →
      eom_open env s.trace { c with mlfi_fp := none } = Except.ok t0 →
      env.response = pre ++ [] :: post →
      eom_lines env pre SMFIS_TEMPFAIL t0 = some (r, t) →
      (mlfi_eom env s).1 = r ∧
      (mlfi_eom env s).2.trace
        = t ++ [Event.amavisd_response (some []), Event.amavisd_close] ∧
      milterCalls (mlfi_eom env s).2.trace = milterCalls s.trace ++ pre.filterMap lineCall) := by
  refine ⟨mlfi_connect_tempfail env hostname hostaddr s, mlfi_helo_tempfail env helohost s,
    mlfi_envfrom_tempfail env sender s, mlfi_envrcpt_tempfail env rcpt s,
    mlfi_header_tempfail env headerf headerv s, mlfi_eoh_tempfail env s,
    mlfi_body_tempfail env chunk s, ?_, ?_⟩
  · intro _
    rcases mlfi_eom_outcome env s with h | h
    · exact Or.inr h
    · exact Or.inl h.2
  · intro c fp t0 pre post r t hs hfp hopen hresp hlines
    obtain ⟨priv, tr⟩ := s
    simp only at hs hopen ⊢
    subst hs
    have hrun : eom_response env env.response SMFIS_TEMPFAIL t0
        = (r, t ++ [Event.amavisd_response (some []), Event.amavisd_close]) := by
      rw [hresp, eom_response_of_lines env pre _ _ _ _ _ hlines, eom_response_blank]
    obtain ⟨_, _, evs, ht, hcalls, _, _, _, _⟩ := eom_lines_some env pre _ _ _ _ hlines
    have hsend := (eom_open_sendOnly hopen).projections.1
    rw [mlfi_eom_of_open env c fp tr t0 hfp hopen, hrun]
    refine ⟨rfl, rfl, ?_⟩
    simp only [ht, milterCalls_append, hsend, hcalls]
    simp [milterCalls]

/-- C17 at a response the engine ends before any line (the first read fails):
`mlfi_eom` returns `SMFIS_TEMPFAIL` and its last mutation-API call is the
temporary-failure reply. -/
theorem C17_tempfail_reply_witness :
    RepliedTempfail [] (mlfi_eom (Env.good none []) { priv := some (ctxOpen []), trace := [] }).2.trace ∨
      ∃ t1, (mlfi_eom (Env.good none []) { priv := some (ctxOpen []), trace := [] }).2.trace
        = t1 ++ [Event.amavisd_response (some []), Event.amavisd_close] :=
  (C17_tempfail_reply (Env.good none []) { priv := some (ctxOpen []), trace := [] }
    none none none none [] [] [] []).2.2.2.2.2.2.2.1 rfl

/-- The response loop at a step that fails: the value is `SMFIS_TEMPFAIL` and
the mutation-API calls made from there on are the failed call of the line, if
that is what failed, and the temporary-failure reply. -/
theorem eom_response_failsNext (env : Env) (rest : List CStr) (r : Sfsistat) (t : List Event)
    (h : FailsNext env t rest) :
    (eom_response env rest r t).1 = SMFIS_TEMPFAIL ∧
    ∃ evs mid, (eom_response env rest r t).2 = t ++ evs ∧
      milterCalls evs = mid ++ [tempfailReply] := by
  rcases h with rfl | ⟨l, ls, rfl, hne, hbad | ⟨call, hcall, hfail⟩⟩
  · refine ⟨rfl, [Event.amavisd_response none,
      Event.smfi tempfailReply (env.smfi (t ++ [Event.amavisd_response none]) tempfailReply),
      Event.amavisd_close], [], ?_, ?_⟩
    · simp [eom_response, eom_fail, SMFI_SETREPLY_TEMPFAIL, SMFI_SETREPLY, tempfailReply]
    · rfl
  · refine ⟨?_, [Event.amavisd_response (some l),
      Event.smfi tempfailReply (env.smfi (t ++ [Event.amavisd_response (some l)]) tempfailReply),
      Event.amavisd_close], [], ?_, ?_⟩
    · simp only [eom_response, hne, if_false, hbad, eom_fail]
    · simp [eom_response, hne, hbad, eom_fail, SMFI_SETREPLY_TEMPFAIL, SMFI_SETREPLY,
        tempfailReply]
    · rfl
  · refine ⟨?_, [Event.amavisd_response (some l), Event.smfi call false,
      Event.smfi tempfailReply
        (env.smfi (t ++ [Event.amavisd_response (some l), Event.smfi call false]) tempfailReply),
      Event.amavisd_close], [call], ?_, ?_⟩
    · simp only [eom_response, hne, if_false, hcall, hfail, Bool.not_false, if_true, eom_fail]
    · simp [eom_response, hne, hcall, hfail, eom_fail, SMFI_SETREPLY_TEMPFAIL, SMFI_SETREPLY,
        tempfailReply]
    · rfl

/-- C18, as stated, fails: for the response `setreply=550 5.7.1 Spam`,
`addheadervalue` the mutation-API calls of `mlfi_eom` are the reply of the
engine and then the temporary-failure reply, which is the last reply the
transport received. -/
theorem C18_eom_default_reply_overrides_engine :
    (mlfi_eom (Env.good none ["setreply=550 5.7.1 Spam".toList, "addheadervalue".toList])
        { priv := some (ctxOpen []), trace := [] }).1 = SMFIS_TEMPFAIL ∧
    milterCalls (mlfi_eom
        (Env.good none ["setreply=550 5.7.1 Spam".toList, "addheadervalue".toList])
        { priv := some (ctxOpen []), trace := [] }).2.trace
      = [MilterCall.smfi_setreply "550".toList "5.7.1".toList "Spam".toList,
         MilterCall.smfi_setreply "451".toList "4.6.0".toList
           "Content scanner malfunction".toList] := by
  refine ⟨?_, ?_⟩ <;> rfl

/-- C18, amended: when the request was sent, the lines `pre` of the response
did not end the loop and one of them made the call `smfi_setreply` of `rcode`,
`xcode`, `text`, and the loop then fails at its next step (a read failure, a
line given up on, or a failed mutation-API call), `mlfi_eom` returns
`SMFIS_TEMPFAIL` and its mutation-API calls end with the temporary-failure
reply `451`, `4.6.0`, `Content scanner malfunction`, made after the reply of
the engine: the last reply the transport received is the default one. -/
theorem C18_eom_failure_sets_default_reply (env : Env) (c : mlfiCtx) (fp : FILE)
    (tr t0 : List Event) (pre rest : List CStr) (rc xc v : CStr) (r : Sfsistat) (t : List Event)
    (hfp : c.mlfi_fp = some fp)
    (hopen : eom_open env tr { c with mlfi_fp := none } = Except.ok t0)
    (hresp : env.response = pre ++ rest)
    (hlines : eom_lines env pre SMFIS_TEMPFAIL t0 = some (r, t))
    (hset : MilterCall.smfi_setreply rc xc v ∈ pre.filterMap lineCall)
    (hfail : FailsNext env t rest) :
    (mlfi_eom env { priv := some c, trace := tr }).1 = SMFIS_TEMPFAIL ∧
    (milterCalls (mlfi_eom env { priv := some c, trace := tr }).2.trace).getLast?
      = some tempfailReply ∧
    ∃ before after, milterCalls (mlfi_eom env { priv := some c, trace := tr }).2.trace
      = before ++ MilterCall.smfi_setreply rc xc v :: after ++ [tempfailReply] := by
  obtain ⟨h1, evs, mid, h2, h3⟩ := eom_response_failsNext env rest r t hfail
  obtain ⟨_, _, evs0, ht, hcalls, _, _, _, _⟩ := eom_lines_some env pre _ _ _ _ hlines
  have hsend := (eom_open_sendOnly hopen).projections.1
  obtain ⟨a, b, hab⟩ := List.append_of_mem hset
  have hrun : eom_response env env.response SMFIS_TEMPFAIL t0 = eom_response env rest r t := by
    rw [hresp, eom_response_of_lines env pre _ _ _ _ _ hlines]
  have hcallsAll : milterCalls (mlfi_eom env { priv := some c, trace := tr }).2.trace
      = milterCalls tr ++ a ++ MilterCall.smfi_setreply rc xc v :: (b ++ mid) ++ [tempfailReply] := by
    rw [mlfi_eom_of_open env c fp tr t0 hfp hopen, hrun]
    show milterCalls (eom_response env rest r t).2 = _
    rw [h2, ht, milterCalls_append, milterCalls_append, hsend, hcalls, h3, hab]
    simp
  refine ⟨?_, ?_, milterCalls tr ++ a, b ++ mid, hcallsAll⟩
  · rw [mlfi_eom_of_open env c fp tr t0 hfp hopen, hrun]
    exact h1
  · rw [hcallsAll, List.getLast?_append_of_ne_nil _ (by simp)]
    rfl

/-- C18 at the response `setreply=550 5.7.1 Spam`, `return_value=reject`
after which the read fails: the value is `SMFIS_TEMPFAIL` and the last
mutation-API call is the temporary-failure reply. -/
theorem C18_eom_failure_sets_default_reply_witness :
    (mlfi_eom (Env.good none ["setreply=550 5.7.1 Spam".toList, "return_value=reject".toList])
        { priv := some (ctxOpen []), trace := [] }).1 = SMFIS_TEMPFAIL ∧
    (milterCalls (mlfi_eom
        (Env.good none ["setreply=550 5.7.1 Spam".toList, "return_value=reject".toList])
        { priv := some (ctxOpen []), trace := [] }).2.trace).getLast? = some tempfailReply :=
  have h := C18_eom_failure_sets_default_reply
    (Env.good none ["setreply=550 5.7.1 Spam".toList, "return_value=reject".toList])
    (ctxOpen []) { data := [], error := false } []
    (match eom_open (Env.good none []) [] { ctxOpen [] with mlfi_fp := none } with
      | Except.ok t => t
      | Except.error t => t)
    ["setreply=550 5.7.1 Spam".toList, "return_value=reject".toList] []
    "550".toList "5.7.1".toList "Spam".toList SMFIS_REJECT
    (match eom_lines (Env.good none [])
        ["setreply=550 5.7.1 Spam".toList, "return_value=reject".toList] SMFIS_TEMPFAIL
        (match eom_open (Env.good none []) [] { ctxOpen [] with mlfi_fp := none } with
          | Except.ok t => t
          | Except.error t => t) with
      | some p => p.2
      | none => [])
    rfl (by rfl) rfl (by rfl) (by decide) (Or.inl rfl)
  ⟨h.1, h.2.1⟩

/-! ## Sender and recipients of a message -/

theorem SameEnvelope.self (m : mlfiCtx) : SameEnvelope m m := ⟨rfl, rfl, rfl, rfl, rfl, rfl⟩

theorem SameEnvelope.comp {a b c : mlfiCtx} (h1 : SameEnvelope a b) (h2 : SameEnvelope b c) :
    SameEnvelope a c := by
  unfold SameEnvelope at h1 h2 ⊢
  rw [h2.1, h2.2.1, h2.2.2.1, h2.2.2.2.1, h2.2.2.2.2.1, h2.2.2.2.2.2]
  exact h1

theorem MLFI_STRDUP_value {env : Env} {str v : Option CStr} {tr t : List Event}
    (h : MLFI_STRDUP env none str tr = Except.ok (v, t)) : v = nonEmpty str := by
  unfold MLFI_STRDUP at h
  split at h
  · cases h; rfl
  · cases h; rfl
  · split at h
    · cases h; rfl
    · cases h

theorem envfrom_mkdir_sameEnvelope (env : Env) (m : mlfiCtx) (tr : List Event) :
    SameEnvelope m (envfrom_mkdir env m tr).1 := by
  unfold envfrom_mkdir
  split
  · exact ⟨rfl, rfl, rfl, rfl, rfl, rfl⟩
  · exact SameEnvelope.self m

theorem envfrom_wrkdir_sameEnvelope {env : Env} {m m1 : mlfiCtx} {tr t : List Event}
    (h : envfrom_wrkdir env m tr = Except.ok (m1, t) ∨
      envfrom_wrkdir env m tr = Except.error (m1, t)) : SameEnvelope m m1 := by
  have h0 := envfrom_mkdir_sameEnvelope env m tr
  unfold envfrom_wrkdir at h
  simp only at h
  generalize envfrom_mkdir env m tr = r at h0 h
  rcases h with h | h
  · split at h
    · split at h
      · split at h
        · cases h
        · cases h
          exact h0.comp ⟨rfl, rfl, rfl, rfl, rfl, rfl⟩
      · cases h
    · cases h
      exact h0
  · split at h
    · split at h
      · split at h
        · cases h
          exact h0.comp ⟨rfl, rfl, rfl, rfl, rfl, rfl⟩
        · cases h
      · cases h
        exact h0.comp ⟨rfl, rfl, rfl, rfl, rfl, rfl⟩
    · cases h

theorem envfrom_open_sameEnvelope (env : Env) (m : mlfiCtx) (tr : List Event) :
    ∃ m1, (envfrom_open env m tr).2.priv = some m1 ∧ SameEnvelope m m1 := by
  unfold envfrom_open
  simp only
  split
  · exact ⟨_, rfl, rfl, rfl, rfl, rfl, rfl, rfl⟩
  · split
    · exact ⟨_, rfl, rfl, rfl, rfl, rfl, rfl, rfl⟩
    · exact ⟨_, rfl, rfl, rfl, rfl, rfl, rfl, rfl⟩

/-- The context `mlfi_envfrom` leaves: no recipient, the connection part as
before, and queue id and sender either `NULL` or those of this call; both are
those of this call when it returns `SMFIS_CONTINUE`. -/
theorem mlfi_envfrom_context (env : Env) (sender : Option CStr) (c : mlfiCtx) (tr : List Event) :
    ∃ c1, (mlfi_envfrom env sender { priv := some c, trace := tr }).2.priv = some c1 ∧
      c1.mlfi_rcpt = [] ∧
      c1.mlfi_addr = c.mlfi_addr ∧ c1.mlfi_hostname = c.mlfi_hostname ∧
      c1.mlfi_helo = c.mlfi_helo ∧
      (c1.mlfi_qid = none ∨
        c1.mlfi_qid = nonEmpty (env.smfi_getsymval (mlfi_cleanup_message env c tr).2)) ∧
      (c1.mlfi_from = none ∨ c1.mlfi_from = nonEmpty sender) ∧
      ((mlfi_envfrom env sender { priv := some c, trace := tr }).1 = SMFIS_CONTINUE →
        c1.mlfi_qid = nonEmpty (env.smfi_getsymval (mlfi_cleanup_message env c tr).2) ∧
        c1.mlfi_from = nonEmpty sender) := by
  unfold mlfi_envfrom
  simp only
  split
  · rename_i t1 h1
    exact ⟨_, rfl, rfl, rfl, rfl, rfl, Or.inl rfl, Or.inl rfl, fun h => by cases h⟩
  · rename_i q t1 h1
    have hq := MLFI_STRDUP_value h1
    split
    · rename_i t2 h2
      exact ⟨_, rfl, rfl, rfl, rfl, rfl, Or.inr hq, Or.inl rfl, fun h => by cases h⟩
    · rename_i f t2 h2
      have hf := MLFI_STRDUP_value h2
      split
      · rename_i m t3 h3
        obtain ⟨a1, a2, a3, a4, a5, a6⟩ := envfrom_wrkdir_sameEnvelope (Or.inr h3)
        exact ⟨m, rfl, a6, a1, a2, a3, Or.inr (a4.trans hq), Or.inr (a5.trans hf),
          fun h => by cases h⟩
      · rename_i m t3 h3
        obtain ⟨a1, a2, a3, a4, a5, a6⟩ := envfrom_wrkdir_sameEnvelope (Or.inl h3)
        obtain ⟨m1, hm1, b1, b2, b3, b4, b5, b6⟩ := envfrom_open_sameEnvelope env m t3
        exact ⟨m1, hm1, b6.trans a6, b1.trans a1, b2.trans a2, b3.trans a3,
          Or.inr ((b4.trans a4).trans hq), Or.inr ((b5.trans a5).trans hf),
          fun _ => ⟨(b4.trans a4).trans hq, (b5.trans a5).trans hf⟩⟩

/-- Recipients, each `mlfi_envrcpt` returning `SMFIS_CONTINUE`, are appended
to the list in the order of the calls; nothing else in the context changes. -/
theorem envrcpt_callbacks (env : Env) (rs : List CStr) :
    ∀ (c0 : mlfiCtx) (tr : List Event) (vs : List Sfsistat) (s2 : State),
      callbacks env (rs.map Callback.envrcpt) { priv := some c0, trace := tr } = some (vs, s2) →
      (∀ v ∈ vs, v = SMFIS_CONTINUE) →
      s2.priv = some { c0 with mlfi_rcpt := c0.mlfi_rcpt ++ rs } := by
  induction rs with
  | nil =>
    intro c0 tr vs s2 h _
    simp only [List.map_nil, callbacks, Option.some.injEq, Prod.mk.injEq] at h
    rw [← h.2]
    simp
  | cons x xs ih =>
    intro c0 tr vs s2 h hv
    simp only [List.map_cons, callbacks, callback] at h
    cases h1 : callbacks env (List.map Callback.envrcpt xs)
        (mlfi_envrcpt env x { priv := some c0, trace := tr }).2 with
    | none => simp [h1] at h
    | some r1 =>
      obtain ⟨vs1, s3⟩ := r1
      simp only [h1, Option.some.injEq, Prod.mk.injEq] at h
      obtain ⟨rfl, rfl⟩ := h
      have hv0 : (mlfi_envrcpt env x { priv := some c0, trace := tr }).1 = SMFIS_CONTINUE :=
        hv _ (List.mem_cons_self _ _)
      have hstep : (mlfi_envrcpt env x { priv := some c0, trace := tr }).2
          = { priv := some { c0 with mlfi_rcpt := c0.mlfi_rcpt ++ [x] },
              trace := tr ++ [Event.alloc (env.alloc tr)] } := by
        unfold mlfi_envrcpt at hv0 ⊢
        simp only at hv0 ⊢
        split
        · rename_i hf
          simp only [hf, if_true] at hv0
          cases hv0
        · rfl
      rw [hstep] at h1
      have := ih _ _ vs1 s3 h1 (fun w hw => hv w (List.mem_cons_of_mem _ hw))
      rw [this]
      simp

/-- When no allocation fails, every `mlfi_envrcpt` on a context returns
`SMFIS_CONTINUE`. -/
theorem envrcpt_callbacks_run (env : Env) (halloc : ∀ t, env.alloc t = true) (rs : List CStr) :
    ∀ (c0 : mlfiCtx) (tr : List Event),
      ∃ s2, callbacks env (rs.map Callback.envrcpt) { priv := some c0, trace := tr }
        = some (List.replicate rs.length SMFIS_CONTINUE, s2) := by
  induction rs with
  | nil => intro c0 tr; exact ⟨_, rfl⟩
  | cons x xs ih =>
    intro c0 tr
    obtain ⟨s2, h⟩ := ih { c0 with mlfi_rcpt := c0.mlfi_rcpt ++ [x] }
      (tr ++ [Event.alloc true])
    refine ⟨s2, ?_⟩
    have hstep : mlfi_envrcpt env x { priv := some c0, trace := tr }
        = (SMFIS_CONTINUE,
            State.mk (some { c0 with mlfi_rcpt := c0.mlfi_rcpt ++ [x] })
              (tr ++ [Event.alloc true])) := by
      simp [mlfi_envrcpt, halloc]
    simp only [List.map_cons, callbacks, callback, hstep, h, List.length_cons,
      List.replicate_succ]

/-- C20: whatever context an earlier message left (ended, aborted or
unfinished), after `mlfi_envfrom` the recipient list is empty and queue id and
sender are `NULL` or those of this call (those of this call when it returns
`SMFIS_CONTINUE`), the connection part unchanged; `mlfi_envrcpt` calls for
`r1 ... rn` that all return `SMFIS_CONTINUE` then leave the recipient list
`[r1, ..., rn]`, in this order and with duplicates, and nothing else changed;
they all return `SMFIS_CONTINUE` when no allocation fails. -/
theorem C20_envelope_of_next_message (env : Env) (c : mlfiCtx) (tr : List Event)
    (sender : Option CStr) (rs : List CStr) :
    (∃ c1, (mlfi_envfrom env sender { priv := some c, trace := tr }).2.priv = some c1 ∧
      c1.mlfi_rcpt = [] ∧
      c1.mlfi_addr = c.mlfi_addr ∧ c1.mlfi_hostname = c.mlfi_hostname ∧
      c1.mlfi_helo = c.mlfi_helo ∧
      (c1.mlfi_qid = none ∨
        c1.mlfi_qid = nonEmpty (env.smfi_getsymval (mlfi_cleanup_message env c tr).2)) ∧
      (c1.mlfi_from = none ∨ c1.mlfi_from = nonEmpty sender) ∧
      ((mlfi_envfrom env sender { priv := some c, trace := tr }).1 = SMFIS_CONTINUE →
        c1.mlfi_qid = nonEmpty (env.smfi_getsymval (mlfi_cleanup_message env c tr).2) ∧
        c1.mlfi_from = nonEmpty sender) ∧
      ∀ vs s2, callbacks env (rs.map Callback.envrcpt)
          (mlfi_envfrom env sender { priv := some c, trace := tr }).2 = some (vs, s2) →
        (∀ v ∈ vs, v = SMFIS_CONTINUE) →
        s2.priv = some { c1 with mlfi_rcpt := rs }) ∧
    ((∀ t, env.alloc t = true) →
      ∃ s2, callbacks env (rs.map Callback.envrcpt)
          (mlfi_envfrom env sender { priv := some c, trace := tr }).2
        = some (List.replicate rs.length SMFIS_CONTINUE, s2)) := by
  obtain ⟨c1, h1, h2, h3, h4, h5, h6, h7, h8⟩ := mlfi_envfrom_context env sender c tr
  have hs : (mlfi_envfrom env sender { priv := some c, trace := tr }).2
      = { priv := some c1,
          trace := (mlfi_envfrom env sender { priv := some c, trace := tr }).2.trace } := by
    rw [← h1]
  refine ⟨⟨c1, h1, h2, h3, h4, h5, h6, h7, h8, ?_⟩, ?_⟩
  · intro vs s2 hrun hv
    rw [hs] at hrun
    have := envrcpt_callbacks env rs c1 _ vs s2 hrun hv
    rw [this, h2, List.nil_append]
  · intro halloc
    rw [hs]
    exact envrcpt_callbacks_run env halloc rs c1 _

/-- C20 on a context that still holds the envelope of an earlier message
(sender `a@x`, recipients `b@y`, `c@z`, left unfinished): after the next
sender `d@w` and the recipients `e@v`, `e@v` the context holds sender `d@w`
and exactly the recipients `e@v`, `e@v`. -/
theorem C20_envelope_of_next_message_witness :
    (∃ s2, callbacks (Env.good (some "Q2".toList) []) (["e@v".toList, "e@v".toList].map Callback.envrcpt)
        (mlfi_envfrom (Env.good (some "Q2".toList) []) (some "d@w".toList)
          { priv := some (ctxOpen []), trace := [] }).2
      = some (List.replicate ["e@v".toList, "e@v".toList].length SMFIS_CONTINUE, s2)) ∧
    (callbacks (Env.good (some "Q2".toList) [])
        (Callback.envfrom (some "d@w".toList) ::
          ["e@v".toList, "e@v".toList].map Callback.envrcpt)
        { priv := some (ctxOpen []), trace := [] }).map
      (fun r => r.2.priv.map (fun m => (m.mlfi_qid, m.mlfi_from, m.mlfi_rcpt)))
      = some (some (some "Q2".toList, some "d@w".toList, ["e@v".toList, "e@v".toList])) :=
  ⟨(C20_envelope_of_next_message (Env.good (some "Q2".toList) []) (ctxOpen []) []
      (some "d@w".toList) ["e@v".toList, "e@v".toList]).2 (fun _ => rfl), rfl⟩

/-! ## The request of a connection without a client address -/

/-- C21 fails on the code for the client address: after a connect with
hostname `mx.example` and no address (`hostaddr` is `NULL`), a sender with no
queue id, one recipient, end of headers and end of message, every external
call succeeding, the context holds no address, no queue id and no greeting
name, and `mlfi_eom` sends no `queue_id` and no `helo_name` line, yet it does
call `amavisd_request` for `client_address`, with the value `NULL`.  On a
connect with the address `192.0.2.1` the same call carries the address. -/
theorem C21_client_address_sent_without_address :
    (callbacks (Env.good none ["return_value=accept".toList, []])
      [Callback.connect (some "mx.example".toList) none,
       Callback.envfrom (some "a@x".toList), Callback.envrcpt "b@y".toList,
       Callback.eoh, Callback.eom]
      { priv := none, trace := [] }).map
      (fun r => (r.1, r.2.priv.map (fun c => (c.mlfi_addr, c.mlfi_qid, c.mlfi_helo)),
        requestLines r.2.trace))
    = some ([SMFIS_CONTINUE, SMFIS_CONTINUE, SMFIS_CONTINUE, SMFIS_CONTINUE, SMFIS_ACCEPT],
        some (none, none, none),
        [(some "request".toList, some "AM.PDP".toList),
         (some "sender".toList, some "a@x".toList),
         (some "recipient".toList, some "b@y".toList),
         (some "tempdir".toList, some "/var/amavis/af0000000000".toList),
         (some "tempdir_removed_by".toList, some "server".toList),
         (some "mail_file".toList, some "/var/amavis/af0000000000/email.txt".toList),
         (some "delivery_care_of".toList, some "client".toList),
         (some "client_address".toList, none),
         (some "client_name".toList, some "mx.example".toList),
         (none, none)]) ∧
    (callbacks (Env.good none ["return_value=accept".toList, []])
      [Callback.connect (some "mx.example".toList) (some "192.0.2.1".toList),
       Callback.envfrom (some "a@x".toList), Callback.envrcpt "b@y".toList,
       Callback.eoh, Callback.eom]
      { priv := none, trace := [] }).map
      (fun r => (requestLines r.2.trace).filter
        (fun l => decide (l.1 = some "client_address".toList)))
    = some [(some "client_address".toList, some "192.0.2.1".toList)] := by
  refine ⟨?_, ?_⟩ <;> rfl

/-! ## Splitting at the first separator -/

theorem amavisd_line_of_lineCall {l : CStr} {c : MilterCall} (h : lineCall l = some c) :
    amavisd_line l = some (Action.call c) := by
  unfold lineCall at h
  split at h
  · rename_i c1 h1
    cases h
    exact h1
  · cases h

/-- C23: a response line is split at the first `=`: whenever `name` holds no
`=`, the line `name=value` gives that name and that value, whatever the value
holds.  The value of `addheader` is split at its first space, the values of
`chgheader` and `setreply` at their first two spaces, the text being all that
follows: for a field (index, codes) without a space and any text, the call
made for `addheader=field text` is `smfi_addheader` with that field and text,
for `chgheader=index field text` (the index read in full by `strtol`)
`smfi_chgheader` with that field and text, for `setreply=rcode xcode text`
(`rcode` starting with `4` or `5`) `smfi_setreply` with those codes and that
text.  Every split gives parts that, joined again with the separator, are the
text that was split, the first part holding no separator.  The response
`addheader=X-Note a=b c` makes `mlfi_eom` add header `X-Note` with text
`a=b c`. -/
theorem C23_lines_split_at_first_separator (name value field text idx rcode xcode : CStr)
    (hname : '=' ∉ name) (hfield : ' ' ∉ field)
    (hidx : ' ' ∉ idx) (hnum : (strtol idx).2 = [])
    (hrcode : ' ' ∉ rcode) (hxcode : ' ' ∉ xcode)
    (h45 : rcode.head? = some '4' ∨ rcode.head? = some '5') :
    AMAVISD_RESPONSE '=' (name ++ '=' :: value) = some (name, value) ∧
    amavisd_line ("addheader=".toList ++ field ++ ' ' :: text)
      = some (Action.call (MilterCall.smfi_addheader field text)) ∧
    amavisd_line ("chgheader=".toList ++ idx ++ ' ' :: (field ++ ' ' :: text))
      = some (Action.call
          (MilterCall.smfi_chgheader field (int_of_long (strtol idx).1) (some text))) ∧
    amavisd_line ("setreply=".toList ++ rcode ++ ' ' :: (xcode ++ ' ' :: text))
      = some (Action.call (MilterCall.smfi_setreply rcode xcode text)) ∧
    (∀ (sep : Char) (line item rest : CStr), AMAVISD_RESPONSE sep line = some (item, rest) →
      line = item ++ sep :: rest ∧ sep ∉ item) ∧
    milterCalls (mlfi_eom (Env.good none ["addheader=X-Note a=b c".toList, []])
        { priv := some (ctxOpen []), trace := [] }).2.trace
      = [MilterCall.smfi_addheader "X-Note".toList "a=b c".toList] :=
  ⟨AMAVISD_RESPONSE_append '=' name value hname,
   amavisd_line_of_lineCall (lineCall_addheader field text hfield),
   amavisd_line_of_lineCall (lineCall_chgheader idx field text hidx hfield hnum),
   amavisd_line_of_lineCall (lineCall_setreply_45 rcode xcode text hrcode hxcode h45),
   fun sep line item rest h => AMAVISD_RESPONSE_some sep line item rest h,
   rfl⟩

/-- C23 at the lines `addheader=X-Note a=b c`, `chgheader=2 X-Note a=b c` and
`setreply=550 5.7.1 a=b c`. -/
theorem C23_lines_split_at_first_separator_witness :
    AMAVISD_RESPONSE '=' "addheader=X-Note a=b c".toList
      = some ("addheader".toList, "X-Note a=b c".toList) ∧
    amavisd_line "addheader=X-Note a=b c".toList
      = some (Action.call (MilterCall.smfi_addheader "X-Note".toList "a=b c".toList)) ∧
    amavisd_line "chgheader=2 X-Note a=b c".toList
      = some (Action.call (MilterCall.smfi_chgheader "X-Note".toList 2 (some "a=b c".toList))) ∧
    amavisd_line "setreply=550 5.7.1 a=b c".toList
      = some (Action.call (MilterCall.smfi_setreply "550".toList "5.7.1".toList
          "a=b c".toList)) :=
  have h := C23_lines_split_at_first_separator "addheader".toList "X-Note a=b c".toList
    "X-Note".toList "a=b c".toList "2".toList "550".toList "5.7.1".toList
    (by decide) (by decide) (by decide) (by rfl) (by decide) (by decide) (Or.inr rfl)
  ⟨h.1, h.2.1, h.2.2.1, h.2.2.2.1⟩

/-! ## The work directory of a message -/

theorem nonEmpty_some {x : Option CStr} {q : CStr} (h : nonEmpty x = some q) : x = some q := by
  unfold nonEmpty at h
  split at h
  · exact h
  · cases h

theorem AMAVISD_RESPONSE_eq_specSplit (sep : Char) (l : CStr) :
    AMAVISD_RESPONSE sep l = specSplit sep l := by
  induction l with
  | nil => simp [AMAVISD_RESPONSE, specSplit]
  | cons c cs ih =>
    unfold AMAVISD_RESPONSE
    by_cases hc : c = sep
    · subst hc
      simp [specSplit]
    · have hc2 : ¬ sep = c := fun e => hc e.symm
      rw [if_neg hc, ih]
      unfold specSplit
      by_cases hm : sep ∈ cs
      · simp [hm, hc, hc2]
      · simp [hm, hc, hc2]

theorem specIndex_strtol (idx : CStr) (h : specIndex idx = true) : (strtol idx).2 = [] := by
  unfold specIndex at h
  simp only [Bool.and_eq_true, decide_eq_true_eq, List.all_eq_true] at h
  obtain ⟨hne, hall⟩ := h
  cases idx with
  | nil => exact absurd rfl hne
  | cons d ds =>
    have hd : ∀ c ∈ d :: ds, isdigit c = true := by
      intro c hc
      obtain ⟨h1, h2⟩ := hall c hc
      simp only [isdigit, Bool.and_eq_true, decide_eq_true_eq]
      have a : ('0' : Char).toNat ≤ c.toNat := h1
      have b : c.toNat ≤ ('9' : Char).toNat := h2
      exact ⟨a, b⟩
    rw [strtol_decimal d ds hd]


/-- A well-formed line is not blank and is taken by the parser of
`mlfi_eom`. -/
theorem amavisd_line_of_wellFormed (l : CStr) (h : specWellFormed l = true) :
    l ≠ [] ∧ amavisd_line l ≠ none := by
  refine ⟨?_, ?_⟩
  · intro hl
    subst hl
    simp [specWellFormed, specSplit] at h
  · unfold specWellFormed at h
    unfold amavisd_line
    simp only [AMAVISD_RESPONSE_eq_specSplit]
    cases hs : specSplit '=' l with
    | none => simp [hs] at h
    | some p =>
      obtain ⟨name, value⟩ := p
      simp only [hs] at h ⊢
      by_cases h1 : name = "addrcpt".toList
      · subst h1
        simp only [if_true]
        exact Option.some_ne_none _
      by_cases h2 : name = "delrcpt".toList
      · subst h2
        have e_addrcpt : ¬ "delrcpt".toList = "addrcpt".toList := by decide
        simp only [e_addrcpt, if_false, if_true]
        exact Option.some_ne_none _
      by_cases h3 : name = "addheader".toList
      · subst h3
        have e_addrcpt : ¬ "addheader".toList = "addrcpt".toList := by decide
        have e_delrcpt : ¬ "addheader".toList = "delrcpt".toList := by decide
        simp only [e_addrcpt, e_delrcpt, if_false, if_true] at h ⊢
        cases hv : specSplit ' ' value with
        | none => simp [hv] at h
        | some q => exact Option.some_ne_none _
      by_cases h4 : name = "chgheader".toList
      · subst h4
        have e_addrcpt : ¬ "chgheader".toList = "addrcpt".toList := by decide
        have e_delrcpt : ¬ "chgheader".toList = "delrcpt".toList := by decide
        have e_addheader : ¬ "chgheader".toList = "addheader".toList := by decide
        simp only [e_addrcpt, e_delrcpt, e_addheader, if_false, if_true] at h ⊢
        cases hv : specSplit ' ' value with
        | none => simp [hv] at h
        | some q =>
          obtain ⟨idx, rest⟩ := q
          simp only [hv, Bool.and_eq_true] at h ⊢
          simp only [specIndex_strtol idx h.1, ne_eq, not_true_eq_false, if_false]
          cases hr : specSplit ' ' rest with
          | none => simp [hr] at h
          | some q2 => exact Option.some_ne_none _
      by_cases h5 : name = "delheader".toList
      · subst h5
        have e_addrcpt : ¬ "delheader".toList = "addrcpt".toList := by decide
        have e_delrcpt : ¬ "delheader".toList = "delrcpt".toList := by decide
        have e_addheader : ¬ "delheader".toList = "addheader".toList := by decide
        have e_chgheader : ¬ "delheader".toList = "chgheader".toList := by decide
        simp only [e_addrcpt, e_delrcpt, e_addheader, e_chgheader, if_false, if_true] at h ⊢
        cases hv : specSplit ' ' value with
        | none => simp [hv] at h
        | some q =>
          obtain ⟨idx, rest⟩ := q
          simp only [hv] at h ⊢
          simp only [specIndex_strtol idx h, ne_eq, not_true_eq_false, if_false]
          exact Option.some_ne_none _
      by_cases h6 : name = "return_value".toList
      · subst h6
        have e_addrcpt : ¬ "return_value".toList = "addrcpt".toList := by decide
        have e_delrcpt : ¬ "return_value".toList = "delrcpt".toList := by decide
        have e_addheader : ¬ "return_value".toList = "addheader".toList := by decide
        have e_chgheader : ¬ "return_value".toList = "chgheader".toList := by decide
        have e_delheader : ¬ "return_value".toList = "delheader".toList := by decide
        simp only [e_addrcpt, e_delrcpt, e_addheader, e_chgheader, e_delheader, if_false,
          if_true] at h ⊢
        by_cases v1 : value = "continue".toList
        · rw [if_pos v1]
          exact Option.some_ne_none _
        by_cases v2 : value = "accept".toList
        · rw [if_neg v1, if_pos v2]
          exact Option.some_ne_none _
        by_cases v3 : value = "reject".toList
        · rw [if_neg v1, if_neg v2, if_pos v3]
          exact Option.some_ne_none _
        by_cases v4 : value = "discard".toList
        · rw [if_neg v1, if_neg v2, if_neg v3, if_pos v4]
          exact Option.some_ne_none _
        by_cases v5 : value = "tempfail".toList
        · rw [if_neg v1, if_neg v2, if_neg v3, if_neg v4, if_pos v5]
          exact Option.some_ne_none _
        rw [namedVerdict_none value v1 v2 v3 v4 v5] at h
        cases h
      by_cases h7 : name = "setreply".toList
      · subst h7
        have e_addrcpt : ¬ "setreply".toList = "addrcpt".toList := by decide
        have e_delrcpt : ¬ "setreply".toList = "delrcpt".toList := by decide
        have e_addheader : ¬ "setreply".toList = "addheader".toList := by decide
        have e_chgheader : ¬ "setreply".toList = "chgheader".toList := by decide
        have e_delheader : ¬ "setreply".toList = "delheader".toList := by decide
        have e_return_value : ¬ "setreply".toList = "return_value".toList := by decide
        simp only [e_addrcpt, e_delrcpt, e_addheader, e_chgheader, e_delheader, e_return_value,
          if_false, if_true] at h ⊢
        cases hv : specSplit ' ' value with
        | none => simp [hv] at h
        | some q =>
          obtain ⟨rcode, rest⟩ := q
          simp only [hv] at h ⊢
          cases hr : specSplit ' ' rest with
          | none => simp [hr] at h
          | some q2 =>
            simp only
            split <;> exact Option.some_ne_none _
      simp only [h1, h2, h3, h4, h5, h6, h7, if_false, ite_self]
      exact Option.some_ne_none _

theorem returnValueOf_line (value : CStr) :
    returnValueOf ("return_value=".toList ++ value) = some value := by
  simp [returnValueOf]

/-- C1: when the message file was closed, the engine connected and the request
sent, the response is lines `pre` followed by a blank line, every line of
`pre` is well-formed as the response table of the specification has it, and
every mutation-API call succeeds, then `mlfi_eom` returns the verdict named by
the last `return_value` line of `pre`: when that line is `return_value=value`
and `value` names the verdict `v`, it returns `v`.  It returns
`SMFIS_TEMPFAIL` when `pre` has no `return_value` line, whatever mutations
were applied. -/
theorem C1_eom_returns_last_return_value (env : Env) (c : mlfiCtx) (fp : FILE)
    (tr t0 : List Event) (pre post : List CStr)
    (hfp : c.mlfi_fp = some fp)
    (hopen : eom_open env tr { c with mlfi_fp := none } = Except.ok t0)
    (hresp : env.response = pre ++ [] :: post)
    (hwf : ∀ l ∈ pre, specWellFormed l = true)
    (hsmfi : ∀ t call, env.smfi t call = true) :
    (mlfi_eom env { priv := some c, trace := tr }).1 = specVerdict pre ∧
    (∀ (before after : List CStr) (value : CStr) (v : Sfsistat),
      pre = before ++ ("return_value=".toList ++ value) :: after →
      (∀ l ∈ after, returnValueOf l = none) → namedVerdict value = some v →
      (mlfi_eom env { priv := some c, trace := tr }).1 = v) ∧
    ((∀ l ∈ pre, returnValueOf l = none) →
      (mlfi_eom env { priv := some c, trace := tr }).1 = SMFIS_TEMPFAIL) := by
  have hwf2 : ∀ l ∈ pre, l ≠ [] ∧ amavisd_line l ≠ none :=
    fun l hl => amavisd_line_of_wellFormed l (hwf l hl)
  obtain ⟨r1, t1, hl⟩ := eom_lines_of_ok env hsmfi pre SMFIS_TEMPFAIL t0 hwf2
  have hr1 := (eom_lines_some env pre _ _ _ _ hl).1
  rw [specVerdict_of_lines pre (fun l hl => (hwf2 l hl).2)] at hr1
  have hv : (mlfi_eom env { priv := some c, trace := tr }).1 = specVerdict pre := by
    rw [mlfi_eom_of_open env c fp tr t0 hfp hopen, hresp,
      eom_response_of_lines env pre _ _ _ _ _ hl, eom_response_blank, hr1]
  refine ⟨hv, ?_, ?_⟩
  · intro before after value v hpre hafter hnamed
    rw [hv, hpre]
    have hnil : after.filterMap returnValueOf = [] := by
      rw [List.filterMap_eq_nil_iff]
      exact hafter
    have hfm : (before ++ ("return_value=".toList ++ value) :: after).filterMap returnValueOf
        = before.filterMap returnValueOf ++ [value] := by
      rw [List.filterMap_append, List.filterMap_cons_some (returnValueOf_line value), hnil]
    unfold specVerdict
    rw [hfm, List.getLast?_append_of_ne_nil _ (by simp)]
    simp only [List.getLast?_singleton, hnamed, Option.getD_some]
  · intro hnone
    rw [hv]
    have : pre.filterMap returnValueOf = [] := by
      rw [List.filterMap_eq_nil_iff]
      exact hnone
    simp [specVerdict, this]

/-- C1 at three responses, each ended by a blank line: after `addrcpt=d@w`,
`return_value=reject`, `chgheader=0 Subject hello`, `return_value=accept` the
verdict is `SMFIS_ACCEPT`; after `return_value=discard` alone it is
`SMFIS_DISCARD`; after `chgheader=0 Subject hello` alone it is
`SMFIS_TEMPFAIL`. -/
theorem C1_eom_returns_last_return_value_witness :
    (mlfi_eom (Env.good none (["addrcpt=d@w".toList, "return_value=reject".toList,
        "chgheader=0 Subject hello".toList, "return_value=accept".toList] ++ [[]]))
        { priv := some (ctxOpen []), trace := [] }).1 = SMFIS_ACCEPT ∧
    (mlfi_eom (Env.good none (["return_value=discard".toList] ++ [[]]))
        { priv := some (ctxOpen []), trace := [] }).1 = SMFIS_DISCARD ∧
    (mlfi_eom (Env.good none (["chgheader=0 Subject hello".toList] ++ [[]]))
        { priv := some (ctxOpen []), trace := [] }).1 = SMFIS_TEMPFAIL :=
  ⟨(C1_eom_returns_last_return_value (Env.good none (["addrcpt=d@w".toList, "return_value=reject".toList,
        "chgheader=0 Subject hello".toList, "return_value=accept".toList] ++ [[]]))
      (ctxOpen []) { data := [], error := false } []
      (match eom_open (Env.good none []) [] { ctxOpen [] with mlfi_fp := none } with
        | Except.ok t => t
        | Except.error t => t)
      ["addrcpt=d@w".toList, "return_value=reject".toList,
        "chgheader=0 Subject hello".toList, "return_value=accept".toList] [] rfl (by rfl) rfl (by decide) (fun _ _ => rfl)).2.1
      ["addrcpt=d@w".toList, "return_value=reject".toList, "chgheader=0 Subject hello".toList]
      [] "accept".toList SMFIS_ACCEPT rfl (by decide) rfl,
   (C1_eom_returns_last_return_value (Env.good none (["return_value=discard".toList] ++ [[]]))
      (ctxOpen []) { data := [], error := false } []
      (match eom_open (Env.good none []) [] { ctxOpen [] with mlfi_fp := none } with
        | Except.ok t => t
        | Except.error t => t)
      ["return_value=discard".toList] [] rfl (by rfl) rfl (by decide) (fun _ _ => rfl)).2.1
      [] [] "discard".toList SMFIS_DISCARD rfl (by decide) rfl,
   (C1_eom_returns_last_return_value (Env.good none (["chgheader=0 Subject hello".toList] ++ [[]]))
      (ctxOpen []) { data := [], error := false } []
      (match eom_open (Env.good none []) [] { ctxOpen [] with mlfi_fp := none } with
        | Except.ok t => t
        | Except.error t => t)
      ["chgheader=0 Subject hello".toList] [] rfl (by rfl) rfl (by decide) (fun _ _ => rfl)).2.2
      (by decide)⟩

/-! ## The work directory, by the answers of the file system -/

end AmavisdMilter
